import Mathlib

/-!
# go-shopify: order listing, flexible decoders and envelopes

A shallow embedding of package `goshopify`: from `order.go` the page walk of
`OrderServiceOp.ListAll` and the custom decoders `LineItem.UnmarshalJSON` and
`ShippingLines.UnmarshalJSON`, and from `order.go`, `articles.go`, `variant.go`
and `access_scopes.go` the operations that return the content of a response
envelope, with the properties proved about them.

Conventions of the embedding.

* The shared `*Client` is not part of `order.go`. It is a parameter: a state
  type `σ` together with a transition function for each client call. The
  state stands for everything a call can depend on or change (the server, the
  network, the clock).
* A Go `(value, error)` result is an `Except`; a nil slice and an empty slice
  are both `[]`.
* The `for { ... }` loop of `ListAll` has no bound in Go. The embedding gives
  it a fuel argument; running out of fuel is reported as `none`, and the
  theorems state how much fuel is enough.
* The decoders take the record they decode as the member list of a JSON
  object; a `data` argument that is not a JSON object is outside the model.
  A decoder that returns an error returns nothing else: what it had already
  written through its receiver at that point is not modelled.
* The fields of `LineItem` and `ShippingLines` other than the flexible one,
  and their default decoding, are a parameter (`R` and `std`).
* `json.Unmarshal` scans its input before it decodes and refuses a document
  nested deeper than `maxNestingDepth` (10000 levels). The two methods are
  embedded as `encoding/json` calls them, on a record that has passed that
  scan; `checkValid` is the scan and `LineItem.Unmarshal` the whole call
  `json.Unmarshal(data, &li)`, scan first and method after.
-/

namespace GoShopify

/-! ## Pagination -/

/-- The constant `ordersBasePath`. -/
def ordersBasePath : String := "orders"

/-- A value of the `options interface{}` parameter of the list operations.
The caller may pass anything (`any`); the only other value `ListAll` ever puts
there is a `*ListOptions` cursor taken from a `Pagination` (`listOptions`). -/
inductive QueryOptions (ι L : Type) where
  | any (v : ι)
  | listOptions (l : L)
  deriving DecidableEq, Repr

/-- The struct `Pagination`: the two cursors derived from a response's link
header. A nil `*ListOptions` is `none`. -/
structure Pagination (L : Type) where
  NextPageOptions : Option L
  PreviousPageOptions : Option L
  deriving DecidableEq, Repr

/-- The struct `OrdersResource`, the envelope of the `orders.json` endpoint. -/
structure OrdersResource (O : Type) where
  Orders : List O
  deriving DecidableEq, Repr

/-- The part of the shared client that `OrderServiceOp` uses for listing:
`client.ListWithPagination(ctx, path, resource, options)`. From a client state,
a path and the options it gives the next state and either an error or the
decoded resource with the pagination of that response. -/
structure Client (σ ι L O E : Type) where
  ListWithPagination :
    σ → String → QueryOptions ι L → σ × Except E (OrdersResource O × Pagination L)

/-- The method `OrderServiceOp.ListWithPagination`: one page fetch. -/
def OrderServiceOp.ListWithPagination {σ ι L O E : Type} (c : Client σ ι L O E)
    (s : σ) (options : QueryOptions ι L) : σ × Except E (List O × Pagination L) :=
  let path := ordersBasePath ++ ".json"
  match c.ListWithPagination s path options with
  | (s', .error err) => (s', .error err)
  | (s', .ok (resource, pagination)) => (s', .ok (resource.Orders, pagination))

/-- What a run of `ListAll` leaves behind.

* `state`: the client state after the last call the run made;
* `calls`: the options of every `ListWithPagination` call the run issued, in
  order (a ghost log, not a Go variable);
* `result`: the returned pair `(collector, err)`, or `none` when the loop was
  still running when the fuel ran out. -/
structure ListAllRun (σ ι L O E : Type) where
  state : σ
  calls : List (QueryOptions ι L)
  result : Option (List O × Option E)

/-- The loop of `OrderServiceOp.ListAll`, one iteration per unit of fuel.
`collector` and `options` are the Go variables of the same name. -/
def OrderServiceOp.ListAllLoop {σ ι L O E : Type} (c : Client σ ι L O E) :
    Nat → σ → QueryOptions ι L → List O → List (QueryOptions ι L) → ListAllRun σ ι L O E
  | 0, s, _, _, calls => ⟨s, calls, none⟩
  | fuel + 1, s, options, collector, calls =>
    match OrderServiceOp.ListWithPagination c s options with
    | (s', .error err) => ⟨s', calls ++ [options], some (collector, some err)⟩
    | (s', .ok (entities, pagination)) =>
      match pagination.NextPageOptions with
      | none => ⟨s', calls ++ [options], some (collector ++ entities, none)⟩
      | some next =>
        OrderServiceOp.ListAllLoop c fuel s' (.listOptions next) (collector ++ entities)
          (calls ++ [options])

/-- The method `OrderServiceOp.ListAll`: the loop started with an empty
collector. -/
def OrderServiceOp.ListAll {σ ι L O E : Type} (c : Client σ ι L O E) (fuel : Nat)
    (s : σ) (options : QueryOptions ι L) : ListAllRun σ ι L O E :=
  OrderServiceOp.ListAllLoop c fuel s options [] []

/-- A page that carries a next cursor: its items, the next cursor and the
previous cursor, if any. -/
structure LinkedPage (L O : Type) where
  items : List O
  next : L
  previous : Option L
  deriving DecidableEq, Repr

/-- The predicate `FetchesChain c s o pages s' o'`: starting from client state `s`, the
successive page fetches, the first with options `o` and each later one with the
next cursor of the page before it, succeed and return exactly `pages`, every
one of them carrying a next cursor; `s'` is the client state after the last of
these fetches and `o'` the options the following fetch is due with. -/
def FetchesChain {σ ι L O E : Type} (c : Client σ ι L O E) :
    σ → QueryOptions ι L → List (LinkedPage L O) → σ → QueryOptions ι L → Prop
  | s, o, [], s', o' => s' = s ∧ o' = o
  | s, o, p :: ps, s', o' =>
    (OrderServiceOp.ListWithPagination c s o).2 = .ok (p.items, ⟨some p.next, p.previous⟩) ∧
    FetchesChain c (OrderServiceOp.ListWithPagination c s o).1 (.listOptions p.next) ps s' o'

/-- The items of a list of pages, page after page. -/
def pageItems {L O : Type} (pages : List (LinkedPage L O)) : List O :=
  (pages.map (fun p => p.items)).flatten

/-- The options of the fetches that follow a chain of pages: the options of
the first fetch, then the next cursor of every page. -/
def chainOptions {ι L O : Type} (o : QueryOptions ι L) (pages : List (LinkedPage L O)) :
    List (QueryOptions ι L) :=
  o :: pages.map (fun p => QueryOptions.listOptions p.next)

/-! ## JSON documents and the Go values `encoding/json` produces

`LineItem.UnmarshalJSON` and `ShippingLines.UnmarshalJSON` call
`json.Unmarshal` and `fmt.Sprintf` of the Go standard library. The embedding
works on parsed JSON: a document is a `JSON` tree, so its text is well formed
by construction, and a record is the member list of a JSON object, in document
order and with duplicate keys kept. The library functions are embedded as far
as the two decoders use them. -/

/-- A parsed JSON text. Strings and member names are held unescaped. A number
is an integer literal, written in the usual way without fraction or exponent;
other number literals are outside the model. -/
inductive JSON where
  | null
  | bool (b : Bool)
  | number (n : Int)
  | string (s : String)
  | array (elems : List JSON)
  | object (members : List (String × JSON))
  deriving Repr

/-- What `json.Unmarshal` stores in an `interface{}`: nil, `bool`, `float64`,
`string`, `[]interface{}` or `map[string]interface{}`. A `float64` that comes
from an integer literal is an integer and is held as that integer. A map is
held as its entries sorted by key, every key once. -/
inductive GoValue where
  | nil
  | bool (b : Bool)
  | float64 (v : Int)
  | string (s : String)
  | slice (elems : List GoValue)
  | map (entries : List (String × GoValue))
  deriving Repr

/-- The test `v == nil` on an `interface{}`. -/
def GoValue.isNil : GoValue → Bool
  | .nil => true
  | _ => false

/-- The error `*json.UnmarshalTypeError`, with its fields `Value` (a
description of the JSON value) and `Type` (the Go type it could not be stored
in). -/
structure UnmarshalTypeError where
  Value : String
  GoType : String
  deriving DecidableEq, Repr

/-- The method `decodeState.saveError`: the first error is kept. -/
def saveError (saved : Option UnmarshalTypeError) (err : Option UnmarshalTypeError) :
    Option UnmarshalTypeError :=
  match saved with
  | some e => some e
  | none => err

/-- The float64 nearest to a natural number, ties to the even mantissa, as
`strconv.ParseFloat` gives it; `none` when the number is out of range. The
result is again an integer. -/
def parseFloat64Nat (m : Nat) : Option Nat :=
  if m < 2 ^ 53 then some m
  else
    let k := Nat.log2 m + 1 - 53
    let q := m / 2 ^ k
    let r := m % 2 ^ k
    let q' := if 2 ^ k < 2 * r ∨ (2 * r = 2 ^ k ∧ q % 2 = 1) then q + 1 else q
    if q' * 2 ^ k < 2 ^ 1024 then some (q' * 2 ^ k) else none

/-- The function `decodeState.convertNumber` on an integer literal. -/
def convertNumber (n : Int) : Except UnmarshalTypeError Int :=
  match n with
  | .ofNat m =>
    match parseFloat64Nat m with
    | some v => .ok (Int.ofNat v)
    | none => .error ⟨"number " ++ toString n, "float64"⟩
  | .negSucc m =>
    match parseFloat64Nat (m + 1) with
    | some v => .ok (-(Int.ofNat v))
    | none => .error ⟨"number " ++ toString n, "float64"⟩

/-- Storing an entry in a `map[string]interface{}`: a key that is already
there gets the new value. -/
def GoValue.mapInsert (k : String) (v : GoValue) :
    List (String × GoValue) → List (String × GoValue)
  | [] => [(k, v)]
  | (k', v') :: rest =>
    if k = k' then (k, v) :: rest
    else if k < k' then (k, v) :: (k', v') :: rest
    else (k', v') :: GoValue.mapInsert k v rest

/-- The map built from the members of a JSON object, stored one after the
other. -/
def GoValue.mkMap (members : List (String × GoValue)) : List (String × GoValue) :=
  members.foldl (fun acc m => GoValue.mapInsert m.1 m.2 acc) []

mutual
/-- The method `decodeState.valueInterface`: a JSON value as an `interface{}`,
with the first error met on the way. A number out of range leaves nil in its
place. -/
def JSON.valueInterface : JSON → GoValue × Option UnmarshalTypeError
  | .null => (.nil, none)
  | .bool b => (.bool b, none)
  | .number n =>
    match convertNumber n with
    | .ok v => (.float64 v, none)
    | .error err => (.nil, some err)
  | .string s => (.string s, none)
  | .array elems =>
    let r := JSON.arrayInterface elems
    (.slice r.1, r.2)
  | .object members =>
    let r := JSON.objectInterface members
    (.map (GoValue.mkMap r.1), r.2)
/-- The method `decodeState.arrayInterface`, element by element. -/
def JSON.arrayInterface : List JSON → List GoValue × Option UnmarshalTypeError
  | [] => ([], none)
  | x :: xs =>
    let a := JSON.valueInterface x
    let b := JSON.arrayInterface xs
    (a.1 :: b.1, saveError a.2 b.2)
/-- The method `decodeState.objectInterface`, member by member; the result is
the list of converted members, from which the map is built. -/
def JSON.objectInterface : List (String × JSON) →
    List (String × GoValue) × Option UnmarshalTypeError
  | [] => ([], none)
  | (k, x) :: ms =>
    let a := JSON.valueInterface x
    let b := JSON.objectInterface ms
    ((k, a.1) :: b.1, saveError a.2 b.2)
end

/-- Decoding a JSON value into a field of type `interface{}` that holds `old`:
the field takes the converted value; a number out of range is reported and
leaves the field as it was. -/
def JSON.storeInterface (old : GoValue) (x : JSON) : GoValue × Option UnmarshalTypeError :=
  match x with
  | .number n =>
    match convertNumber n with
    | .ok v => (.float64 v, none)
    | .error err => (old, some err)
  | _ => JSON.valueInterface x

/-- The first byte of the text of a JSON value, which is what a
`json.RawMessage` holding the value starts with. -/
def JSON.firstByte : JSON → Char
  | .null => 'n'
  | .bool true => 't'
  | .bool false => 'f'
  | .number n => (toString n).front
  | .string _ => '"'
  | .array _ => '['
  | .object _ => '{'

/-- The function `foldRune` of `encoding/json` as far as it matters for names
made of ASCII: letters are folded to upper case, and so are the two other
runes that fold to an ASCII letter, U+017F (long s) and U+212A (Kelvin sign). -/
def foldRune (c : Char) : Char :=
  if 'a' ≤ c ∧ c ≤ 'z' then Char.ofNat (c.toNat - 32)
  else if c = Char.ofNat 0x17F then 'S'
  else if c = Char.ofNat 0x212A then 'K'
  else c

/-- The function `foldName` of `encoding/json`. -/
def foldName (s : String) : String :=
  String.mk (s.data.map foldRune)

/-- Whether the member name `key` of a JSON object selects the struct field
with JSON name `name`: an exact match or, failing that, a match of the folded
names. -/
def fieldMatches (name key : String) : Bool :=
  key == name || foldName key == foldName name

/-- The values of the members of a record that select the field `name`, in
document order. -/
def fieldValues (name : String) (data : List (String × JSON)) : List JSON :=
  (data.filter (fun m => fieldMatches name m.1)).map (fun m => m.2)

/-- The members of a record that do not select the field `name`. -/
def otherMembers (name : String) (data : List (String × JSON)) : List (String × JSON) :=
  data.filter (fun m => !fieldMatches name m.1)

/-- An error returned by one of the custom decoders: an error of the default
decoding of the other fields of the struct, or a type error of
`encoding/json`. -/
inductive DecodeError (E : Type) where
  | fields (e : E)
  | unmarshalType (e : UnmarshalTypeError)
  deriving DecidableEq, Repr

/-! ## `NoteAttribute` and `LineItem` -/

/-- The struct `NoteAttribute`. -/
structure NoteAttribute where
  Name : String
  Value : GoValue
  deriving Repr

/-- Decoding one member of a JSON object into a `NoteAttribute`: `name` takes
a string and ignores null, `value` takes anything, other members are skipped.
The second component is the saved error. -/
def NoteAttribute.decodeMember (acc : NoteAttribute × Option UnmarshalTypeError)
    (m : String × JSON) : NoteAttribute × Option UnmarshalTypeError :=
  if fieldMatches "name" m.1 then
    match m.2 with
    | .string s => ({ acc.1 with Name := s }, acc.2)
    | .null => acc
    | .bool _ => (acc.1, saveError acc.2 (some ⟨"bool", "string"⟩))
    | .number _ => (acc.1, saveError acc.2 (some ⟨"number", "string"⟩))
    | .array _ => (acc.1, saveError acc.2 (some ⟨"array", "string"⟩))
    | .object _ => (acc.1, saveError acc.2 (some ⟨"object", "string"⟩))
  else if fieldMatches "value" m.1 then
    let r := JSON.storeInterface acc.1.Value m.2
    ({ acc.1 with Value := r.1 }, saveError acc.2 r.2)
  else acc

/-- Decoding a JSON value into the `NoteAttribute` `p`: an object member by
member, null with no effect, anything else a type error. -/
def NoteAttribute.decodeInto (p : NoteAttribute) (x : JSON) :
    NoteAttribute × Option UnmarshalTypeError :=
  match x with
  | .object members => members.foldl NoteAttribute.decodeMember (p, none)
  | .null => (p, none)
  | .bool _ => (p, some ⟨"bool", "goshopify.NoteAttribute"⟩)
  | .number _ => (p, some ⟨"number", "goshopify.NoteAttribute"⟩)
  | .string _ => (p, some ⟨"string", "goshopify.NoteAttribute"⟩)
  | .array _ => (p, some ⟨"array", "goshopify.NoteAttribute"⟩)

/-- The call `json.Unmarshal(raw, &p)` with `var p NoteAttribute`. -/
def NoteAttribute.Unmarshal (raw : JSON) : Except UnmarshalTypeError NoteAttribute :=
  match NoteAttribute.decodeInto ⟨"", .nil⟩ raw with
  | (p, none) => .ok p
  | (_, some err) => .error err

/-- Decoding the elements of a JSON array into a `[]NoteAttribute`, each into
a fresh element, keeping the first error. -/
def NoteAttribute.decodeElems : List JSON → List NoteAttribute × Option UnmarshalTypeError
  | [] => ([], none)
  | x :: xs =>
    let a := NoteAttribute.decodeInto ⟨"", .nil⟩ x
    let b := NoteAttribute.decodeElems xs
    (a.1 :: b.1, saveError a.2 b.2)

/-- The call `json.Unmarshal(raw, &p)` with `var p []NoteAttribute`. -/
def NoteAttribute.UnmarshalSlice (raw : JSON) :
    Except UnmarshalTypeError (List NoteAttribute) :=
  match raw with
  | .array elems =>
    match NoteAttribute.decodeElems elems with
    | (p, none) => .ok p
    | (_, some err) => .error err
  | .null => .ok []
  | .bool _ => .error ⟨"bool", "[]goshopify.NoteAttribute"⟩
  | .number _ => .error ⟨"number", "[]goshopify.NoteAttribute"⟩
  | .string _ => .error ⟨"string", "[]goshopify.NoteAttribute"⟩
  | .object _ => .error ⟨"object", "[]goshopify.NoteAttribute"⟩

/-- The struct `LineItem`: the field `Properties`, and in `rest` all its other
fields, whose types and decoding are a parameter. -/
structure LineItem (R : Type) where
  Properties : List NoteAttribute
  rest : R

/-- The local struct `aux` of `LineItem.UnmarshalJSON`: the raw `properties`
value (`none` for a `json.RawMessage` of length 0) and, in `li`, the line item
the embedded `*alias` points to. -/
structure LineItemAux (R : Type) where
  Properties : Option JSON
  li : LineItem R

/-- The call `json.Unmarshal(data, &aux)` of `LineItem.UnmarshalJSON` on a
record. The field `Properties` of `aux` hides the one of the embedded struct,
so the members named `properties` go to the raw message, each overwriting the
one before, and never reach the line item; all other members are decoded by
`std`, the default decoding of the other fields.

This is the decoding proper. `json.Unmarshal` first scans its input and
refuses a document nested deeper than `maxNestingDepth`; that scan is
`checkValid`, and `LineItem.Unmarshal` puts it in front of the method. When
`encoding/json` calls the method, the record has passed that scan already, and
the scan of this call runs over the same bytes. -/
def LineItem.unmarshalAux {R E : Type} (std : List (String × JSON) → R → Except E R)
    (li : LineItem R) (data : List (String × JSON)) : Except (DecodeError E) (LineItemAux R) :=
  match std (otherMembers "properties" data) li.rest with
  | .error e => .error (.fields e)
  | .ok r => .ok ⟨(fieldValues "properties" data).getLast?, { li with rest := r }⟩

/-- The method `LineItem.UnmarshalJSON`, on a record `data` and the line item
`li` the receiver points to, as `encoding/json` calls it: on a record that the
scan of `json.Unmarshal` has accepted (see `LineItem.Unmarshal`). -/
def LineItem.UnmarshalJSON {R E : Type} (std : List (String × JSON) → R → Except E R)
    (li : LineItem R) (data : List (String × JSON)) : Except (DecodeError E) (LineItem R) :=
  match LineItem.unmarshalAux std li data with
  | .error err => .error err
  | .ok aux =>
    match aux.Properties with
    | none => .ok aux.li
    | some raw =>
      if raw.firstByte = '[' then
        match NoteAttribute.UnmarshalSlice raw with
        | .error err => .error (.unmarshalType err)
        | .ok p => .ok { aux.li with Properties := p }
      else
        match NoteAttribute.Unmarshal raw with
        | .error err => .error (.unmarshalType err)
        | .ok p =>
          if p.Name = "" ∧ p.Value.isNil = true then
            .ok { aux.li with Properties := [] }
          else
            .ok { aux.li with Properties := [p] }

/-! ## `fmt.Sprintf("%v", x)` and `ShippingLines` -/

/-- The struct `decimalSlice` of `strconv`: the decimal digits `d` of a number
(their count is Go's `nd`) and the position `dp` of the decimal point. -/
structure decimalSlice where
  d : List Char
  dp : Nat

/-- A list of digits without its trailing zeros. -/
def trimTrailingZeros (ds : List Char) : List Char :=
  (ds.reverse.dropWhile (fun c => c == '0')).reverse

/-- The shortest decimal digits that identify the float64 with integer value
`m`, for `m < 2 ^ 53`: the decimal digits of `m` without trailing zeros, the
decimal point after all digits of `m`; no digits for zero. -/
def shortestDigits (m : Nat) : decimalSlice :=
  if m = 0 then ⟨[], 0⟩
  else ⟨trimTrailingZeros (Nat.toDigits 10 m), (Nat.toDigits 10 m).length⟩

/-- The function `fmtF` of `strconv` with precision 0 (`%f` without a
fraction): the digits before the decimal point, filled up with zeros. -/
def fmtF (digs : decimalSlice) : List Char :=
  if 0 < digs.dp then
    let m := min digs.d.length digs.dp
    digs.d.take m ++ List.replicate (digs.dp - m) '0'
  else ['0']

/-- The function `fmtE` of `strconv` with precision `prec` (`%e`): the first
digit, the further digits after a point, then `e`, the sign of the exponent
and at least two exponent digits. -/
def fmtE (digs : decimalSlice) (prec : Nat) : List Char :=
  let first := digs.d.headD '0'
  let m := min digs.d.length (prec + 1)
  let more :=
    if 0 < prec then
      '.' :: ((digs.d.take m).drop 1 ++ List.replicate (prec + 1 - max 1 m) '0')
    else []
  let exp : Int := if digs.d.length = 0 then 0 else (digs.dp : Int) - 1
  let sign := if exp < 0 then '-' else '+'
  let e := exp.natAbs
  let expDigits :=
    if e < 10 then ['0', Nat.digitChar e]
    else if e < 100 then [Nat.digitChar (e / 10), Nat.digitChar (e % 10)]
    else [Nat.digitChar (e / 100), Nat.digitChar (e / 10 % 10), Nat.digitChar (e % 10)]
  first :: more ++ 'e' :: sign :: expDigits

/-- The case `'g'` of `strconv.formatDigits` for the shortest representation:
`%e` when the exponent is below -4 or at least 6, otherwise `%f`. -/
def formatDigitsG (digs : decimalSlice) : List Char :=
  let exp : Int := (digs.dp : Int) - 1
  if exp < -4 ∨ 6 ≤ exp then fmtE digs (digs.d.length - 1)
  else fmtF digs

/-- The verb `%v` on a float64 with integer value `v`. Below `2 ^ 53` in
absolute value the digits are the ones of `shortestDigits`; for larger values
the output of `strconv` is the parameter `large`. -/
def fmtFloat (large : Int → String) (v : Int) : String :=
  if v.natAbs < 2 ^ 53 then
    String.mk ((if v < 0 then ['-'] else []) ++ formatDigitsG (shortestDigits v.natAbs))
  else large v

mutual
/-- The call `fmt.Sprintf("%v", x)` on a value that `encoding/json` produced. -/
def GoValue.Sprintf (large : Int → String) : GoValue → String
  | .nil => "<nil>"
  | .bool b => if b then "true" else "false"
  | .float64 v => fmtFloat large v
  | .string s => s
  | .slice elems => "[" ++ GoValue.sprintElems large elems ++ "]"
  | .map entries => "map[" ++ GoValue.sprintEntries large entries ++ "]"
/-- The elements of a slice under `%v`, separated by spaces. -/
def GoValue.sprintElems (large : Int → String) : List GoValue → String
  | [] => ""
  | x :: xs =>
    GoValue.Sprintf large x ++ (if xs.isEmpty then "" else " ") ++ GoValue.sprintElems large xs
/-- The entries of a map under `%v`, as `key:value`, separated by spaces. -/
def GoValue.sprintEntries (large : Int → String) : List (String × GoValue) → String
  | [] => ""
  | (k, x) :: rest =>
    k ++ ":" ++ GoValue.Sprintf large x ++ (if rest.isEmpty then "" else " ") ++
      GoValue.sprintEntries large rest
end

/-- The struct `ShippingLines`: the field `RequestedFulfillmentServiceId`, and
in `rest` all its other fields, whose types and decoding are a parameter. -/
structure ShippingLines (R : Type) where
  RequestedFulfillmentServiceId : String
  rest : R

/-- The local struct `aux` of `ShippingLines.UnmarshalJSON`: in `sl` the
shipping line the embedded `*alias` points to, and the `interface{}` field
that takes `requested_fulfillment_service_id`. -/
structure ShippingLinesAux (R : Type) where
  sl : ShippingLines R
  RequestedFulfillmentServiceId : GoValue

/-- The call `json.Unmarshal(data, &aux)` of `ShippingLines.UnmarshalJSON` on a
record. The `interface{}` field of `aux` hides the string field of the embedded
struct: the members named `requested_fulfillment_service_id` are stored in it
one after the other, starting from nil, and never reach the shipping line; all
other members are decoded by `std`, the default decoding of the other fields.
When both `std` and a number out of range fail, Go returns the error of the
member that comes first in the document; here the error of `std` is
returned. As for `LineItem.unmarshalAux`, this is the decoding proper, on a
record that the scan of `json.Unmarshal` (`checkValid`) accepts. -/
def ShippingLines.unmarshalAux {R E : Type} (std : List (String × JSON) → R → Except E R)
    (sl : ShippingLines R) (data : List (String × JSON)) :
    Except (DecodeError E) (ShippingLinesAux R) :=
  match std (otherMembers "requested_fulfillment_service_id" data) sl.rest with
  | .error e => .error (.fields e)
  | .ok r =>
    match (fieldValues "requested_fulfillment_service_id" data).foldl
        (fun acc x => ((JSON.storeInterface acc.1 x).1,
          saveError acc.2 (JSON.storeInterface acc.1 x).2)) (GoValue.nil, none) with
    | (v, none) => .ok ⟨{ sl with rest := r }, v⟩
    | (_, some err) => .error (.unmarshalType err)

/-- The method `ShippingLines.UnmarshalJSON`, on a record `data` and the
shipping line `sl` the receiver points to. -/
def ShippingLines.UnmarshalJSON {R E : Type} (large : Int → String)
    (std : List (String × JSON) → R → Except E R)
    (sl : ShippingLines R) (data : List (String × JSON)) :
    Except (DecodeError E) (ShippingLines R) :=
  match ShippingLines.unmarshalAux std sl data with
  | .error err => .error err
  | .ok aux =>
    match aux.RequestedFulfillmentServiceId with
    | .nil => .ok { aux.sl with RequestedFulfillmentServiceId := "" }
    | v => .ok { aux.sl with RequestedFulfillmentServiceId := GoValue.Sprintf large v }

/-- An instance of the default decoding of the other fields, with the one
field `title` of type string: a string is stored, null is ignored, any other
value is a type error. -/
def titleField : List (String × JSON) → String → Except String String
  | [], title => .ok title
  | (k, x) :: ms, title =>
    if fieldMatches "title" k then
      match x with
      | .string s => titleField ms s
      | .null => titleField ms title
      | _ => .error "json: cannot unmarshal into Go struct field .title of type string"
    else titleField ms title

/-! ## Re-encoding with `json.Marshal` -/

/-- The call `json.Marshal` on a `ShippingLines`. The struct has no encoder of
its own, so its fields are written in the order of their declaration:
`before` and `after` give the members written for the fields declared before
and after `RequestedFulfillmentServiceId` (a parameter, like their decoding),
and that field, tagged `omitempty`, is written as a JSON string unless it is
empty. -/
def ShippingLines.Marshal {R : Type} (before after : R → List (String × JSON))
    (sl : ShippingLines R) : List (String × JSON) :=
  before sl.rest ++
    (if sl.RequestedFulfillmentServiceId = "" then []
     else [("requested_fulfillment_service_id", JSON.string sl.RequestedFulfillmentServiceId)]) ++
    after sl.rest

mutual
/-- The call `json.Marshal` on a value that `encoding/json` stored in an
`interface{}`. The entries of a map are written sorted by key, which is how
they are held. A float64 is written as the integer literal of its value; from
`2 ^ 53` on Go writes the shortest literal that reads back as the same
float64, which may differ in its digits or carry an exponent but denotes the
same float64 to the decoder. -/
def GoValue.Marshal : GoValue → JSON
  | .nil => .null
  | .bool b => .bool b
  | .float64 v => .number v
  | .string s => .string s
  | .slice elems => .array (GoValue.marshalElems elems)
  | .map entries => .object (GoValue.marshalEntries entries)
/-- The elements of a slice, encoded one by one. -/
def GoValue.marshalElems : List GoValue → List JSON
  | [] => []
  | x :: xs => GoValue.Marshal x :: GoValue.marshalElems xs
/-- The entries of a map, encoded one by one. -/
def GoValue.marshalEntries : List (String × GoValue) → List (String × JSON)
  | [] => []
  | (k, x) :: rest => (k, GoValue.Marshal x) :: GoValue.marshalEntries rest
end

/-- A value of an `interface{}` reads back as itself: decoding its encoding
gives the value again, without error. -/
def GoValue.RoundTrips (g : GoValue) : Prop :=
  JSON.valueInterface g.Marshal = (g, none)

/-- The call `json.Marshal` on a `NoteAttribute`: both fields are tagged
`omitempty`, so `name` is written unless it is the empty string and `value`
unless the interface is nil. -/
def NoteAttribute.Marshal (p : NoteAttribute) : JSON :=
  .object ((if p.Name = "" then [] else [("name", JSON.string p.Name)]) ++
    (if p.Value.isNil = true then [] else [("value", p.Value.Marshal)]))

/-- The call `json.Marshal` on a `LineItem`. The struct has no encoder of its
own, so its fields are written in the order of their declaration: `before` and
`after` give the members written for the fields declared before and after
`Properties` (a parameter, like their decoding), and `Properties`, tagged
`omitempty`, is written as an array unless it has no element. -/
def LineItem.Marshal {R : Type} (before after : R → List (String × JSON))
    (li : LineItem R) : List (String × JSON) :=
  before li.rest ++
    (if li.Properties.isEmpty = true then []
     else [("properties", JSON.array (li.Properties.map NoteAttribute.Marshal))]) ++
    after li.rest

/-- The encoding that goes with `titleField`: the field `title`, tagged
`omitempty`, is written unless it is empty. -/
def titleMember (title : String) : List (String × JSON) :=
  if title = "" then [] else [("title", JSON.string title)]

/-! ## Single-entity and list operations

The operations below hand a freshly allocated resource struct to a client
call, which fills it through the pointer, and return one field of it. A client
call is a parameter: from a client state it gives the next state, the resource
as the call left it, and the error it returned (`none` for nil). An id of type
`uint64` is a natural number; `%d` writes it in decimal. -/

/-- The method `client.Get(ctx, path, resource, options)` at a resource of
type `ρ`; nil options are `none`. -/
abbrev ClientGet (σ ι ρ E : Type) : Type :=
  σ → String → ρ → Option ι → σ × ρ × Option E

/-- The method `client.NewRequest(ctx, method, path, body, options)`, always
called with a nil body here: the arguments are the method, the path and the
options, the result the request or an error. -/
abbrev ClientNewRequest (σ ι Q E : Type) : Type :=
  σ → String → String → Option ι → σ × Except E Q

/-- The method `client.Do(req, resource)` at a resource of type `ρ`. -/
abbrev ClientDo (σ Q ρ E : Type) : Type :=
  σ → Q → ρ → σ × ρ × Option E

/-- Modelled from the spec: the constant `blogsBasePath` is declared in a file
that is not under `src`; the nested paths of the spec and the URLs of the
article tests give its value. -/
def blogsBasePath : String := "blogs"

/-- The constant `articlesBasePath`. -/
def articlesBasePath : String := "articles"

/-- The constant `variantsBasePath`. -/
def variantsBasePath : String := "variants"

/-- The struct `ArticleResource`; a nil `*Article` is `none`. -/
structure ArticleResource (A : Type) where
  Article : Option A
  deriving DecidableEq, Repr

/-- The struct `ArticlesResource`. -/
structure ArticlesResource (A : Type) where
  Articles : List A
  deriving DecidableEq, Repr

/-- The struct `OrderResource`; a nil `*Order` is `none`. -/
structure OrderResource (O : Type) where
  Order : Option O
  deriving DecidableEq, Repr

/-- The struct `VariantResource`; a nil `*Variant` is `none`. -/
structure VariantResource (V : Type) where
  Variant : Option V
  deriving DecidableEq, Repr

/-- The struct `AccessScope`. -/
structure AccessScope where
  Handle : String
  deriving DecidableEq, Repr

/-- The struct `AccessScopesResource`. -/
structure AccessScopesResource where
  AccessScopes : List AccessScope
  deriving DecidableEq, Repr

/-- The method `ArticlesServiceOp.Get`: the entity pointer of the resource and
the error of the client call, as they are. -/
def ArticlesServiceOp.Get {σ ι A E : Type} (get : ClientGet σ ι (ArticleResource A) E)
    (s : σ) (blogId articleId : Nat) : σ × Option A × Option E :=
  let path := blogsBasePath ++ "/" ++ toString blogId ++ "/" ++ articlesBasePath ++ "/" ++
    toString articleId ++ ".json"
  let resource : ArticleResource A := ⟨none⟩
  match get s path resource none with
  | (s', resource, err) => (s', resource.Article, err)

/-- The method `OrderServiceOp.Get`. -/
def OrderServiceOp.Get {σ ι O E : Type} (get : ClientGet σ ι (OrderResource O) E)
    (s : σ) (orderId : Nat) (options : Option ι) : σ × Option O × Option E :=
  let path := ordersBasePath ++ "/" ++ toString orderId ++ ".json"
  let resource : OrderResource O := ⟨none⟩
  match get s path resource options with
  | (s', resource, err) => (s', resource.Order, err)

/-- The method `VariantServiceOp.Get`. -/
def VariantServiceOp.Get {σ ι V E : Type} (get : ClientGet σ ι (VariantResource V) E)
    (s : σ) (variantId : Nat) (options : Option ι) : σ × Option V × Option E :=
  let path := variantsBasePath ++ "/" ++ toString variantId ++ ".json"
  let resource : VariantResource V := ⟨none⟩
  match get s path resource options with
  | (s', resource, err) => (s', resource.Variant, err)

/-- The method `ArticlesServiceOp.List`. -/
def ArticlesServiceOp.List {σ ι A E : Type} (get : ClientGet σ ι (ArticlesResource A) E)
    (s : σ) (blogId : Nat) (options : Option ι) : σ × List A × Option E :=
  let path := blogsBasePath ++ "/" ++ toString blogId ++ "/" ++ articlesBasePath ++ ".json"
  let resource : ArticlesResource A := ⟨[]⟩
  match get s path resource options with
  | (s', resource, err) => (s', resource.Articles, err)

/-- The method `AccessScopesServiceOp.List`: a request is built and, unless
that fails, executed. -/
def AccessScopesServiceOp.List {σ ι Q E : Type} (newRequest : ClientNewRequest σ ι Q E)
    (execute : ClientDo σ Q AccessScopesResource E) (s : σ) (options : Option ι) :
    σ × List AccessScope × Option E :=
  let path := "admin/oauth/access_scopes.json"
  let resource : AccessScopesResource := ⟨[]⟩
  match newRequest s "GET" path options with
  | (s1, .error err) => (s1, [], some err)
  | (s1, .ok req) =>
    match execute s1 req resource with
    | (s2, resource, err) => (s2, resource.AccessScopes, err)

/-- A client call that gets a response with status 200 and the body `{}`: no
member of the body names a field of the resource, so the resource is left as it
was, and no error is returned. The state counts the requests. -/
def emptyObjectGet {ι ρ : Type} : ClientGet Nat ι ρ String :=
  fun s _ resource _ => (s + 1, resource, none)

/-- A client call that gets the response of `TestArticleList`: the articles
with ids 1 and 2, an article being held as its id. -/
def twoArticlesGet : ClientGet Nat String (ArticlesResource Nat) String :=
  fun s _ _ _ => (s + 1, ⟨[1, 2]⟩, none)

/-- A client that builds a request out of method and path. -/
def plainNewRequest : ClientNewRequest Nat String (String × String) String :=
  fun s method path _ => (s, .ok (method, path))

/-- A client call that gets the response of `TestAccessScopesServiceOp_List`:
the scopes `scope_1` and `scope_2`. -/
def twoScopesDo : ClientDo Nat (String × String) AccessScopesResource String :=
  fun s _ _ => (s + 1, ⟨[⟨"scope_1"⟩, ⟨"scope_2"⟩]⟩, none)

/-! ## The documented shapes of `properties` -/

mutual
/-- Whether every number inside a JSON value is within the range of float64. -/
def JSON.inRange : JSON → Bool
  | .null => true
  | .bool _ => true
  | .number n => (parseFloat64Nat n.natAbs).isSome
  | .string _ => true
  | .array elems => JSON.allInRange elems
  | .object members => JSON.membersInRange members
/-- The elements of an array are all within range. -/
def JSON.allInRange : List JSON → Bool
  | [] => true
  | x :: xs => JSON.inRange x && JSON.allInRange xs
/-- The values of the members of an object are all within range. -/
def JSON.membersInRange : List (String × JSON) → Bool
  | [] => true
  | (_, x) :: ms => JSON.inRange x && JSON.membersInRange ms
end

/-- A name/value object on the wire: a JSON object in which every member
named `name` holds a string or null; the members named `value` hold any JSON
value, and there may be other members. -/
def IsNameValueObject (x : JSON) : Prop :=
  ∃ members, x = .object members ∧
    ∀ m ∈ members, fieldMatches "name" m.1 = true → (∃ s, m.2 = .string s) ∨ m.2 = .null

/-- The numbers inside the `value` members of a JSON object are within the
range of float64. -/
def ValuesInRange (x : JSON) : Prop :=
  ∀ members, x = .object members →
    ∀ m ∈ members, fieldMatches "value" m.1 = true → m.2.inRange = true

/-- The documented shapes of the `properties` value of a record: absent
(`none`), null, a single name/value object, or an array of name/value
objects. -/
def DocumentedProperties : Option JSON → Prop
  | none => True
  | some .null => True
  | some (.array elems) => ∀ x ∈ elems, IsNameValueObject x
  | some x => IsNameValueObject x

/-- The range condition on the `properties` value of a record: the numbers
inside the `value` members of the single object, or of every object of the
array, are within the range of float64. -/
def PropertiesInRange : Option JSON → Prop
  | none => True
  | some (.array elems) => ∀ x ∈ elems, ValuesInRange x
  | some x => ValuesInRange x

/-! ## The other operations of the article, order and variant services -/

/-- The method `client.Post(ctx, path, data, resource)` at a body of type `β`
and a resource of type `ρ`; a nil body is `none`. -/
abbrev ClientPost (σ β ρ E : Type) : Type :=
  σ → String → Option β → ρ → σ × ρ × Option E

/-- The method `client.Put(ctx, path, data, resource)`. -/
abbrev ClientPut (σ β ρ E : Type) : Type :=
  σ → String → Option β → ρ → σ × ρ × Option E

/-- The method `client.Delete(ctx, path)`. -/
abbrev ClientDelete (σ E : Type) : Type :=
  σ → String → σ × Option E

/-- The method `client.Count(ctx, path, options)`, which returns an `int` and
an error. -/
abbrev ClientCount (σ ι E : Type) : Type :=
  σ → String → Option ι → σ × Int × Option E

/-- The struct `Order`: the field `Id`, and in `rest` all its other fields. -/
structure Order (R : Type) where
  Id : Nat
  rest : R
  deriving DecidableEq, Repr

/-- The struct `Variant`: the field `Id`, and in `rest` all its other
fields. -/
structure Variant (R : Type) where
  Id : Nat
  rest : R
  deriving DecidableEq, Repr

/-- The struct `VariantsResource`. -/
structure VariantsResource (V : Type) where
  Variants : List V
  deriving DecidableEq, Repr

/-- The Go type `[]T`. -/
abbrev Slice (α : Type) : Type := List α

/-- The struct `ArticleTagsResource`. -/
structure ArticleTagsResource where
  Tags : Slice String
  deriving DecidableEq, Repr

/-- The path of `ArticlesServiceOp.List` and `Create`, the value of
`fmt.Sprintf("%s/%d/%s.json", blogsBasePath, blogId, articlesBasePath)`. -/
def ArticlesServiceOp.listPath (blogId : Nat) : String :=
  blogsBasePath ++ "/" ++ toString blogId ++ "/" ++ articlesBasePath ++ ".json"

/-- The path of `ArticlesServiceOp.Get`, `Update` and `Delete`, the value of
`fmt.Sprintf("%s/%d/%s/%d.json", blogsBasePath, blogId, articlesBasePath,
articleId)`. -/
def ArticlesServiceOp.itemPath (blogId articleId : Nat) : String :=
  blogsBasePath ++ "/" ++ toString blogId ++ "/" ++ articlesBasePath ++ "/" ++
    toString articleId ++ ".json"

/-- The path of `ArticlesServiceOp.Count`, the value of
`fmt.Sprintf("%s/%d/%s/count.json", blogsBasePath, blogId, articlesBasePath)`. -/
def ArticlesServiceOp.countPath (blogId : Nat) : String :=
  blogsBasePath ++ "/" ++ toString blogId ++ "/" ++ articlesBasePath ++ "/count.json"

/-- The path of `ArticlesServiceOp.ListBlogTags`, the value of
`fmt.Sprintf("%s/%d/%s/tags.json", blogsBasePath, blogId, articlesBasePath)`. -/
def ArticlesServiceOp.blogTagsPath (blogId : Nat) : String :=
  blogsBasePath ++ "/" ++ toString blogId ++ "/" ++ articlesBasePath ++ "/tags.json"

/-- The path of `ArticlesServiceOp.ListTags`, the value of
`fmt.Sprintf("%s/tags.json", articlesBasePath)`. -/
def ArticlesServiceOp.tagsPath : String :=
  articlesBasePath ++ "/tags.json"

/-- The method `ArticlesServiceOp.Create`. -/
def ArticlesServiceOp.Create {σ A E : Type}
    (post : ClientPost σ (ArticleResource A) (ArticleResource A) E)
    (s : σ) (blogId : Nat) (article : A) : σ × Option A × Option E :=
  let path := ArticlesServiceOp.listPath blogId
  let body : ArticleResource A := ⟨some article⟩
  let resource : ArticleResource A := ⟨none⟩
  match post s path (some body) resource with
  | (s', resource, err) => (s', resource.Article, err)

/-- The method `ArticlesServiceOp.Update`. -/
def ArticlesServiceOp.Update {σ A E : Type}
    (put : ClientPut σ (ArticleResource A) (ArticleResource A) E)
    (s : σ) (blogId articleId : Nat) (article : A) : σ × Option A × Option E :=
  let path := ArticlesServiceOp.itemPath blogId articleId
  let wrappedData : ArticleResource A := ⟨some article⟩
  let resource : ArticleResource A := ⟨none⟩
  match put s path (some wrappedData) resource with
  | (s', resource, err) => (s', resource.Article, err)

/-- The method `ArticlesServiceOp.Delete`. -/
def ArticlesServiceOp.Delete {σ E : Type} (delete : ClientDelete σ E)
    (s : σ) (blogId articleId : Nat) : σ × Option E :=
  let path := ArticlesServiceOp.itemPath blogId articleId
  delete s path

/-- The statement `return articleTags.Tags, err` of `ListTags` and
`ListBlogTags`. The variable `articleTags` is a pointer and the client call
gets `&articleTags`, so the call can also set the pointer to nil (`none`); the
method then dereferences nil and does not return, which is the result
`none`. -/
def ArticlesServiceOp.returnTags {σ E : Type} :
    σ × Option ArticleTagsResource × Option E → Option (σ × Slice String × Option E)
  | (s', some articleTags, err) => some (s', articleTags.Tags, err)
  | (_, none, _) => none

/-- The method `ArticlesServiceOp.ListTags`. -/
def ArticlesServiceOp.ListTags {σ ι E : Type}
    (get : ClientGet σ ι (Option ArticleTagsResource) E) (s : σ) (options : Option ι) :
    Option (σ × Slice String × Option E) :=
  let path := ArticlesServiceOp.tagsPath
  let articleTags : Option ArticleTagsResource := some ⟨[]⟩
  ArticlesServiceOp.returnTags (get s path articleTags options)

/-- The method `ArticlesServiceOp.Count`. -/
def ArticlesServiceOp.Count {σ ι E : Type} (count : ClientCount σ ι E)
    (s : σ) (blogId : Nat) (options : Option ι) : σ × Int × Option E :=
  let path := ArticlesServiceOp.countPath blogId
  count s path options

/-- The method `ArticlesServiceOp.ListBlogTags`. -/
def ArticlesServiceOp.ListBlogTags {σ ι E : Type}
    (get : ClientGet σ ι (Option ArticleTagsResource) E) (s : σ) (blogId : Nat)
    (options : Option ι) : Option (σ × Slice String × Option E) :=
  let path := ArticlesServiceOp.blogTagsPath blogId
  let articleTags : Option ArticleTagsResource := some ⟨[]⟩
  ArticlesServiceOp.returnTags (get s path articleTags options)

/-- The method `OrderServiceOp.List`. -/
def OrderServiceOp.List {σ ι L O E : Type} (c : Client σ ι L O E)
    (s : σ) (options : QueryOptions ι L) : σ × List O × Option E :=
  match OrderServiceOp.ListWithPagination c s options with
  | (s', .error err) => (s', [], some err)
  | (s', .ok (orders, _)) => (s', orders, none)

/-- The method `OrderServiceOp.Count`. -/
def OrderServiceOp.Count {σ ι E : Type} (count : ClientCount σ ι E)
    (s : σ) (options : Option ι) : σ × Int × Option E :=
  let path := ordersBasePath ++ "/count.json"
  count s path options

/-- The method `OrderServiceOp.Create`. -/
def OrderServiceOp.Create {σ O E : Type}
    (post : ClientPost σ (OrderResource O) (OrderResource O) E)
    (s : σ) (order : O) : σ × Option O × Option E :=
  let path := ordersBasePath ++ ".json"
  let wrappedData : OrderResource O := ⟨some order⟩
  let resource : OrderResource O := ⟨none⟩
  match post s path (some wrappedData) resource with
  | (s', resource, err) => (s', resource.Order, err)

/-- The method `OrderServiceOp.Update`. -/
def OrderServiceOp.Update {σ R E : Type}
    (put : ClientPut σ (OrderResource (Order R)) (OrderResource (Order R)) E)
    (s : σ) (order : Order R) : σ × Option (Order R) × Option E :=
  let path := ordersBasePath ++ "/" ++ toString order.Id ++ ".json"
  let wrappedData : OrderResource (Order R) := ⟨some order⟩
  let resource : OrderResource (Order R) := ⟨none⟩
  match put s path (some wrappedData) resource with
  | (s', resource, err) => (s', resource.Order, err)

/-- The method `OrderServiceOp.Cancel`; the options are the body of the
request. -/
def OrderServiceOp.Cancel {σ ι O E : Type} (post : ClientPost σ ι (OrderResource O) E)
    (s : σ) (orderId : Nat) (options : Option ι) : σ × Option O × Option E :=
  let path := ordersBasePath ++ "/" ++ toString orderId ++ "/cancel.json"
  let resource : OrderResource O := ⟨none⟩
  match post s path options resource with
  | (s', resource, err) => (s', resource.Order, err)

/-- The method `OrderServiceOp.Close`; the body of the request is nil. -/
def OrderServiceOp.Close {σ β O E : Type} (post : ClientPost σ β (OrderResource O) E)
    (s : σ) (orderId : Nat) : σ × Option O × Option E :=
  let path := ordersBasePath ++ "/" ++ toString orderId ++ "/close.json"
  let resource : OrderResource O := ⟨none⟩
  match post s path none resource with
  | (s', resource, err) => (s', resource.Order, err)

/-- The method `OrderServiceOp.Open`; the body of the request is nil. -/
def OrderServiceOp.Open {σ β O E : Type} (post : ClientPost σ β (OrderResource O) E)
    (s : σ) (orderId : Nat) : σ × Option O × Option E :=
  let path := ordersBasePath ++ "/" ++ toString orderId ++ "/open.json"
  let resource : OrderResource O := ⟨none⟩
  match post s path none resource with
  | (s', resource, err) => (s', resource.Order, err)

/-- The method `OrderServiceOp.Delete`. -/
def OrderServiceOp.Delete {σ E : Type} (delete : ClientDelete σ E)
    (s : σ) (orderId : Nat) : σ × Option E :=
  let path := ordersBasePath ++ "/" ++ toString orderId ++ ".json"
  delete s path

/-- The method `VariantServiceOp.List`. The constant `productsBasePath` is
declared in a file that is not under `src` and is a parameter. -/
def VariantServiceOp.List {σ ι V E : Type} (productsBasePath : String)
    (get : ClientGet σ ι (VariantsResource V) E)
    (s : σ) (productId : Nat) (options : Option ι) : σ × List V × Option E :=
  let path := productsBasePath ++ "/" ++ toString productId ++ "/variants.json"
  let resource : VariantsResource V := ⟨[]⟩
  match get s path resource options with
  | (s', resource, err) => (s', resource.Variants, err)

/-- The method `VariantServiceOp.Count`. -/
def VariantServiceOp.Count {σ ι E : Type} (productsBasePath : String)
    (count : ClientCount σ ι E) (s : σ) (productId : Nat) (options : Option ι) :
    σ × Int × Option E :=
  let path := productsBasePath ++ "/" ++ toString productId ++ "/variants/count.json"
  count s path options

/-- The method `VariantServiceOp.Create`. -/
def VariantServiceOp.Create {σ V E : Type} (productsBasePath : String)
    (post : ClientPost σ (VariantResource V) (VariantResource V) E)
    (s : σ) (productId : Nat) (variant : V) : σ × Option V × Option E :=
  let path := productsBasePath ++ "/" ++ toString productId ++ "/variants.json"
  let wrappedData : VariantResource V := ⟨some variant⟩
  let resource : VariantResource V := ⟨none⟩
  match post s path (some wrappedData) resource with
  | (s', resource, err) => (s', resource.Variant, err)

/-- The method `VariantServiceOp.Update`. -/
def VariantServiceOp.Update {σ R E : Type}
    (put : ClientPut σ (VariantResource (Variant R)) (VariantResource (Variant R)) E)
    (s : σ) (variant : Variant R) : σ × Option (Variant R) × Option E :=
  let path := variantsBasePath ++ "/" ++ toString variant.Id ++ ".json"
  let wrappedData : VariantResource (Variant R) := ⟨some variant⟩
  let resource : VariantResource (Variant R) := ⟨none⟩
  match put s path (some wrappedData) resource with
  | (s', resource, err) => (s', resource.Variant, err)

/-- The method `VariantServiceOp.Delete`. -/
def VariantServiceOp.Delete {σ E : Type} (productsBasePath : String)
    (delete : ClientDelete σ E) (s : σ) (productId variantId : Nat) : σ × Option E :=
  delete s (productsBasePath ++ "/" ++ toString productId ++ "/variants/" ++
    toString variantId ++ ".json")

/-! ## The metafield and fulfillment sub-services -/

/-- The constant `ordersResourceName`. -/
def ordersResourceName : String := "orders"

/-- The constant `variantsResourceName`. -/
def variantsResourceName : String := "variants"

/-- The struct `MetafieldServiceOp`, with the fields of the composite literals
of `order.go` and `variant.go`; the field `client` is the client state that
every method takes. -/
structure MetafieldServiceOp where
  resource : String
  resourceId : Nat
  deriving DecidableEq, Repr

/-- The struct `FulfillmentServiceOp`, with the fields of the composite
literals of `order.go`. -/
structure FulfillmentServiceOp where
  resource : String
  resourceId : Nat
  deriving DecidableEq, Repr

/-- The methods of `MetafieldServiceOp`. They are declared in a file that is
not under `src` and are parameters: each takes the service value, the client
state and the arguments of the Go method. -/
structure MetafieldMethods (σ ι M E : Type) where
  List : MetafieldServiceOp → σ → Option ι → σ × Slice M × Option E
  Count : MetafieldServiceOp → σ → Option ι → σ × Int × Option E
  Get : MetafieldServiceOp → σ → Nat → Option ι → σ × Option M × Option E
  Create : MetafieldServiceOp → σ → M → σ × Option M × Option E
  Update : MetafieldServiceOp → σ → M → σ × Option M × Option E
  Delete : MetafieldServiceOp → σ → Nat → σ × Option E

/-- The methods of `FulfillmentServiceOp`, parameters as those of
`MetafieldServiceOp`. -/
structure FulfillmentMethods (σ ι F E : Type) where
  List : FulfillmentServiceOp → σ → Option ι → σ × Slice F × Option E
  Count : FulfillmentServiceOp → σ → Option ι → σ × Int × Option E
  Get : FulfillmentServiceOp → σ → Nat → Option ι → σ × Option F × Option E
  Create : FulfillmentServiceOp → σ → F → σ × Option F × Option E
  Update : FulfillmentServiceOp → σ → F → σ × Option F × Option E
  Complete : FulfillmentServiceOp → σ → Nat → σ × Option F × Option E
  Transition : FulfillmentServiceOp → σ → Nat → σ × Option F × Option E
  Cancel : FulfillmentServiceOp → σ → Nat → σ × Option F × Option E

/-- The method `OrderServiceOp.ListMetafields`. -/
def OrderServiceOp.ListMetafields {σ ι M E : Type} (m : MetafieldMethods σ ι M E)
    (s : σ) (orderId : Nat) (options : Option ι) : σ × Slice M × Option E :=
  let metafieldService : MetafieldServiceOp := ⟨ordersResourceName, orderId⟩
  m.List metafieldService s options

/-- The method `OrderServiceOp.CountMetafields`. -/
def OrderServiceOp.CountMetafields {σ ι M E : Type} (m : MetafieldMethods σ ι M E)
    (s : σ) (orderId : Nat) (options : Option ι) : σ × Int × Option E :=
  let metafieldService : MetafieldServiceOp := ⟨ordersResourceName, orderId⟩
  m.Count metafieldService s options

/-- The method `OrderServiceOp.GetMetafield`. -/
def OrderServiceOp.GetMetafield {σ ι M E : Type} (m : MetafieldMethods σ ι M E)
    (s : σ) (orderId metafieldId : Nat) (options : Option ι) : σ × Option M × Option E :=
  let metafieldService : MetafieldServiceOp := ⟨ordersResourceName, orderId⟩
  m.Get metafieldService s metafieldId options

/-- The method `OrderServiceOp.CreateMetafield`. -/
def OrderServiceOp.CreateMetafield {σ ι M E : Type} (m : MetafieldMethods σ ι M E)
    (s : σ) (orderId : Nat) (metafield : M) : σ × Option M × Option E :=
  let metafieldService : MetafieldServiceOp := ⟨ordersResourceName, orderId⟩
  m.Create metafieldService s metafield

/-- The method `OrderServiceOp.UpdateMetafield`. -/
def OrderServiceOp.UpdateMetafield {σ ι M E : Type} (m : MetafieldMethods σ ι M E)
    (s : σ) (orderId : Nat) (metafield : M) : σ × Option M × Option E :=
  let metafieldService : MetafieldServiceOp := ⟨ordersResourceName, orderId⟩
  m.Update metafieldService s metafield

/-- The method `OrderServiceOp.DeleteMetafield`. -/
def OrderServiceOp.DeleteMetafield {σ ι M E : Type} (m : MetafieldMethods σ ι M E)
    (s : σ) (orderId metafieldId : Nat) : σ × Option E :=
  let metafieldService : MetafieldServiceOp := ⟨ordersResourceName, orderId⟩
  m.Delete metafieldService s metafieldId

/-- The method `OrderServiceOp.ListFulfillments`. -/
def OrderServiceOp.ListFulfillments {σ ι F E : Type} (f : FulfillmentMethods σ ι F E)
    (s : σ) (orderId : Nat) (options : Option ι) : σ × Slice F × Option E :=
  let fulfillmentService : FulfillmentServiceOp := ⟨ordersResourceName, orderId⟩
  f.List fulfillmentService s options

/-- The method `OrderServiceOp.CountFulfillments`. -/
def OrderServiceOp.CountFulfillments {σ ι F E : Type} (f : FulfillmentMethods σ ι F E)
    (s : σ) (orderId : Nat) (options : Option ι) : σ × Int × Option E :=
  let fulfillmentService : FulfillmentServiceOp := ⟨ordersResourceName, orderId⟩
  f.Count fulfillmentService s options

/-- The method `OrderServiceOp.GetFulfillment`. -/
def OrderServiceOp.GetFulfillment {σ ι F E : Type} (f : FulfillmentMethods σ ι F E)
    (s : σ) (orderId fulfillmentId : Nat) (options : Option ι) : σ × Option F × Option E :=
  let fulfillmentService : FulfillmentServiceOp := ⟨ordersResourceName, orderId⟩
  f.Get fulfillmentService s fulfillmentId options

/-- The method `OrderServiceOp.CreateFulfillment`. -/
def OrderServiceOp.CreateFulfillment {σ ι F E : Type} (f : FulfillmentMethods σ ι F E)
    (s : σ) (orderId : Nat) (fulfillment : F) : σ × Option F × Option E :=
  let fulfillmentService : FulfillmentServiceOp := ⟨ordersResourceName, orderId⟩
  f.Create fulfillmentService s fulfillment

/-- The method `OrderServiceOp.UpdateFulfillment`. -/
def OrderServiceOp.UpdateFulfillment {σ ι F E : Type} (f : FulfillmentMethods σ ι F E)
    (s : σ) (orderId : Nat) (fulfillment : F) : σ × Option F × Option E :=
  let fulfillmentService : FulfillmentServiceOp := ⟨ordersResourceName, orderId⟩
  f.Update fulfillmentService s fulfillment

/-- The method `OrderServiceOp.CompleteFulfillment`. -/
def OrderServiceOp.CompleteFulfillment {σ ι F E : Type} (f : FulfillmentMethods σ ι F E)
    (s : σ) (orderId fulfillmentId : Nat) : σ × Option F × Option E :=
  let fulfillmentService : FulfillmentServiceOp := ⟨ordersResourceName, orderId⟩
  f.Complete fulfillmentService s fulfillmentId

/-- The method `OrderServiceOp.TransitionFulfillment`. -/
def OrderServiceOp.TransitionFulfillment {σ ι F E : Type} (f : FulfillmentMethods σ ι F E)
    (s : σ) (orderId fulfillmentId : Nat) : σ × Option F × Option E :=
  let fulfillmentService : FulfillmentServiceOp := ⟨ordersResourceName, orderId⟩
  f.Transition fulfillmentService s fulfillmentId

/-- The method `OrderServiceOp.CancelFulfillment`. -/
def OrderServiceOp.CancelFulfillment {σ ι F E : Type} (f : FulfillmentMethods σ ι F E)
    (s : σ) (orderId fulfillmentId : Nat) : σ × Option F × Option E :=
  let fulfillmentService : FulfillmentServiceOp := ⟨ordersResourceName, orderId⟩
  f.Cancel fulfillmentService s fulfillmentId

/-- The method `VariantServiceOp.ListMetafields`. -/
def VariantServiceOp.ListMetafields {σ ι M E : Type} (m : MetafieldMethods σ ι M E)
    (s : σ) (variantId : Nat) (options : Option ι) : σ × Slice M × Option E :=
  let metafieldService : MetafieldServiceOp := ⟨variantsResourceName, variantId⟩
  m.List metafieldService s options

/-- The method `VariantServiceOp.CountMetafields`. -/
def VariantServiceOp.CountMetafields {σ ι M E : Type} (m : MetafieldMethods σ ι M E)
    (s : σ) (variantId : Nat) (options : Option ι) : σ × Int × Option E :=
  let metafieldService : MetafieldServiceOp := ⟨variantsResourceName, variantId⟩
  m.Count metafieldService s options

/-- The method `VariantServiceOp.GetMetafield`. -/
def VariantServiceOp.GetMetafield {σ ι M E : Type} (m : MetafieldMethods σ ι M E)
    (s : σ) (variantId metafieldId : Nat) (options : Option ι) : σ × Option M × Option E :=
  let metafieldService : MetafieldServiceOp := ⟨variantsResourceName, variantId⟩
  m.Get metafieldService s metafieldId options

/-- The method `VariantServiceOp.CreateMetafield`. -/
def VariantServiceOp.CreateMetafield {σ ι M E : Type} (m : MetafieldMethods σ ι M E)
    (s : σ) (variantId : Nat) (metafield : M) : σ × Option M × Option E :=
  let metafieldService : MetafieldServiceOp := ⟨variantsResourceName, variantId⟩
  m.Create metafieldService s metafield

/-- The method `VariantServiceOp.UpdateMetafield`. -/
def VariantServiceOp.UpdateMetafield {σ ι M E : Type} (m : MetafieldMethods σ ι M E)
    (s : σ) (variantId : Nat) (metafield : M) : σ × Option M × Option E :=
  let metafieldService : MetafieldServiceOp := ⟨variantsResourceName, variantId⟩
  m.Update metafieldService s metafield

/-- The method `VariantServiceOp.DeleteMetafield`. -/
def VariantServiceOp.DeleteMetafield {σ ι M E : Type} (m : MetafieldMethods σ ι M E)
    (s : σ) (variantId metafieldId : Nat) : σ × Option E :=
  let metafieldService : MetafieldServiceOp := ⟨variantsResourceName, variantId⟩
  m.Delete metafieldService s metafieldId

/-! ## Concrete clients -/

/-- A client call that gets the response 404: the resource is left as it was
and the error is returned. The state counts the requests. -/
def notFoundGet {ι ρ : Type} : ClientGet Nat ι ρ String :=
  fun s _ resource _ => (s + 1, resource, some "404 Not Found")

/-- A `Post` that gets the response 404. -/
def notFoundPost {β ρ : Type} : ClientPost Nat β ρ String :=
  fun s _ _ resource => (s + 1, resource, some "404 Not Found")

/-- A `Put` that gets the response 404. -/
def notFoundPut {β ρ : Type} : ClientPut Nat β ρ String :=
  fun s _ _ resource => (s + 1, resource, some "404 Not Found")

/-- A `Delete` that gets the response 404. -/
def notFoundDelete : ClientDelete Nat String :=
  fun s _ => (s + 1, some "404 Not Found")

/-- A `Count` that gets the response 404. -/
def notFoundCount {ι : Type} : ClientCount Nat ι String :=
  fun s _ _ => (s + 1, 0, some "404 Not Found")

/-! ## The nesting limit of the scanner -/

/-- The constant `maxNestingDepth` of `encoding/json`. -/
def maxNestingDepth : Nat := 10000

mutual
/-- The nesting depth of a JSON value as the scanner of `encoding/json`
counts it: the largest number of arrays and objects that are open at one
point of the text. -/
def JSON.depth : JSON → Nat
  | .null => 0
  | .bool _ => 0
  | .number _ => 0
  | .string _ => 0
  | .array elems => JSON.depthElems elems + 1
  | .object members => JSON.depthMembers members + 1
/-- The largest depth among the elements of an array. -/
def JSON.depthElems : List JSON → Nat
  | [] => 0
  | x :: xs => max (JSON.depth x) (JSON.depthElems xs)
/-- The largest depth among the values of the members of an object. -/
def JSON.depthMembers : List (String × JSON) → Nat
  | [] => 0
  | (_, x) :: ms => max (JSON.depth x) (JSON.depthMembers ms)
end

/-- The error `*json.SyntaxError`, with its message. -/
structure SyntaxError where
  msg : String
  deriving DecidableEq, Repr

/-- The function `checkValid` of `encoding/json`, the scan that
`json.Unmarshal` runs over the whole document before it stores anything, on a
well-formed document: the scan fails when it opens an array or object beyond
the depth `maxNestingDepth`. -/
def checkValid (x : JSON) : Option SyntaxError :=
  if maxNestingDepth < x.depth then some ⟨"exceeded max depth"⟩ else none

/-- An error of `json.Unmarshal` on a record: the error of the scan, or an
error of the decoding. -/
inductive UnmarshalError (E : Type) where
  | scan (e : SyntaxError)
  | decode (e : DecodeError E)
  deriving DecidableEq, Repr

/-- The call `json.Unmarshal(data, &li)` on a record `data` and a `LineItem`:
the record is scanned by `checkValid`, and a record that passes is handed to
the method `LineItem.UnmarshalJSON`, whose result is returned. The calls of
`json.Unmarshal` inside the method scan the record again, or a part of it, and
accept what this scan has accepted. -/
def LineItem.Unmarshal {R E : Type} (std : List (String × JSON) → R → Except E R)
    (li : LineItem R) (data : List (String × JSON)) :
    Except (UnmarshalError E) (LineItem R) :=
  match checkValid (.object data) with
  | some err => .error (.scan err)
  | none =>
    match LineItem.UnmarshalJSON std li data with
    | .error err => .error (.decode err)
    | .ok li' => .ok li'

/-- A JSON value inside `n` arrays of one element each. -/
def JSON.nested : Nat → JSON → JSON
  | 0, x => x
  | n + 1, x => .array [JSON.nested n x]

/-- A Go value inside `n` slices of one element each. -/
def GoValue.nested : Nat → GoValue → GoValue
  | 0, g => g
  | n + 1, g => .slice [GoValue.nested n g]

/-- A client call that stores nil through the pointer it is given and returns
the error of a response 500. The state counts the requests. -/
def nilPointerGet {ι ρ : Type} : ClientGet Nat ι (Option ρ) String :=
  fun s _ _ _ => (s + 1, none, some "500 Internal Server Error")

/-- A two-page order listing used as a concrete instance: the state counts the
requests served; any caller options give page one (items 1 and 2, next cursor
2), cursor 2 gives the last page (item 3, only a previous cursor), and any other
cursor is refused. -/
def twoPageClient : Client Nat String Nat Nat String where
  ListWithPagination := fun s _ options =>
    match options with
    | .any _ => (s + 1, .ok (⟨[1, 2]⟩, ⟨some 2, none⟩))
    | .listOptions 2 => (s + 1, .ok (⟨[3]⟩, ⟨none, some 1⟩))
    | .listOptions _ => (s + 1, .error "404 Not Found")

/-- A listing whose second request is rate limited: any caller options give
page one (items 1 and 2, next cursor 2); every cursor request fails with the
rate-limit error. -/
def rateLimitedClient : Client Nat String Nat Nat String where
  ListWithPagination := fun s _ options =>
    match options with
    | .any _ => (s + 1, .ok (⟨[1, 2]⟩, ⟨some 2, none⟩))
    | .listOptions _ => (s + 1, .error "429 Too Many Requests")

/-! ## The page walk of `ListAll` -/

/-- Following a chain of pages costs one unit of fuel per page and leaves the
loop at the state and options after the chain, with the items of the chain
appended to the collector and one logged call per page. -/
theorem ListAllLoop_chain {σ ι L O E : Type} (c : Client σ ι L O E) :
    ∀ (pages : List (LinkedPage L O)) (s : σ) (o : QueryOptions ι L) (s' : σ)
      (o' : QueryOptions ι L) (collector : List O) (calls : List (QueryOptions ι L))
      (k : Nat),
      FetchesChain c s o pages s' o' →
      OrderServiceOp.ListAllLoop c (pages.length + k) s o collector calls =
        OrderServiceOp.ListAllLoop c k s' o' (collector ++ pageItems pages)
          (calls ++ (chainOptions o pages).take pages.length) := by
  intro pages
  induction pages with
  | nil =>
    intro s o s' o' collector calls k h
    obtain ⟨hs, ho⟩ := h
    subst hs
    subst ho
    simp [pageItems, chainOptions]
  | cons p ps ih =>
    intro s o s' o' collector calls k h
    obtain ⟨hfetch, hrest⟩ := h
    have hlen : (p :: ps).length + k = (ps.length + k) + 1 := by
      simp only [List.length_cons]; omega
    rw [hlen]
    generalize hr : OrderServiceOp.ListWithPagination c s o = r at hfetch hrest
    obtain ⟨s1, res⟩ := r
    simp only at hfetch hrest
    subst hfetch
    simp only [OrderServiceOp.ListAllLoop, hr]
    rw [ih _ _ _ _ _ _ _ hrest]
    simp [pageItems, chainOptions, List.append_assoc]

/-- After a chain of pages, the options due for the following fetch are the
last entry of `chainOptions`. -/
theorem chainOptions_take_append {σ ι L O E : Type} (c : Client σ ι L O E) :
    ∀ (pages : List (LinkedPage L O)) (s : σ) (o : QueryOptions ι L) (s' : σ)
      (o' : QueryOptions ι L),
      FetchesChain c s o pages s' o' →
      (chainOptions o pages).take pages.length ++ [o'] = chainOptions o pages := by
  intro pages
  induction pages with
  | nil =>
    intro s o s' o' h
    simp [chainOptions, h.2]
  | cons p ps ih =>
    intro s o s' o' h
    have := ih _ _ _ _ h.2
    simpa [chainOptions] using this

/-- The whole run when the chain ends in a page without a next cursor. -/
theorem ListAll_run_of_last {σ ι L O E : Type} (c : Client σ ι L O E)
    (pages : List (LinkedPage L O)) (s : σ) (o : QueryOptions ι L) (s' : σ)
    (o' : QueryOptions ι L) (last : List O) (prev : Option L) (fuel : Nat)
    (hchain : FetchesChain c s o pages s' o')
    (hlast : (OrderServiceOp.ListWithPagination c s' o').2 = .ok (last, ⟨none, prev⟩))
    (hfuel : pages.length < fuel) :
    OrderServiceOp.ListAll c fuel s o =
      ⟨(OrderServiceOp.ListWithPagination c s' o').1, chainOptions o pages,
        some (pageItems pages ++ last, none)⟩ := by
  obtain ⟨k, rfl⟩ : ∃ k, fuel = pages.length + (k + 1) := ⟨fuel - pages.length - 1, by omega⟩
  unfold OrderServiceOp.ListAll
  rw [ListAllLoop_chain c pages s o s' o' [] [] (k + 1) hchain]
  generalize hr : OrderServiceOp.ListWithPagination c s' o' = r at hlast
  obtain ⟨s1, res⟩ := r
  simp only at hlast
  subst hlast
  simp only [OrderServiceOp.ListAllLoop, hr, List.nil_append]
  rw [chainOptions_take_append c pages s o s' o' hchain]

/-- The whole run when the fetch after the chain fails. -/
theorem ListAll_run_of_error {σ ι L O E : Type} (c : Client σ ι L O E)
    (pages : List (LinkedPage L O)) (s : σ) (o : QueryOptions ι L) (s' : σ)
    (o' : QueryOptions ι L) (e : E) (fuel : Nat)
    (hchain : FetchesChain c s o pages s' o')
    (hfail : (OrderServiceOp.ListWithPagination c s' o').2 = .error e)
    (hfuel : pages.length < fuel) :
    OrderServiceOp.ListAll c fuel s o =
      ⟨(OrderServiceOp.ListWithPagination c s' o').1, chainOptions o pages,
        some (pageItems pages, some e)⟩ := by
  obtain ⟨k, rfl⟩ : ∃ k, fuel = pages.length + (k + 1) := ⟨fuel - pages.length - 1, by omega⟩
  unfold OrderServiceOp.ListAll
  rw [ListAllLoop_chain c pages s o s' o' [] [] (k + 1) hchain]
  generalize hr : OrderServiceOp.ListWithPagination c s' o' = r at hfail
  obtain ⟨s1, res⟩ := r
  simp only at hfail
  subst hfail
  simp only [OrderServiceOp.ListAllLoop, hr, List.nil_append]
  rw [chainOptions_take_append c pages s o s' o' hchain]

/-- Every call the loop logs comes after the calls already logged, and with
fuel left the first new one carries the current options. -/
theorem ListAllLoop_calls {σ ι L O E : Type} (c : Client σ ι L O E) :
    ∀ (fuel : Nat) (s : σ) (o : QueryOptions ι L) (collector : List O)
      (calls : List (QueryOptions ι L)),
      ∃ rest, (OrderServiceOp.ListAllLoop c (fuel + 1) s o collector calls).calls =
        calls ++ o :: rest := by
  intro fuel
  induction fuel with
  | zero =>
    intro s o collector calls
    generalize hr : OrderServiceOp.ListWithPagination c s o = r
    obtain ⟨s1, res⟩ := r
    cases res with
    | error err => exact ⟨[], by simp [OrderServiceOp.ListAllLoop, hr]⟩
    | ok page =>
      obtain ⟨entities, pagination⟩ := page
      obtain ⟨next, prev⟩ := pagination
      cases next with
      | none => exact ⟨[], by simp [OrderServiceOp.ListAllLoop, hr]⟩
      | some l => exact ⟨[], by simp [OrderServiceOp.ListAllLoop, hr]⟩
  | succ n ih =>
    intro s o collector calls
    generalize hr : OrderServiceOp.ListWithPagination c s o = r
    obtain ⟨s1, res⟩ := r
    cases res with
    | error err => exact ⟨[], by simp [OrderServiceOp.ListAllLoop, hr]⟩
    | ok page =>
      obtain ⟨entities, pagination⟩ := page
      obtain ⟨next, prev⟩ := pagination
      cases next with
      | none => exact ⟨[], by simp [OrderServiceOp.ListAllLoop, hr]⟩
      | some l =>
        obtain ⟨rest, hrest⟩ := ih s1 (.listOptions l) (collector ++ entities) (calls ++ [o])
        refine ⟨QueryOptions.listOptions l :: rest, ?_⟩
        rw [OrderServiceOp.ListAllLoop, hr]
        simp only
        rw [hrest]
        simp

/-- A chain of pages can be cut after any number of its pages. -/
theorem FetchesChain_take {σ ι L O E : Type} (c : Client σ ι L O E) :
    ∀ (pages : List (LinkedPage L O)) (s : σ) (o : QueryOptions ι L) (s' : σ)
      (o' : QueryOptions ι L) (n : Nat),
      FetchesChain c s o pages s' o' →
      ∃ s'' o'', FetchesChain c s o (pages.take n) s'' o'' := by
  intro pages
  induction pages with
  | nil =>
    intro s o s' o' n _
    exact ⟨s, o, by simp [FetchesChain]⟩
  | cons p ps ih =>
    intro s o s' o' n h
    cases n with
    | zero => exact ⟨s, o, by simp [FetchesChain]⟩
    | succ m =>
      obtain ⟨s'', o'', hm⟩ := ih _ _ _ _ m h.2
      exact ⟨s'', o'', by simpa [FetchesChain] using ⟨h.1, hm⟩⟩

/-- C1: for every chain of pages returned by successive page fetches, each
page but the last carrying a next cursor and the last carrying none, with no
fetch failing, `ListAll` returns, without error, exactly the items of the pages
in fetch order, each page keeping its own order. Fuel beyond the number of
pages is enough. -/
theorem ListAll_returns_concatenation {σ ι L O E : Type} (c : Client σ ι L O E)
    (pages : List (LinkedPage L O)) (s : σ) (o : QueryOptions ι L) (s' : σ)
    (o' : QueryOptions ι L) (last : List O) (prev : Option L) (fuel : Nat)
    (hchain : FetchesChain c s o pages s' o')
    (hlast : (OrderServiceOp.ListWithPagination c s' o').2 = .ok (last, ⟨none, prev⟩))
    (hfuel : pages.length < fuel) :
    (OrderServiceOp.ListAll c fuel s o).result =
      some ((pages.map (fun p => p.items)).flatten ++ last, none) := by
  rw [ListAll_run_of_last c pages s o s' o' last prev fuel hchain hlast hfuel]
  rfl

/-- C1 at the two-page listing: pages `[1, 2]` and `[3]` give `[1, 2, 3]`. -/
theorem ListAll_returns_concatenation_witness :
    FetchesChain twoPageClient 0 (.any "limit=2") [⟨[1, 2], 2, none⟩] 1 (.listOptions 2) ∧
    (OrderServiceOp.ListWithPagination twoPageClient 1 (.listOptions 2)).2 =
      .ok ([3], ⟨none, some 1⟩) ∧
    (OrderServiceOp.ListAll twoPageClient 2 0 (.any "limit=2")).result =
      some ([1, 2, 3], none) :=
  ⟨⟨rfl, rfl, rfl⟩, rfl,
    ListAll_returns_concatenation twoPageClient [⟨[1, 2], 2, none⟩] 0 (.any "limit=2") 1
      (.listOptions 2) [3] (some 1) 2 ⟨rfl, rfl, rfl⟩ rfl (by decide)⟩

/-- C2: if the fetches of pages `p0..p(k-1)` succeed, each carrying a next
cursor, and the fetch of page `k` fails with error `e`, then `ListAll` returns
`e` together with exactly the items of `p0..p(k-1)` (the empty list when
`k = 0`). -/
theorem ListAll_partial_result_on_error {σ ι L O E : Type} (c : Client σ ι L O E)
    (pages : List (LinkedPage L O)) (s : σ) (o : QueryOptions ι L) (s' : σ)
    (o' : QueryOptions ι L) (e : E) (fuel : Nat)
    (hchain : FetchesChain c s o pages s' o')
    (hfail : (OrderServiceOp.ListWithPagination c s' o').2 = .error e)
    (hfuel : pages.length < fuel) :
    (OrderServiceOp.ListAll c fuel s o).result =
      some ((pages.map (fun p => p.items)).flatten, some e) := by
  rw [ListAll_run_of_error c pages s o s' o' e fuel hchain hfail hfuel]
  rfl

/-- C2 at the rate-limited listing: page one is kept, the error is returned. -/
theorem ListAll_partial_result_on_error_witness :
    FetchesChain rateLimitedClient 0 (.any "limit=2") [⟨[1, 2], 2, none⟩] 1
      (.listOptions 2) ∧
    (OrderServiceOp.ListWithPagination rateLimitedClient 1 (.listOptions 2)).2 =
      .error "429 Too Many Requests" ∧
    (OrderServiceOp.ListAll rateLimitedClient 5 0 (.any "limit=2")).result =
      some ([1, 2], some "429 Too Many Requests") :=
  ⟨⟨rfl, rfl, rfl⟩, rfl,
    ListAll_partial_result_on_error rateLimitedClient [⟨[1, 2], 2, none⟩] 0 (.any "limit=2") 1
      (.listOptions 2) "429 Too Many Requests" 5 ⟨rfl, rfl, rfl⟩ rfl (by decide)⟩

/-- C3: when no fetch fails and page `n` is the first page without a next
cursor (pages `0..n-1` carry one; a previous cursor on page `n` changes
nothing), `ListAll` is still running after each of the first `n` iterations and
returns in iteration `n + 1`, having issued exactly `n + 1` page fetches,
however much fuel is left. -/
theorem ListAll_stops_at_first_page_without_next {σ ι L O E : Type}
    (c : Client σ ι L O E) (pages : List (LinkedPage L O)) (s : σ)
    (o : QueryOptions ι L) (s' : σ) (o' : QueryOptions ι L) (last : List O)
    (prev : Option L)
    (hchain : FetchesChain c s o pages s' o')
    (hlast : (OrderServiceOp.ListWithPagination c s' o').2 = .ok (last, ⟨none, prev⟩)) :
    (∀ fuel, fuel ≤ pages.length → (OrderServiceOp.ListAll c fuel s o).result = none) ∧
    (∀ fuel, pages.length < fuel →
      (OrderServiceOp.ListAll c fuel s o).result.isSome = true ∧
      (OrderServiceOp.ListAll c fuel s o).calls.length = pages.length + 1 ∧
      (OrderServiceOp.ListAll c fuel s o).state =
        (OrderServiceOp.ListWithPagination c s' o').1) := by
  constructor
  · intro fuel hfuel
    obtain ⟨s'', o'', hcut⟩ := FetchesChain_take c pages s o s' o' fuel hchain
    have hlen : (pages.take fuel).length = fuel := by simp [hfuel]
    have := ListAllLoop_chain c (pages.take fuel) s o s'' o'' [] [] 0 hcut
    rw [hlen] at this
    unfold OrderServiceOp.ListAll
    rw [show fuel = fuel + 0 from rfl, this]
    rfl
  · intro fuel hfuel
    rw [ListAll_run_of_last c pages s o s' o' last prev fuel hchain hlast hfuel]
    simp [chainOptions]

/-- C3 at the two-page listing, whose last page carries only a previous
cursor: two fetches, and one unit of fuel is not enough. -/
theorem ListAll_stops_at_first_page_without_next_witness :
    (∀ fuel, fuel ≤ 1 →
      (OrderServiceOp.ListAll twoPageClient fuel 0 (.any "limit=2")).result = none) ∧
    (∀ fuel, 1 < fuel →
      (OrderServiceOp.ListAll twoPageClient fuel 0 (.any "limit=2")).result.isSome = true ∧
      (OrderServiceOp.ListAll twoPageClient fuel 0 (.any "limit=2")).calls.length = 2 ∧
      (OrderServiceOp.ListAll twoPageClient fuel 0 (.any "limit=2")).state = 2) :=
  ListAll_stops_at_first_page_without_next twoPageClient [⟨[1, 2], 2, none⟩] 0
    (.any "limit=2") 1 (.listOptions 2) [3] (some 1) ⟨rfl, rfl, rfl⟩ rfl

/-- C4: the first page fetch is issued with the caller's options unchanged,
and fetch `i` (for `i ≥ 1`) with exactly the next cursor returned with page
`i - 1`: whatever happens after a chain of `n` pages, the first `n + 1` calls
carry the caller's options followed by the next cursors of the pages, in
order. -/
theorem ListAll_uses_cursor_verbatim {σ ι L O E : Type} (c : Client σ ι L O E)
    (pages : List (LinkedPage L O)) (s : σ) (o : QueryOptions ι L) (s' : σ)
    (o' : QueryOptions ι L) (fuel : Nat)
    (hchain : FetchesChain c s o pages s' o')
    (hfuel : pages.length < fuel) :
    (OrderServiceOp.ListAll c fuel s o).calls.take (pages.length + 1) =
      o :: pages.map (fun p => QueryOptions.listOptions p.next) := by
  obtain ⟨k, rfl⟩ : ∃ k, fuel = pages.length + (k + 1) := ⟨fuel - pages.length - 1, by omega⟩
  unfold OrderServiceOp.ListAll
  rw [ListAllLoop_chain c pages s o s' o' [] [] (k + 1) hchain]
  obtain ⟨rest, hrest⟩ := ListAllLoop_calls c k s' o' ([] ++ pageItems pages)
    ([] ++ (chainOptions o pages).take pages.length)
  rw [hrest]
  have h1 : ([] ++ (chainOptions o pages).take pages.length) ++ o' :: rest =
      chainOptions o pages ++ rest := by
    have h := chainOptions_take_append c pages s o s' o' hchain
    calc ([] ++ (chainOptions o pages).take pages.length) ++ o' :: rest
        = ((chainOptions o pages).take pages.length ++ [o']) ++ rest := by simp
      _ = chainOptions o pages ++ rest := by rw [h]
  rw [h1]
  have h2 : (chainOptions o pages).length = pages.length + 1 := by simp [chainOptions]
  rw [← h2, List.take_left]
  rfl

/-- C4 at the two-page listing: the calls carry the caller's options, then
cursor 2. -/
theorem ListAll_uses_cursor_verbatim_witness :
    FetchesChain twoPageClient 0 (.any "limit=2") [⟨[1, 2], 2, none⟩] 1 (.listOptions 2) ∧
    (OrderServiceOp.ListAll twoPageClient 2 0 (.any "limit=2")).calls.take 2 =
      [.any "limit=2", .listOptions 2] :=
  ⟨⟨rfl, rfl, rfl⟩,
    ListAll_uses_cursor_verbatim twoPageClient [⟨[1, 2], 2, none⟩] 0 (.any "limit=2") 1
      (.listOptions 2) 2 ⟨rfl, rfl, rfl⟩ (by decide)⟩

/-- C5: no page fetch is issued after one has failed. If `k` fetches succeed
and the next one fails, then, however much fuel is left, the run has issued
exactly `k + 1` fetches, the failing one last, and the client is left in the
state right after the failing fetch. -/
theorem ListAll_no_fetch_after_error {σ ι L O E : Type} (c : Client σ ι L O E)
    (pages : List (LinkedPage L O)) (s : σ) (o : QueryOptions ι L) (s' : σ)
    (o' : QueryOptions ι L) (e : E) (fuel : Nat)
    (hchain : FetchesChain c s o pages s' o')
    (hfail : (OrderServiceOp.ListWithPagination c s' o').2 = .error e)
    (hfuel : pages.length < fuel) :
    (OrderServiceOp.ListAll c fuel s o).calls.length = pages.length + 1 ∧
    (OrderServiceOp.ListAll c fuel s o).calls.getLast? = some o' ∧
    (OrderServiceOp.ListAll c fuel s o).state =
      (OrderServiceOp.ListWithPagination c s' o').1 := by
  rw [ListAll_run_of_error c pages s o s' o' e fuel hchain hfail hfuel]
  refine ⟨by simp [chainOptions], ?_, rfl⟩
  show (chainOptions o pages).getLast? = some o'
  rw [← chainOptions_take_append c pages s o s' o' hchain]
  simp

/-- C5 at the rate-limited listing: two fetches, the second one the failing
one, although fuel for five was given. -/
theorem ListAll_no_fetch_after_error_witness :
    FetchesChain rateLimitedClient 0 (.any "limit=2") [⟨[1, 2], 2, none⟩] 1
      (.listOptions 2) ∧
    (OrderServiceOp.ListWithPagination rateLimitedClient 1 (.listOptions 2)).2 =
      .error "429 Too Many Requests" ∧
    (OrderServiceOp.ListAll rateLimitedClient 5 0 (.any "limit=2")).calls.length = 2 ∧
    (OrderServiceOp.ListAll rateLimitedClient 5 0 (.any "limit=2")).calls.getLast? =
      some (.listOptions 2) ∧
    (OrderServiceOp.ListAll rateLimitedClient 5 0 (.any "limit=2")).state = 2 :=
  ⟨⟨rfl, rfl, rfl⟩, rfl,
    ListAll_no_fetch_after_error rateLimitedClient [⟨[1, 2], 2, none⟩] 0 (.any "limit=2") 1
      (.listOptions 2) "429 Too Many Requests" 5 ⟨rfl, rfl, rfl⟩ rfl (by decide)⟩

/-! ## The decoder of `LineItem` -/

/-- A member of an entirely empty object leaves a zero `NoteAttribute`
untouched. -/
theorem decodeMember_of_empty (m : String × JSON)
    (hname : fieldMatches "name" m.1 = true → m.2 = .string "" ∨ m.2 = .null)
    (hvalue : fieldMatches "value" m.1 = true → m.2 = .null) :
    NoteAttribute.decodeMember (⟨"", .nil⟩, none) m = (⟨"", .nil⟩, none) := by
  unfold NoteAttribute.decodeMember
  by_cases h1 : fieldMatches "name" m.1 = true
  · rw [if_pos h1]
    rcases hname h1 with h | h <;> rw [h]
  · rw [if_neg h1]
    by_cases h2 : fieldMatches "value" m.1 = true
    · rw [if_pos h2, hvalue h2]
      rfl
    · rw [if_neg h2]

/-- An entirely empty object decodes to the zero `NoteAttribute`. -/
theorem Unmarshal_of_empty (members : List (String × JSON))
    (hempty : ∀ m ∈ members,
      (fieldMatches "name" m.1 = true → m.2 = .string "" ∨ m.2 = .null) ∧
      (fieldMatches "value" m.1 = true → m.2 = .null)) :
    NoteAttribute.Unmarshal (.object members) = .ok ⟨"", .nil⟩ := by
  have hfold : members.foldl NoteAttribute.decodeMember (⟨"", .nil⟩, none) =
      (⟨"", .nil⟩, none) := by
    induction members with
    | nil => rfl
    | cons m ms ih =>
      rw [List.foldl_cons,
        decodeMember_of_empty m (hempty m (List.mem_cons_self m ms)).1
          (hempty m (List.mem_cons_self m ms)).2]
      exact ih (fun m' hm' => hempty m' (List.mem_cons_of_mem m hm'))
  unfold NoteAttribute.Unmarshal NoteAttribute.decodeInto
  simp only [hfold]

/-- The elements of an array that all decode give the list of their
decodings. -/
theorem decodeElems_of_ok :
    ∀ (elems : List JSON), (∀ x ∈ elems, ∃ p, NoteAttribute.Unmarshal x = .ok p) →
      ∃ ps, NoteAttribute.decodeElems elems = (ps, none) ∧
        ps.map Except.ok = elems.map NoteAttribute.Unmarshal := by
  intro elems
  induction elems with
  | nil => intro _; exact ⟨[], rfl, rfl⟩
  | cons x xs ih =>
    intro h
    obtain ⟨ps, hps, hmap⟩ := ih (fun y hy => h y (List.mem_cons_of_mem x hy))
    obtain ⟨p, hp⟩ := h x (List.mem_cons_self x xs)
    have hx : NoteAttribute.decodeInto ⟨"", .nil⟩ x = (p, none) := by
      unfold NoteAttribute.Unmarshal at hp
      generalize NoteAttribute.decodeInto ⟨"", .nil⟩ x = r at hp
      obtain ⟨q, e⟩ := r
      cases e with
      | none => simp only [Except.ok.injEq] at hp; rw [hp]
      | some err => simp at hp
    refine ⟨p :: ps, ?_, ?_⟩
    · simp only [NoteAttribute.decodeElems, hx, hps]
      rfl
    · simp only [List.map_cons, hmap, hp]

/-- C6: for every record whose `properties` value is a JSON object that is
entirely empty (every `name` member is the empty string or null, every `value`
member is null; `{}` has no member at all), and whose other members
decode, `LineItem.UnmarshalJSON` succeeds and `Properties` is the empty
sequence. -/
theorem LineItem_empty_object_gives_empty_properties {R E : Type}
    (std : List (String × JSON) → R → Except E R) (li : LineItem R)
    (data : List (String × JSON)) (members : List (String × JSON)) (r : R)
    (hstd : std (otherMembers "properties" data) li.rest = .ok r)
    (hraw : (fieldValues "properties" data).getLast? = some (.object members))
    (hempty : ∀ m ∈ members,
      (fieldMatches "name" m.1 = true → m.2 = .string "" ∨ m.2 = .null) ∧
      (fieldMatches "value" m.1 = true → m.2 = .null)) :
    LineItem.UnmarshalJSON std li data = .ok ⟨[], r⟩ := by
  unfold LineItem.UnmarshalJSON LineItem.unmarshalAux
  simp only [hstd, hraw]
  have hbyte : ¬ (JSON.object members).firstByte = '[' := by
    show ¬ ('{' = '[')
    decide
  rw [if_neg hbyte, Unmarshal_of_empty members hempty]
  simp [GoValue.isNil]

/-- C6 on the record `{"title": "Shirt", "properties": {}}`, decoded into a line
item that had a property before. -/
theorem LineItem_empty_object_gives_empty_properties_witness :
    LineItem.UnmarshalJSON titleField ⟨[⟨"old", .nil⟩], ""⟩
      [("title", .string "Shirt"), ("properties", .object [])] = .ok ⟨[], "Shirt"⟩ :=
  LineItem_empty_object_gives_empty_properties titleField ⟨[⟨"old", .nil⟩], ""⟩
    [("title", .string "Shirt"), ("properties", .object [])] [] "Shirt" rfl rfl
    (fun _ h => absurd h (List.not_mem_nil _))

/-- C7: for every record whose `properties` value is a JSON array of `n`
elements, each of which decodes as a `NoteAttribute`, and whose other members
decode, `LineItem.UnmarshalJSON` succeeds and `Properties` has length `n`, its
`i`-th element being the decoding of the `i`-th array element. -/
theorem LineItem_array_decodes_elementwise {R E : Type}
    (std : List (String × JSON) → R → Except E R) (li : LineItem R)
    (data : List (String × JSON)) (elems : List JSON) (r : R)
    (hstd : std (otherMembers "properties" data) li.rest = .ok r)
    (hraw : (fieldValues "properties" data).getLast? = some (.array elems))
    (helems : ∀ x ∈ elems, ∃ p, NoteAttribute.Unmarshal x = .ok p) :
    ∃ ps, LineItem.UnmarshalJSON std li data = .ok ⟨ps, r⟩ ∧
      ps.length = elems.length ∧
      ∀ i (hi : i < elems.length) (hp : i < ps.length),
        NoteAttribute.Unmarshal (elems.get ⟨i, hi⟩) = .ok (ps.get ⟨i, hp⟩) := by
  obtain ⟨ps, hps, hmap⟩ := decodeElems_of_ok elems helems
  have hlen : ps.length = elems.length := by
    have := congrArg List.length hmap
    simpa using this
  refine ⟨ps, ?_, hlen, ?_⟩
  · unfold LineItem.UnmarshalJSON LineItem.unmarshalAux
    simp only [hstd, hraw]
    have hbyte : (JSON.array elems).firstByte = '[' := rfl
    rw [if_pos hbyte]
    simp only [NoteAttribute.UnmarshalSlice, hps]
  · intro i hi hp
    have h1 : (elems.map NoteAttribute.Unmarshal)[i]? = some (NoteAttribute.Unmarshal elems[i]) := by
      simp [List.getElem?_map, List.getElem?_eq_getElem hi]
    have h2 : (ps.map (Except.ok (ε := UnmarshalTypeError)))[i]? = some (.ok ps[i]) := by
      simp [List.getElem?_map, List.getElem?_eq_getElem hp]
    rw [← hmap, h2] at h1
    simp only [List.get_eq_getElem]
    exact (Option.some.inj h1).symm

/-- C7 on a record whose `properties` is an array of two name/value objects. -/
theorem LineItem_array_decodes_elementwise_witness :
    (∀ x ∈ [JSON.object [("name", .string "size"), ("value", .string "M")],
        JSON.object [("name", .string "engraving"), ("value", .number 7)]],
      ∃ p, NoteAttribute.Unmarshal x = .ok p) ∧
    ∃ ps, LineItem.UnmarshalJSON titleField ⟨[], ""⟩
        [("properties", .array [.object [("name", .string "size"), ("value", .string "M")],
          .object [("name", .string "engraving"), ("value", .number 7)]])] = .ok ⟨ps, ""⟩ ∧
      ps.length = 2 ∧
      ∀ i (hi : i < 2) (hp : i < ps.length),
        NoteAttribute.Unmarshal
          ([JSON.object [("name", .string "size"), ("value", .string "M")],
            JSON.object [("name", .string "engraving"), ("value", .number 7)]].get ⟨i, hi⟩) =
          .ok (ps.get ⟨i, hp⟩) :=
  have h : ∀ x ∈ [JSON.object [("name", .string "size"), ("value", .string "M")],
      JSON.object [("name", .string "engraving"), ("value", .number 7)]],
      ∃ p, NoteAttribute.Unmarshal x = .ok p := by
    intro x hx
    simp only [List.mem_cons, List.mem_singleton, List.not_mem_nil, or_false] at hx
    rcases hx with rfl | rfl
    · exact ⟨_, rfl⟩
    · exact ⟨_, rfl⟩
  ⟨h, LineItem_array_decodes_elementwise titleField ⟨[], ""⟩
    [("properties", .array [.object [("name", .string "size"), ("value", .string "M")],
      .object [("name", .string "engraving"), ("value", .number 7)]])]
    [.object [("name", .string "size"), ("value", .string "M")],
      .object [("name", .string "engraving"), ("value", .number 7)]] "" rfl rfl h⟩

/-- C8: for every record whose `properties` value is a single JSON object
whose decoding `p` is not empty (a non-empty name or a non-nil value), and
whose other members decode, `LineItem.UnmarshalJSON` sets `Properties` to the
one-element sequence holding exactly `p`. -/
theorem LineItem_single_object_is_wrapped {R E : Type}
    (std : List (String × JSON) → R → Except E R) (li : LineItem R)
    (data : List (String × JSON)) (members : List (String × JSON)) (p : NoteAttribute)
    (r : R)
    (hstd : std (otherMembers "properties" data) li.rest = .ok r)
    (hraw : (fieldValues "properties" data).getLast? = some (.object members))
    (hdec : NoteAttribute.Unmarshal (.object members) = .ok p)
    (hne : p.Name ≠ "" ∨ p.Value.isNil = false) :
    LineItem.UnmarshalJSON std li data = .ok ⟨[p], r⟩ := by
  unfold LineItem.UnmarshalJSON LineItem.unmarshalAux
  simp only [hstd, hraw]
  have hbyte : ¬ (JSON.object members).firstByte = '[' := by
    show ¬ ('{' = '[')
    decide
  rw [if_neg hbyte, hdec]
  have hcond : ¬ (p.Name = "" ∧ p.Value.isNil = true) := by
    rintro ⟨h1, h2⟩
    rcases hne with h | h
    · exact h h1
    · rw [h2] at h; exact Bool.noConfusion h
  simp only [if_neg hcond]

/-- C8 on a record whose `properties` is the single object
`{"name": "gift", "value": true}`. -/
theorem LineItem_single_object_is_wrapped_witness :
    LineItem.UnmarshalJSON titleField ⟨[], ""⟩
      [("properties", .object [("name", .string "gift"), ("value", .bool true)])] =
      .ok ⟨[⟨"gift", .bool true⟩], ""⟩ :=
  LineItem_single_object_is_wrapped titleField ⟨[], ""⟩
    [("properties", .object [("name", .string "gift"), ("value", .bool true)])]
    [("name", .string "gift"), ("value", .bool true)] ⟨"gift", .bool true⟩ "" rfl rfl rfl
    (Or.inl (by decide))

/-! ## The decoder of `ShippingLines` -/

/-- Storing into an `interface{}` field reports the same error as converting
the value. -/
theorem storeInterface_error (old : GoValue) (x : JSON) :
    (JSON.storeInterface old x).2 = (JSON.valueInterface x).2 := by
  cases x with
  | number n =>
    simp only [JSON.storeInterface, JSON.valueInterface]
    cases convertNumber n <;> rfl
  | _ => rfl

/-- Members that convert without error leave no saved error behind. -/
theorem storeInterface_foldl_error :
    ∀ (values : List JSON) (acc : GoValue × Option UnmarshalTypeError),
      acc.2 = none → (∀ x ∈ values, (JSON.valueInterface x).2 = none) →
      (values.foldl (fun acc x => ((JSON.storeInterface acc.1 x).1,
        saveError acc.2 (JSON.storeInterface acc.1 x).2)) acc).2 = none := by
  intro values
  induction values with
  | nil => intro acc h _; exact h
  | cons x xs ih =>
    intro acc h hx
    rw [List.foldl_cons]
    apply ih
    · show saveError acc.2 (JSON.storeInterface acc.1 x).2 = none
      rw [h, storeInterface_error, hx x (List.mem_cons_self x xs)]
      rfl
    · exact fun y hy => hx y (List.mem_cons_of_mem x hy)

/-- C9: for every record whose `requested_fulfillment_service_id` is JSON null
(the last member of that name; earlier ones, if any, convert without error),
and whose other members decode, `ShippingLines.UnmarshalJSON` succeeds and
`RequestedFulfillmentServiceId` is the empty string. -/
theorem ShippingLines_null_id_gives_empty_string {R E : Type} (large : Int → String)
    (std : List (String × JSON) → R → Except E R) (sl : ShippingLines R)
    (data : List (String × JSON)) (earlier : List JSON) (r : R)
    (hstd : std (otherMembers "requested_fulfillment_service_id" data) sl.rest = .ok r)
    (hraw : fieldValues "requested_fulfillment_service_id" data = earlier ++ [.null])
    (hearlier : ∀ x ∈ earlier, (JSON.valueInterface x).2 = none) :
    ShippingLines.UnmarshalJSON large std sl data = .ok ⟨"", r⟩ := by
  have hfold := storeInterface_foldl_error earlier (GoValue.nil, none) rfl hearlier
  unfold ShippingLines.UnmarshalJSON ShippingLines.unmarshalAux
  simp only [hstd, hraw, List.foldl_append, List.foldl_cons, List.foldl_nil, hfold]
  rfl

/-- C9 on the record `{"title": "Standard", "requested_fulfillment_service_id":
null}`, decoded into a shipping line that held an identifier before. -/
theorem ShippingLines_null_id_gives_empty_string_witness :
    ShippingLines.UnmarshalJSON (fun _ => "") titleField ⟨"old", ""⟩
      [("title", .string "Standard"), ("requested_fulfillment_service_id", .null)] =
      .ok ⟨"", "Standard"⟩ :=
  ShippingLines_null_id_gives_empty_string (fun _ => "") titleField ⟨"old", ""⟩
    [("title", .string "Standard"), ("requested_fulfillment_service_id", .null)] [] "Standard"
    rfl rfl (fun _ h => absurd h (List.not_mem_nil _))

/-- C10, the code at an identifier of seven digits: for the record
`{"requested_fulfillment_service_id": 1234567}` the decoded string is
`1.234567e+06`, not the digits `1234567` that are on the wire. -/
theorem ShippingLines_seven_digit_id_in_exponent_form (large : Int → String) :
    ShippingLines.UnmarshalJSON large titleField ⟨"", ""⟩
      [("requested_fulfillment_service_id", .number 1234567)] =
      .ok ⟨"1.234567e+06", ""⟩ := by
  rfl

/-- Cutting the trailing zeros off a list of digits and filling the list up
with zeros again gives the list back. -/
theorem trimTrailingZeros_append (ds : List Char) :
    trimTrailingZeros ds ++
      List.replicate (ds.length - (trimTrailingZeros ds).length) '0' = ds := by
  have hsplit := List.takeWhile_append_dropWhile (fun c => c == '0') ds.reverse
  have hzeros : ds.reverse.takeWhile (fun c => c == '0') =
      List.replicate (ds.reverse.takeWhile (fun c => c == '0')).length '0' := by
    rw [List.eq_replicate_iff]
    refine ⟨rfl, fun c hc => ?_⟩
    have := List.mem_takeWhile_imp hc
    simpa using this
  have hds : ds = (ds.reverse.dropWhile (fun c => c == '0')).reverse ++
      (ds.reverse.takeWhile (fun c => c == '0')).reverse := by
    rw [← List.reverse_append, hsplit, List.reverse_reverse]
  have hlen : ds.length - (trimTrailingZeros ds).length =
      (ds.reverse.takeWhile (fun c => c == '0')).length := by
    have := congrArg List.length hds
    simp only [List.length_append, List.length_reverse] at this
    simp only [trimTrailingZeros, List.length_reverse]
    omega
  rw [hlen]
  conv_rhs => rw [hds]
  rw [hzeros, List.reverse_replicate, List.length_replicate]
  rfl

/-- The decimal digits of a natural number are at least one. -/
theorem toDigits_length_pos (m : Nat) : 0 < (Nat.toDigits 10 m).length := by
  unfold Nat.toDigits
  rw [Nat.toDigitsCore]
  by_cases h : m / 10 = 0
  · simp [h]
  · simp only [h, if_false]
    rw [Nat.toDigitsCore_lens_eq]
    omega

/-- Below a million, `%v` on an integer-valued float64 writes the decimal
digits of the integer. -/
theorem formatDigitsG_small (m : Nat) (h : m < 10 ^ 6) :
    formatDigitsG (shortestDigits m) = Nat.toDigits 10 m := by
  by_cases h0 : m = 0
  · subst h0; rfl
  · have hpos := toDigits_length_pos m
    have hle : (Nat.toDigits 10 m).length ≤ 6 := Nat.repr_length m 6 (by decide) h
    have htrim := trimTrailingZeros_append (Nat.toDigits 10 m)
    have htl : (trimTrailingZeros (Nat.toDigits 10 m)).length ≤ (Nat.toDigits 10 m).length := by
      have := congrArg List.length htrim
      simp only [List.length_append, List.length_replicate] at this
      omega
    have hexp : ¬ (((Nat.toDigits 10 m).length : Int) - 1 < -4 ∨
        6 ≤ ((Nat.toDigits 10 m).length : Int) - 1) := by omega
    simp only [formatDigitsG, shortestDigits, if_neg h0, if_neg hexp, fmtF, if_pos hpos,
      Nat.min_eq_left htl, List.take_length]
    exact htrim

/-- The verb `%v` writes every integer-valued float64 below a million in
absolute value as the decimal digits of the integer. -/
theorem fmtFloat_small (large : Int → String) (n : Int) (h : n.natAbs < 10 ^ 6) :
    fmtFloat large n = toString n := by
  have hbig : n.natAbs < 2 ^ 53 := lt_trans h (by norm_num)
  unfold fmtFloat
  rw [if_pos hbig, formatDigitsG_small n.natAbs h]
  cases n with
  | ofNat m => rfl
  | negSucc m =>
    rw [if_pos (Int.negSucc_lt_zero m)]
    rfl

/-- An integer literal below `2 ^ 53` in absolute value converts to the
float64 of the same value. -/
theorem convertNumber_small (n : Int) (h : n.natAbs < 2 ^ 53) : convertNumber n = .ok n := by
  cases n with
  | ofNat m =>
    have hm : m < 2 ^ 53 := h
    simp only [convertNumber, parseFloat64Nat, if_pos hm]
  | negSucc m =>
    have hm : m + 1 < 2 ^ 53 := h
    simp only [convertNumber, parseFloat64Nat, if_pos hm]
    rfl

/-- Where the code agrees with C10: for every record whose
`requested_fulfillment_service_id` is an integer literal `n` with
`|n| < 1000000`, and whose other members decode, the decoded identifier is the
decimal digits of `n`. -/
theorem ShippingLines_small_integer_id_gives_digits {R E : Type} (large : Int → String)
    (std : List (String × JSON) → R → Except E R) (sl : ShippingLines R)
    (data : List (String × JSON)) (earlier : List JSON) (n : Int) (r : R)
    (hstd : std (otherMembers "requested_fulfillment_service_id" data) sl.rest = .ok r)
    (hraw : fieldValues "requested_fulfillment_service_id" data = earlier ++ [.number n])
    (hearlier : ∀ x ∈ earlier, (JSON.valueInterface x).2 = none)
    (hn : n.natAbs < 10 ^ 6) :
    ShippingLines.UnmarshalJSON large std sl data = .ok ⟨toString n, r⟩ := by
  have hfold := storeInterface_foldl_error earlier (GoValue.nil, none) rfl hearlier
  have hconv := convertNumber_small n (lt_trans hn (by norm_num))
  have hstore : ∀ old, JSON.storeInterface old (.number n) = (.float64 n, none) := by
    intro old
    simp only [JSON.storeInterface, hconv]
  have hstep : (earlier ++ [JSON.number n]).foldl
      (fun acc x => ((JSON.storeInterface acc.1 x).1,
        saveError acc.2 (JSON.storeInterface acc.1 x).2)) (GoValue.nil, none) =
      (.float64 n, none) := by
    rw [List.foldl_append]
    simp only [List.foldl_cons, List.foldl_nil, hstore, hfold]
    rfl
  unfold ShippingLines.UnmarshalJSON ShippingLines.unmarshalAux
  simp only [hstd, hraw, hstep, GoValue.Sprintf, fmtFloat_small large n hn]

/-- The identifier 123 on the wire gives the string `123`. -/
theorem ShippingLines_small_integer_id_gives_digits_witness :
    ShippingLines.UnmarshalJSON (fun _ => "") titleField ⟨"", ""⟩
      [("requested_fulfillment_service_id", .number 123)] = .ok ⟨"123", ""⟩ :=
  ShippingLines_small_integer_id_gives_digits (fun _ => "") titleField ⟨"", ""⟩
    [("requested_fulfillment_service_id", .number 123)] [] 123 "" rfl rfl
    (fun _ h => absurd h (List.not_mem_nil _)) (by decide)

/-! ## The decoder of `ShippingLines`, continued -/

/-- C11: for every record whose `requested_fulfillment_service_id` is a JSON
string `s` (the last member of that name; earlier ones, if any, convert without
error), and whose other members decode, the decoded
`RequestedFulfillmentServiceId` is exactly `s`. -/
theorem ShippingLines_string_id_is_kept {R E : Type} (large : Int → String)
    (std : List (String × JSON) → R → Except E R) (sl : ShippingLines R)
    (data : List (String × JSON)) (earlier : List JSON) (id : String) (r : R)
    (hstd : std (otherMembers "requested_fulfillment_service_id" data) sl.rest = .ok r)
    (hraw : fieldValues "requested_fulfillment_service_id" data = earlier ++ [.string id])
    (hearlier : ∀ x ∈ earlier, (JSON.valueInterface x).2 = none) :
    ShippingLines.UnmarshalJSON large std sl data = .ok ⟨id, r⟩ := by
  have hfold := storeInterface_foldl_error earlier (GoValue.nil, none) rfl hearlier
  have hstep : (earlier ++ [JSON.string id]).foldl
      (fun acc x => ((JSON.storeInterface acc.1 x).1,
        saveError acc.2 (JSON.storeInterface acc.1 x).2)) (GoValue.nil, none) =
      (.string id, none) := by
    rw [List.foldl_append]
    simp only [List.foldl_cons, List.foldl_nil, hfold]
    rfl
  unfold ShippingLines.UnmarshalJSON ShippingLines.unmarshalAux
  simp only [hstd, hraw, hstep, GoValue.Sprintf]

/-- C11 on a record whose identifier is a string with quotes, a backslash and
blanks in it. -/
theorem ShippingLines_string_id_is_kept_witness :
    ShippingLines.UnmarshalJSON (fun _ => "") titleField ⟨"old", ""⟩
      [("requested_fulfillment_service_id", .string " \"third\\party\" ")] =
      .ok ⟨" \"third\\party\" ", ""⟩ :=
  ShippingLines_string_id_is_kept (fun _ => "") titleField ⟨"old", ""⟩
    [("requested_fulfillment_service_id", .string " \"third\\party\" ")] []
    " \"third\\party\" " "" rfl rfl (fun _ h => absurd h (List.not_mem_nil _))

/-- C15: once the call `json.Unmarshal(data, &aux)` of
`ShippingLines.UnmarshalJSON` has succeeded, the method returns no error,
whatever the `interface{}` field of `aux` holds; the other fields are the ones
that call decoded. -/
theorem ShippingLines_normalisation_never_fails {R E : Type} (large : Int → String)
    (std : List (String × JSON) → R → Except E R) (sl : ShippingLines R)
    (data : List (String × JSON)) (aux : ShippingLinesAux R)
    (haux : ShippingLines.unmarshalAux std sl data = .ok aux) :
    ∃ id, ShippingLines.UnmarshalJSON large std sl data = .ok ⟨id, aux.sl.rest⟩ := by
  unfold ShippingLines.UnmarshalJSON
  rw [haux]
  obtain ⟨sl', v⟩ := aux
  cases v <;> exact ⟨_, rfl⟩

/-- C15 on a record whose identifier is an array holding a number, null and an
object. -/
theorem ShippingLines_normalisation_never_fails_witness :
    ∃ id, ShippingLines.UnmarshalJSON (fun _ => "") titleField ⟨"old", ""⟩
      [("requested_fulfillment_service_id",
        .array [.number 1, .null, .object [("b", .bool false)]])] = .ok ⟨id, ""⟩ :=
  ShippingLines_normalisation_never_fails (fun _ => "") titleField ⟨"old", ""⟩
    [("requested_fulfillment_service_id",
      .array [.number 1, .null, .object [("b", .bool false)]])]
    ⟨⟨"old", ""⟩, .slice [.float64 1, .nil, .map [("b", .bool false)]]⟩ rfl

/-- The values selected from a record put together from two parts. -/
theorem fieldValues_append (name : String) (a b : List (String × JSON)) :
    fieldValues name (a ++ b) = fieldValues name a ++ fieldValues name b := by
  simp [fieldValues, List.filter_append]

/-- Members none of which selects the field contribute no value. -/
theorem fieldValues_eq_nil (name : String) (a : List (String × JSON))
    (h : ∀ m ∈ a, fieldMatches name m.1 = false) : fieldValues name a = [] := by
  simp only [fieldValues, List.map_eq_nil_iff, List.filter_eq_nil_iff]
  intro m hm
  simp [h m hm]

/-- C13: decoding a `ShippingLines` record, re-encoding the decoded value and
decoding the result into a fresh `ShippingLines` gives the identifier of the
first decoding again. The members written for the other fields are assumed not
to use the identifier's name and to decode. -/
theorem ShippingLines_reencoding_is_idempotent {R E : Type} (large : Int → String)
    (std : List (String × JSON) → R → Except E R) (before after : R → List (String × JSON))
    (sl0 sl1 : ShippingLines R) (data : List (String × JSON)) (r0 r2 : R)
    (_hfirst : ShippingLines.UnmarshalJSON large std sl0 data = .ok sl1)
    (hbefore : ∀ m ∈ before sl1.rest,
      fieldMatches "requested_fulfillment_service_id" m.1 = false)
    (hafter : ∀ m ∈ after sl1.rest,
      fieldMatches "requested_fulfillment_service_id" m.1 = false)
    (hstd : std (otherMembers "requested_fulfillment_service_id"
      (ShippingLines.Marshal before after sl1)) r0 = .ok r2) :
    ShippingLines.UnmarshalJSON large std ⟨"", r0⟩ (ShippingLines.Marshal before after sl1) =
      .ok ⟨sl1.RequestedFulfillmentServiceId, r2⟩ := by
  have hvalues : fieldValues "requested_fulfillment_service_id"
      (ShippingLines.Marshal before after sl1) =
      if sl1.RequestedFulfillmentServiceId = "" then []
      else [JSON.string sl1.RequestedFulfillmentServiceId] := by
    unfold ShippingLines.Marshal
    rw [fieldValues_append, fieldValues_append, fieldValues_eq_nil _ _ hbefore,
      fieldValues_eq_nil _ _ hafter]
    by_cases h : sl1.RequestedFulfillmentServiceId = ""
    · simp [h, fieldValues]
    · simp only [if_neg h, List.nil_append, List.append_nil]
      rfl
  unfold ShippingLines.UnmarshalJSON ShippingLines.unmarshalAux
  simp only [hstd, hvalues]
  by_cases h : sl1.RequestedFulfillmentServiceId = ""
  · rw [if_pos h, h]
    rfl
  · rw [if_neg h]
    rfl

/-- C13 on the record `{"title": "Standard", "requested_fulfillment_service_id":
123}`: the first decoding gives `123` as a string, and so does the decoding of
the re-encoded value. -/
theorem ShippingLines_reencoding_is_idempotent_witness :
    ShippingLines.UnmarshalJSON (fun _ => "") titleField ⟨"", ""⟩
      [("title", .string "Standard"), ("requested_fulfillment_service_id", .number 123)] =
      .ok ⟨"123", "Standard"⟩ ∧
    ShippingLines.UnmarshalJSON (fun _ => "") titleField ⟨"", ""⟩
      (ShippingLines.Marshal titleMember (fun _ => []) ⟨"123", "Standard"⟩) =
      .ok ⟨"123", "Standard"⟩ :=
  ⟨rfl, ShippingLines_reencoding_is_idempotent (fun _ => "") titleField titleMember
    (fun _ => []) ⟨"", ""⟩ ⟨"123", "Standard"⟩
    [("title", .string "Standard"), ("requested_fulfillment_service_id", .number 123)]
    "" "Standard" rfl (by decide) (by decide) rfl⟩

/-! ## Envelopes -/

/-- C18, the code on a response that decodes but lacks the envelope field: each
of the three `Get` operations returns a nil entity together with a nil
error. -/
theorem Get_of_missing_envelope_is_nil_without_error :
    ArticlesServiceOp.Get (ι := String) (A := Nat) emptyObjectGet 0 241253187 1 =
      (1, none, none) ∧
    OrderServiceOp.Get (ι := String) (O := Nat) emptyObjectGet 0 450789469 none =
      (1, none, none) ∧
    VariantServiceOp.Get (ι := String) (V := Nat) emptyObjectGet 0 808950810 none =
      (1, none, none) :=
  ⟨rfl, rfl, rfl⟩

/-- C18 as the code has it: each of the three `Get` operations returns the
entity pointer of the resource and the error of the client call unchanged, with
no check of its own; so whenever the client call returns no error and leaves
the envelope field unset, the operation returns a nil entity and a nil
error. -/
theorem Get_returns_envelope_field_and_client_error {σ ι A O V E : Type}
    (getArticle : ClientGet σ ι (ArticleResource A) E)
    (getOrder : ClientGet σ ι (OrderResource O) E)
    (getVariant : ClientGet σ ι (VariantResource V) E)
    (s s' : σ) (blogId articleId orderId variantId : Nat) (options : Option ι)
    (harticle : getArticle s ("blogs/" ++ toString blogId ++ "/articles/" ++
      toString articleId ++ ".json") ⟨none⟩ none = (s', ⟨none⟩, none))
    (horder : getOrder s ("orders/" ++ toString orderId ++ ".json") ⟨none⟩ options =
      (s', ⟨none⟩, none))
    (hvariant : getVariant s ("variants/" ++ toString variantId ++ ".json") ⟨none⟩ options =
      (s', ⟨none⟩, none)) :
    ArticlesServiceOp.Get getArticle s blogId articleId = (s', none, none) ∧
    OrderServiceOp.Get getOrder s orderId options = (s', none, none) ∧
    VariantServiceOp.Get getVariant s variantId options = (s', none, none) := by
  have harticle' : getArticle s (blogsBasePath ++ "/" ++ toString blogId ++ "/" ++
      articlesBasePath ++ "/" ++ toString articleId ++ ".json") ⟨none⟩ none =
      (s', ⟨none⟩, none) := by
    rw [← harticle]
    congr 1
    simp [blogsBasePath, articlesBasePath, String.append_assoc]
  have horder' : getOrder s (ordersBasePath ++ "/" ++ toString orderId ++ ".json") ⟨none⟩
      options = (s', ⟨none⟩, none) := by
    rw [← horder]
    congr 1
  have hvariant' : getVariant s (variantsBasePath ++ "/" ++ toString variantId ++ ".json")
      ⟨none⟩ options = (s', ⟨none⟩, none) := by
    rw [← hvariant]
    congr 1
  refine ⟨?_, ?_, ?_⟩
  · simp only [ArticlesServiceOp.Get, harticle']
  · simp only [OrderServiceOp.Get, horder']
  · simp only [VariantServiceOp.Get, hvariant']

/-- C18 as the code has it, on responses with the body `{}`. -/
theorem Get_returns_envelope_field_and_client_error_witness :
    ArticlesServiceOp.Get (ι := String) (A := Nat) emptyObjectGet 7 2 3 = (8, none, none) ∧
    OrderServiceOp.Get (O := Nat) emptyObjectGet 7 4 (some "fields=id") = (8, none, none) ∧
    VariantServiceOp.Get (V := Nat) emptyObjectGet 7 5 (some "fields=id") = (8, none, none) :=
  Get_returns_envelope_field_and_client_error emptyObjectGet emptyObjectGet emptyObjectGet
    7 8 2 3 4 5 (some "fields=id") rfl rfl rfl

/-- C19: when the client call succeeds, `OrderServiceOp.ListWithPagination`
returns exactly the orders of the decoded resource, in their order, together
with the pagination value the client returned, unchanged. -/
theorem ListWithPagination_passes_orders_and_cursor {σ ι L O E : Type}
    (c : Client σ ι L O E) (s s' : σ) (options : QueryOptions ι L)
    (resource : OrdersResource O) (pagination : Pagination L)
    (hok : c.ListWithPagination s "orders.json" options = (s', .ok (resource, pagination))) :
    OrderServiceOp.ListWithPagination c s options = (s', .ok (resource.Orders, pagination)) := by
  have hpath : ordersBasePath ++ ".json" = "orders.json" := by decide
  simp only [OrderServiceOp.ListWithPagination, hpath, hok]

/-- C19 at the last page of the two-page listing, which has a previous cursor
and no next cursor. -/
theorem ListWithPagination_passes_orders_and_cursor_witness :
    OrderServiceOp.ListWithPagination twoPageClient 1 (.listOptions 2) =
      (2, .ok ([3], ⟨none, some 1⟩)) :=
  ListWithPagination_passes_orders_and_cursor twoPageClient 1 2 (.listOptions 2) ⟨[3]⟩
    ⟨none, some 1⟩ rfl

/-- C20: for every successful response, `ArticlesServiceOp.List` returns
exactly the sequence `Articles` of the resource the client call filled, and
`AccessScopesServiceOp.List` exactly the sequence `AccessScopes`, each with a
nil error. -/
theorem List_returns_envelope_sequence {σ ι A Q E : Type}
    (get : ClientGet σ ι (ArticlesResource A) E) (newRequest : ClientNewRequest σ ι Q E)
    (execute : ClientDo σ Q AccessScopesResource E) (s s' s1 s2 : σ) (blogId : Nat)
    (options : Option ι) (articles : ArticlesResource A) (req : Q)
    (scopes : AccessScopesResource)
    (hget : get s ("blogs/" ++ toString blogId ++ "/articles.json") ⟨[]⟩ options =
      (s', articles, none))
    (hreq : newRequest s "GET" "admin/oauth/access_scopes.json" options = (s1, .ok req))
    (hdo : execute s1 req ⟨[]⟩ = (s2, scopes, none)) :
    ArticlesServiceOp.List get s blogId options = (s', articles.Articles, none) ∧
    AccessScopesServiceOp.List newRequest execute s options =
      (s2, scopes.AccessScopes, none) := by
  have hget' : get s (blogsBasePath ++ "/" ++ toString blogId ++ "/" ++ articlesBasePath ++
      ".json") ⟨[]⟩ options = (s', articles, none) := by
    rw [← hget]
    congr 1
    simp [blogsBasePath, articlesBasePath, String.append_assoc]
  constructor
  · simp only [ArticlesServiceOp.List, hget']
  · simp only [AccessScopesServiceOp.List, hreq, hdo]

/-- C20 on the responses of the two tests: the articles with ids 1 and 2 in
that order, and the scopes `scope_1` and `scope_2`. -/
theorem List_returns_envelope_sequence_witness :
    ArticlesServiceOp.List twoArticlesGet 0 241253187 none = (1, [1, 2], none) ∧
    AccessScopesServiceOp.List plainNewRequest twoScopesDo 0 none =
      (1, [⟨"scope_1"⟩, ⟨"scope_2"⟩], none) :=
  List_returns_envelope_sequence twoArticlesGet plainNewRequest twoScopesDo 0 1 0 1 241253187
    none ⟨[1, 2]⟩ ("GET", "admin/oauth/access_scopes.json") ⟨[⟨"scope_1"⟩, ⟨"scope_2"⟩]⟩
    rfl rfl rfl

/-! ## The decoder of `LineItem`, continued -/

/-- C16, the code on the empty object: as a single object `{}` gives no
property, inside a one-element array it gives one property, the empty one. -/
theorem LineItem_empty_object_differs_from_its_singleton_array :
    LineItem.UnmarshalJSON titleField ⟨[], ""⟩ [("properties", .object [])] =
      .ok ⟨[], ""⟩ ∧
    LineItem.UnmarshalJSON titleField ⟨[], ""⟩ [("properties", .array [.object []])] =
      .ok ⟨[⟨"", .nil⟩], ""⟩ :=
  ⟨rfl, rfl⟩

/-- The method on an object and on its one-element array: for every JSON
object `x` that does not decode to the empty element (empty name and nil
value), the method `LineItem.UnmarshalJSON` gives the same result, be it a line
item or an error, on a record whose `properties` is `x` and on the otherwise
identical record whose `properties` is the one-element array `[x]`. -/
theorem LineItem_object_and_singleton_array_agree {R E : Type}
    (std : List (String × JSON) → R → Except E R) (li : LineItem R)
    (data1 data2 : List (String × JSON)) (members : List (String × JSON))
    (hother : otherMembers "properties" data1 = otherMembers "properties" data2)
    (hraw1 : (fieldValues "properties" data1).getLast? = some (.object members))
    (hraw2 : (fieldValues "properties" data2).getLast? = some (.array [.object members]))
    (hne : ∀ p, NoteAttribute.Unmarshal (.object members) = .ok p →
      p.Name ≠ "" ∨ p.Value.isNil = false) :
    LineItem.UnmarshalJSON std li data1 = LineItem.UnmarshalJSON std li data2 := by
  unfold LineItem.UnmarshalJSON LineItem.unmarshalAux
  rw [hother, hraw1, hraw2]
  cases std (otherMembers "properties" data2) li.rest with
  | error e => rfl
  | ok r =>
    have hbyte1 : ¬ (JSON.object members).firstByte = '[' := by
      show ¬ ('{' = '[')
      decide
    have hbyte2 : (JSON.array [JSON.object members]).firstByte = '[' := rfl
    simp only [if_neg hbyte1, if_pos hbyte2]
    unfold NoteAttribute.Unmarshal at hne
    simp only [NoteAttribute.Unmarshal, NoteAttribute.UnmarshalSlice,
      NoteAttribute.decodeElems]
    generalize NoteAttribute.decodeInto ⟨"", .nil⟩ (.object members) = d at hne
    obtain ⟨p, e⟩ := d
    cases e with
    | some err => rfl
    | none =>
      have hcond : ¬ (p.Name = "" ∧ p.Value.isNil = true) := by
        rintro ⟨h1, h2⟩
        rcases hne p rfl with h | h
        · exact h h1
        · rw [h2] at h; exact Bool.noConfusion h
      simp only [if_neg hcond]
      rfl

/-- C17, the code on an object with one member that is neither `name` nor
`value`: the decoding succeeds and `Properties` is empty. -/
theorem LineItem_object_with_other_member_gives_empty_properties :
    LineItem.UnmarshalJSON titleField ⟨[], ""⟩
      [("properties", .object [("note", .string "fragile")])] = .ok ⟨[], ""⟩ :=
  rfl

/-- C17 as the code has it: for every record whose `properties` is a non-empty
array, or a JSON object whose decoding has a non-empty name or a non-nil value,
a decoding that succeeds gives a non-empty `Properties`. -/
theorem LineItem_nonempty_properties_stay_nonempty {R E : Type}
    (std : List (String × JSON) → R → Except E R) (li li' : LineItem R)
    (data : List (String × JSON)) (raw : JSON)
    (hraw : (fieldValues "properties" data).getLast? = some raw)
    (hok : LineItem.UnmarshalJSON std li data = .ok li')
    (hnonempty : (∃ x xs, raw = .array (x :: xs)) ∨
      (∃ members p, raw = .object members ∧ NoteAttribute.Unmarshal raw = .ok p ∧
        (p.Name ≠ "" ∨ p.Value.isNil = false))) :
    li'.Properties ≠ [] := by
  unfold LineItem.UnmarshalJSON LineItem.unmarshalAux at hok
  rw [hraw] at hok
  cases hstd : std (otherMembers "properties" data) li.rest with
  | error e => rw [hstd] at hok; exact Except.noConfusion hok
  | ok r =>
    rw [hstd] at hok
    rcases hnonempty with ⟨x, xs, rfl⟩ | ⟨members, p, rfl, hp, hne⟩
    · have hbyte : (JSON.array (x :: xs)).firstByte = '[' := rfl
      simp only [if_pos hbyte, NoteAttribute.UnmarshalSlice, NoteAttribute.decodeElems] at hok
      cases he : saveError (NoteAttribute.decodeInto ⟨"", .nil⟩ x).2
          (NoteAttribute.decodeElems xs).2 with
      | some err => rw [he] at hok; exact Except.noConfusion hok
      | none =>
        rw [he] at hok
        have := Except.ok.inj hok
        rw [← this]
        exact List.cons_ne_nil _ _
    · have hbyte : ¬ (JSON.object members).firstByte = '[' := by
        show ¬ ('{' = '[')
        decide
      have hcond : ¬ (p.Name = "" ∧ p.Value.isNil = true) := by
        rintro ⟨h1, h2⟩
        rcases hne with h | h
        · exact h h1
        · rw [h2] at h; exact Bool.noConfusion h
      simp only [if_neg hbyte, hp, if_neg hcond] at hok
      have := Except.ok.inj hok
      rw [← this]
      exact List.cons_ne_nil _ _

/-- C17 as the code has it, on an array of one object that has no `name` and
no `value`: the one element is kept. -/
theorem LineItem_nonempty_properties_stay_nonempty_witness :
    LineItem.UnmarshalJSON titleField ⟨[], ""⟩
      [("properties", .array [.object [("note", .string "fragile")]])] =
      .ok ⟨[⟨"", .nil⟩], ""⟩ ∧
    (⟨[⟨"", .nil⟩], ""⟩ : LineItem String).Properties ≠ [] :=
  ⟨rfl, LineItem_nonempty_properties_stay_nonempty titleField ⟨[], ""⟩ ⟨[⟨"", .nil⟩], ""⟩
    [("properties", .array [.object [("note", .string "fragile")]])]
    (.array [.object [("note", .string "fragile")]]) rfl rfl
    (Or.inl ⟨_, _, rfl⟩)⟩

/-! ## Totality on the documented shapes -/

set_option exponentiation.threshold 1100 in
/-- A natural number from `2 ^ 1024` on is out of the range of float64. -/
theorem parseFloat64Nat_eq_none (m : Nat) (h : 2 ^ 1024 ≤ m) : parseFloat64Nat m = none := by
  have hpos : 0 < m := Nat.lt_of_lt_of_le (Nat.pow_pos (Nat.succ_pos 1)) h
  have hm0 : m ≠ 0 := Nat.pos_iff_ne_zero.mp hpos
  have hb : 1024 ≤ Nat.log2 m := (Nat.le_log2 hm0).2 h
  have h53 : ¬ m < 2 ^ 53 := by
    intro hlt
    have := (Nat.log2_lt hm0).2 hlt
    omega
  have hk : 52 + (Nat.log2 m + 1 - 53) = Nat.log2 m := by omega
  have hq : 2 ^ 52 ≤ m / 2 ^ (Nat.log2 m + 1 - 53) := by
    rw [Nat.le_div_iff_mul_le (Nat.two_pow_pos _), ← Nat.pow_add, hk]
    exact Nat.log2_self_le hm0
  have hbig : 2 ^ 1024 ≤ 2 ^ 52 * 2 ^ (Nat.log2 m + 1 - 53) := by
    rw [← Nat.pow_add, hk]
    exact Nat.pow_le_pow_right (by decide) hb
  unfold parseFloat64Nat
  rw [if_neg h53]
  simp only
  split
  · rw [if_neg]
    intro hlt
    have : 2 ^ 52 * 2 ^ (Nat.log2 m + 1 - 53) ≤
        (m / 2 ^ (Nat.log2 m + 1 - 53) + 1) * 2 ^ (Nat.log2 m + 1 - 53) :=
      Nat.mul_le_mul_right _ (Nat.le_succ_of_le hq)
    exact Nat.lt_irrefl _ (Nat.lt_of_le_of_lt (Nat.le_trans hbig this) hlt)
  · rw [if_neg]
    intro hlt
    have : 2 ^ 52 * 2 ^ (Nat.log2 m + 1 - 53) ≤
        m / 2 ^ (Nat.log2 m + 1 - 53) * 2 ^ (Nat.log2 m + 1 - 53) :=
      Nat.mul_le_mul_right _ hq
    exact Nat.lt_irrefl _ (Nat.lt_of_le_of_lt (Nat.le_trans hbig this) hlt)

/-- The conversion of a natural number from `2 ^ 1024` on fails. -/
theorem convertNumber_out_of_range (m : Nat) (h : 2 ^ 1024 ≤ m) :
    convertNumber (Int.ofNat m) =
      .error ⟨"number " ++ toString (Int.ofNat m), "float64"⟩ := by
  simp only [convertNumber, parseFloat64Nat_eq_none _ h]

/-- A `value` that is a number out of range makes the decoding of the record
`{"properties": {"name": "weight", "value": n}}` fail with the error of the
conversion. -/
theorem LineItem_value_conversion_error (n : Int) (e : UnmarshalTypeError)
    (h : convertNumber n = .error e) :
    LineItem.UnmarshalJSON titleField ⟨[], ""⟩
      [("properties", .object [("name", .string "weight"), ("value", .number n)])] =
      .error (.unmarshalType e) := by
  have hother : otherMembers "properties"
      [("properties", JSON.object [("name", .string "weight"), ("value", .number n)])] = [] :=
    rfl
  have hraw : (fieldValues "properties"
      [("properties", JSON.object [("name", .string "weight"), ("value", .number n)])]).getLast? =
      some (.object [("name", .string "weight"), ("value", .number n)]) := rfl
  have hbyte : ¬ (JSON.object [("name", .string "weight"), ("value", .number n)]).firstByte =
      '[' := by
    show ¬ ('{' = '[')
    decide
  have hname : NoteAttribute.decodeMember (⟨"", .nil⟩, none) ("name", .string "weight") =
      (⟨"weight", .nil⟩, none) := rfl
  have hvalue : NoteAttribute.decodeMember (⟨"weight", .nil⟩, none) ("value", .number n) =
      (⟨"weight", .nil⟩, some e) := by
    unfold NoteAttribute.decodeMember
    rw [if_neg (by decide : ¬ fieldMatches "name" "value" = true),
      if_pos (by decide : fieldMatches "value" "value" = true)]
    simp only [JSON.storeInterface, h]
    rfl
  have hdec : NoteAttribute.Unmarshal (.object [("name", .string "weight"), ("value", .number n)]) =
      .error e := by
    simp only [NoteAttribute.Unmarshal, NoteAttribute.decodeInto, List.foldl_cons,
      List.foldl_nil, hname, hvalue]
  unfold LineItem.UnmarshalJSON LineItem.unmarshalAux
  rw [hother, hraw]
  simp only [titleField, if_neg hbyte, hdec]

/-- C14, the code on a name/value object whose value is an integer of 310
digits: the record is well formed and of a documented shape, and the decoding
fails, because the number is out of the range of float64. -/
theorem LineItem_value_out_of_range_fails :
    DocumentedProperties (fieldValues "properties"
      [("properties", JSON.object [("name", .string "weight"),
        ("value", .number (Int.ofNat (10 ^ 309)))])]).getLast? ∧
    LineItem.UnmarshalJSON titleField ⟨[], ""⟩
      [("properties", .object [("name", .string "weight"),
        ("value", .number (Int.ofNat (10 ^ 309)))])] =
      .error (.unmarshalType ⟨"number " ++ toString (Int.ofNat (10 ^ 309)), "float64"⟩) := by
  constructor
  · show IsNameValueObject _
    refine ⟨_, rfl, ?_⟩
    intro m hm hname
    simp only [List.mem_cons, List.mem_singleton, List.not_mem_nil, or_false] at hm
    rcases hm with rfl | rfl
    · exact Or.inl ⟨_, rfl⟩
    · exact absurd hname (by decide)
  · exact LineItem_value_conversion_error _ _
      (convertNumber_out_of_range (10 ^ 309) (by norm_num))

/-- Saving an error gives none exactly when there was none before and none is
added. -/
theorem saveError_eq_none (a b : Option UnmarshalTypeError) :
    saveError a b = none ↔ a = none ∧ b = none := by
  cases a <;> simp [saveError]

mutual
/-- A JSON value whose numbers are within range converts without error. -/
theorem valueInterface_of_inRange : ∀ (x : JSON), x.inRange = true →
    (JSON.valueInterface x).2 = none
  | .null, _ => rfl
  | .bool _, _ => rfl
  | .string _, _ => rfl
  | .number (.ofNat m), h => by
    have h' : (parseFloat64Nat m).isSome = true := h
    obtain ⟨v, hv⟩ := Option.isSome_iff_exists.mp h'
    simp only [JSON.valueInterface, convertNumber, hv]
  | .number (.negSucc m), h => by
    have h' : (parseFloat64Nat (m + 1)).isSome = true := h
    obtain ⟨v, hv⟩ := Option.isSome_iff_exists.mp h'
    simp only [JSON.valueInterface, convertNumber, hv]
  | .array elems, h => by
    have h' : JSON.allInRange elems = true := by simpa [JSON.inRange] using h
    simp only [JSON.valueInterface]
    exact arrayInterface_of_inRange elems h'
  | .object members, h => by
    have h' : JSON.membersInRange members = true := by simpa [JSON.inRange] using h
    simp only [JSON.valueInterface]
    exact objectInterface_of_inRange members h'
/-- The elements of an array that are within range convert without error. -/
theorem arrayInterface_of_inRange : ∀ (xs : List JSON), JSON.allInRange xs = true →
    (JSON.arrayInterface xs).2 = none
  | [], _ => rfl
  | x :: xs, h => by
    have h' : x.inRange = true ∧ JSON.allInRange xs = true := by
      simpa [JSON.allInRange] using h
    simp only [JSON.arrayInterface, saveError_eq_none]
    exact ⟨valueInterface_of_inRange x h'.1, arrayInterface_of_inRange xs h'.2⟩
/-- The members of an object that are within range convert without error. -/
theorem objectInterface_of_inRange : ∀ (ms : List (String × JSON)),
    JSON.membersInRange ms = true → (JSON.objectInterface ms).2 = none
  | [], _ => rfl
  | (k, x) :: ms, h => by
    have h' : x.inRange = true ∧ JSON.membersInRange ms = true := by
      simpa [JSON.membersInRange] using h
    simp only [JSON.objectInterface, saveError_eq_none]
    exact ⟨valueInterface_of_inRange x h'.1, objectInterface_of_inRange ms h'.2⟩
end

/-- A member of a name/value object whose value is within range adds no
error. -/
theorem decodeMember_no_error (acc : NoteAttribute × Option UnmarshalTypeError)
    (m : String × JSON) (hacc : acc.2 = none)
    (hname : fieldMatches "name" m.1 = true → (∃ s, m.2 = .string s) ∨ m.2 = .null)
    (hvalue : fieldMatches "value" m.1 = true → m.2.inRange = true) :
    (NoteAttribute.decodeMember acc m).2 = none := by
  unfold NoteAttribute.decodeMember
  by_cases h1 : fieldMatches "name" m.1 = true
  · rw [if_pos h1]
    rcases hname h1 with ⟨s, hs⟩ | hs <;> rw [hs] <;> exact hacc
  · rw [if_neg h1]
    by_cases h2 : fieldMatches "value" m.1 = true
    · rw [if_pos h2]
      show saveError acc.2 (JSON.storeInterface acc.1.Value m.2).2 = none
      rw [hacc, storeInterface_error, valueInterface_of_inRange m.2 (hvalue h2)]
      rfl
    · rw [if_neg h2]
      exact hacc

/-- A name/value object whose values are within range decodes without
error. -/
theorem decodeInto_no_error (p : NoteAttribute) (x : JSON) (hx : IsNameValueObject x)
    (hr : ValuesInRange x) : (NoteAttribute.decodeInto p x).2 = none := by
  obtain ⟨members, rfl, hname⟩ := hx
  have hvalue := hr members rfl
  have hfold : ∀ (ms : List (String × JSON)) (acc : NoteAttribute × Option UnmarshalTypeError),
      acc.2 = none →
      (∀ m ∈ ms, fieldMatches "name" m.1 = true → (∃ s, m.2 = .string s) ∨ m.2 = .null) →
      (∀ m ∈ ms, fieldMatches "value" m.1 = true → m.2.inRange = true) →
      (ms.foldl NoteAttribute.decodeMember acc).2 = none := by
    intro ms
    induction ms with
    | nil => intro acc hacc _ _; exact hacc
    | cons m ms ih =>
      intro acc hacc hn hv
      rw [List.foldl_cons]
      exact ih _ (decodeMember_no_error acc m hacc (hn m (List.mem_cons_self m ms))
        (hv m (List.mem_cons_self m ms)))
        (fun m' hm' => hn m' (List.mem_cons_of_mem m hm'))
        (fun m' hm' => hv m' (List.mem_cons_of_mem m hm'))
  exact hfold members (p, none) rfl hname hvalue

/-- An array of name/value objects whose values are within range decodes
without error. -/
theorem decodeElems_no_error : ∀ (elems : List JSON),
    (∀ x ∈ elems, IsNameValueObject x) → (∀ x ∈ elems, ValuesInRange x) →
    (NoteAttribute.decodeElems elems).2 = none
  | [], _, _ => rfl
  | x :: xs, hx, hr => by
    simp only [NoteAttribute.decodeElems, saveError_eq_none]
    exact ⟨decodeInto_no_error _ x (hx x (List.mem_cons_self x xs))
        (hr x (List.mem_cons_self x xs)),
      decodeElems_no_error xs (fun y hy => hx y (List.mem_cons_of_mem x hy))
        (fun y hy => hr y (List.mem_cons_of_mem x hy))⟩

/-- The method on the documented shapes: for every record whose other members
decode and whose `properties` is absent, null, a single name/value object or an
array of name/value objects, the method `LineItem.UnmarshalJSON` returns no
error, provided the numbers inside the `value` members are within the range of
float64. -/
theorem LineItem_decodes_documented_shapes {R E : Type}
    (std : List (String × JSON) → R → Except E R) (li : LineItem R)
    (data : List (String × JSON)) (r : R)
    (hstd : std (otherMembers "properties" data) li.rest = .ok r)
    (hshape : DocumentedProperties (fieldValues "properties" data).getLast?)
    (hrange : PropertiesInRange (fieldValues "properties" data).getLast?) :
    ∃ ps, LineItem.UnmarshalJSON std li data = .ok ⟨ps, r⟩ := by
  unfold LineItem.UnmarshalJSON LineItem.unmarshalAux
  rw [hstd]
  cases hraw : (fieldValues "properties" data).getLast? with
  | none => exact ⟨li.Properties, rfl⟩
  | some raw =>
    rw [hraw] at hshape hrange
    cases raw with
    | null => exact ⟨[], rfl⟩
    | object members =>
      have hbyte : ¬ (JSON.object members).firstByte = '[' := by
        show ¬ ('{' = '[')
        decide
      have herr := decodeInto_no_error ⟨"", .nil⟩ (.object members) hshape hrange
      simp only [if_neg hbyte, NoteAttribute.Unmarshal]
      generalize NoteAttribute.decodeInto ⟨"", .nil⟩ (.object members) = d at herr
      obtain ⟨p, e⟩ := d
      simp only at herr
      subst herr
      simp only
      by_cases hc : p.Name = "" ∧ p.Value.isNil = true
      · exact ⟨[], by rw [if_pos hc]⟩
      · exact ⟨[p], by rw [if_neg hc]⟩
    | array elems =>
      have herr := decodeElems_no_error elems hshape hrange
      have hbyte : (JSON.array elems).firstByte = '[' := rfl
      simp only [if_pos hbyte, NoteAttribute.UnmarshalSlice]
      generalize NoteAttribute.decodeElems elems = d at herr
      obtain ⟨ps, e⟩ := d
      simp only at herr
      subst herr
      exact ⟨ps, rfl⟩
    | bool b =>
      obtain ⟨members, hm, _⟩ := hshape
      exact JSON.noConfusion hm
    | number n =>
      obtain ⟨members, hm, _⟩ := hshape
      exact JSON.noConfusion hm
    | string str =>
      obtain ⟨members, hm, _⟩ := hshape
      exact JSON.noConfusion hm

/-! ## Re-encoding a `LineItem` -/

set_option exponentiation.threshold 1100 in
/-- A mantissa of 53 bits times a power of two is a float64 and converts to
itself. -/
theorem parseFloat64Nat_of_mantissa (q k : Nat) (h1 : 2 ^ 52 ≤ q) (h2 : q ≤ 2 ^ 53)
    (hk : 1 ≤ k) (hlt : q * 2 ^ k < 2 ^ 1024) :
    parseFloat64Nat (q * 2 ^ k) = some (q * 2 ^ k) := by
  have hkpos : 0 < 2 ^ k := Nat.two_pow_pos k
  have hlow : 2 ^ (52 + k) ≤ q * 2 ^ k := by
    rw [Nat.pow_add]
    exact Nat.mul_le_mul_right _ h1
  have h53 : 2 ^ 53 ≤ 2 ^ (52 + k) := Nat.pow_le_pow_right (by decide) (by omega)
  have hns : ¬ q * 2 ^ k < 2 ^ 53 := by omega
  have hv0 : q * 2 ^ k ≠ 0 := by omega
  rcases Nat.lt_or_eq_of_le h2 with hq | hq
  · have hhigh : q * 2 ^ k < 2 ^ (52 + k + 1) := by
      rw [show 52 + k + 1 = 53 + k by omega, Nat.pow_add]
      exact Nat.mul_lt_mul_of_pos_right hq hkpos
    have hlog : Nat.log2 (q * 2 ^ k) = 52 + k := by
      have a := (Nat.le_log2 hv0).2 hlow
      have b := (Nat.log2_lt hv0).2 hhigh
      omega
    unfold parseFloat64Nat
    rw [if_neg hns]
    simp only [hlog]
    rw [show 52 + k + 1 - 53 = k by omega, Nat.mul_div_cancel _ hkpos, Nat.mul_mod_left]
    have hc : ¬ (2 ^ k < 2 * 0 ∨ 2 * 0 = 2 ^ k ∧ q % 2 = 1) := by omega
    rw [if_neg hc, if_pos hlt]
  · subst hq
    have hpow : 2 ^ 53 * 2 ^ k = 2 ^ 52 * 2 ^ (k + 1) := by
      rw [← Nat.pow_add, ← Nat.pow_add]
      congr 1
      omega
    have hlog : Nat.log2 (2 ^ 53 * 2 ^ k) = 53 + k := by
      rw [← Nat.pow_add]
      exact Nat.log2_two_pow
    unfold parseFloat64Nat
    rw [if_neg hns]
    simp only [hlog]
    rw [show 53 + k + 1 - 53 = k + 1 by omega, hpow,
      Nat.mul_div_cancel _ (Nat.two_pow_pos (k + 1)), Nat.mul_mod_left]
    have hc : ¬ (2 ^ (k + 1) < 2 * 0 ∨ 2 * 0 = 2 ^ (k + 1) ∧ 2 ^ 52 % 2 = 1) := by
      have := Nat.two_pow_pos (k + 1)
      omega
    rw [if_neg hc, if_pos (hpow ▸ hlt)]

set_option exponentiation.threshold 1100 in
/-- What `parseFloat64Nat` gives is a float64: converting it again changes
nothing. -/
theorem parseFloat64Nat_idem (m v : Nat) (h : parseFloat64Nat m = some v) :
    parseFloat64Nat v = some v := by
  by_cases hs : m < 2 ^ 53
  · have hv : v = m := by
      simp only [parseFloat64Nat, if_pos hs, Option.some.injEq] at h
      exact h.symm
    subst hv
    simp only [parseFloat64Nat, if_pos hs]
  · have hm : 2 ^ 53 ≤ m := Nat.le_of_not_lt hs
    have hm0 : m ≠ 0 := by
      have := Nat.two_pow_pos 53
      omega
    have hb : 53 ≤ Nat.log2 m := (Nat.le_log2 hm0).2 hm
    have hk : 52 + (Nat.log2 m + 1 - 53) = Nat.log2 m := by omega
    have hkpos : 0 < 2 ^ (Nat.log2 m + 1 - 53) := Nat.two_pow_pos _
    have hq1 : 2 ^ 52 ≤ m / 2 ^ (Nat.log2 m + 1 - 53) := by
      rw [Nat.le_div_iff_mul_le hkpos, ← Nat.pow_add, hk]
      exact Nat.log2_self_le hm0
    have hq2 : m / 2 ^ (Nat.log2 m + 1 - 53) < 2 ^ 53 := by
      rw [Nat.div_lt_iff_lt_mul hkpos, ← Nat.pow_add,
        show 53 + (Nat.log2 m + 1 - 53) = Nat.log2 m + 1 by omega]
      exact Nat.lt_log2_self
    unfold parseFloat64Nat at h
    rw [if_neg hs] at h
    simp only at h
    split at h
    · split at h
      · rename_i hlt
        have hv := Option.some.inj h
        rw [← hv]
        exact parseFloat64Nat_of_mantissa _ _ (by omega) (by omega) (by omega) hlt
      · exact Option.noConfusion h
    · split at h
      · rename_i hlt
        have hv := Option.some.inj h
        rw [← hv]
        exact parseFloat64Nat_of_mantissa _ _ hq1 (by omega) (by omega) hlt
      · exact Option.noConfusion h

/-- What `parseFloat64Nat` gives for a positive number is positive. -/
theorem parseFloat64Nat_pos (m v : Nat) (hm : 0 < m) (h : parseFloat64Nat m = some v) :
    0 < v := by
  by_cases hs : m < 2 ^ 53
  · simp only [parseFloat64Nat, if_pos hs, Option.some.injEq] at h
    omega
  · unfold parseFloat64Nat at h
    rw [if_neg hs] at h
    simp only at h
    have hm0 : m ≠ 0 := by omega
    have hb : 53 ≤ Nat.log2 m := (Nat.le_log2 hm0).2 (Nat.le_of_not_lt hs)
    have hk : 52 + (Nat.log2 m + 1 - 53) = Nat.log2 m := by omega
    have hkpos : 0 < 2 ^ (Nat.log2 m + 1 - 53) := Nat.two_pow_pos _
    have hq1 : 0 < m / 2 ^ (Nat.log2 m + 1 - 53) := by
      have : 2 ^ 52 ≤ m / 2 ^ (Nat.log2 m + 1 - 53) := by
        rw [Nat.le_div_iff_mul_le hkpos, ← Nat.pow_add, hk]
        exact Nat.log2_self_le hm0
      have := Nat.two_pow_pos 52
      omega
    split at h
    · split at h
      · rw [← Option.some.inj h]
        exact Nat.mul_pos (Nat.succ_pos _) hkpos
      · exact Option.noConfusion h
    · split at h
      · rw [← Option.some.inj h]
        exact Nat.mul_pos hq1 hkpos
      · exact Option.noConfusion h

/-- The float64 of an integer literal converts to itself. -/
theorem convertNumber_idem (n v : Int) (h : convertNumber n = .ok v) :
    convertNumber v = .ok v := by
  cases n with
  | ofNat m =>
    simp only [convertNumber] at h
    cases hp : parseFloat64Nat m with
    | none => rw [hp] at h; exact Except.noConfusion h
    | some w =>
      rw [hp] at h
      have hv := Except.ok.inj h
      rw [← hv]
      simp only [convertNumber, parseFloat64Nat_idem m w hp]
  | negSucc m =>
    simp only [convertNumber] at h
    cases hp : parseFloat64Nat (m + 1) with
    | none => rw [hp] at h; exact Except.noConfusion h
    | some w =>
      rw [hp] at h
      have hv := Except.ok.inj h
      have hw := parseFloat64Nat_pos (m + 1) w (Nat.succ_pos m) hp
      obtain ⟨u, rfl⟩ : ∃ u, w = u + 1 := ⟨w - 1, by omega⟩
      have hneg : -(Int.ofNat (u + 1)) = Int.negSucc u := rfl
      rw [← hv, hneg]
      simp only [convertNumber, parseFloat64Nat_idem (m + 1) (u + 1) hp]
      rfl

/-- An entry of a map after an insertion is the new entry or was there
before. -/
theorem mem_mapInsert (k : String) (v : GoValue) :
    ∀ (l : List (String × GoValue)) (e : String × GoValue),
      e ∈ GoValue.mapInsert k v l → e = (k, v) ∨ e ∈ l
  | [], e, h => by
    simp only [GoValue.mapInsert, List.mem_singleton] at h
    exact Or.inl h
  | (k', v') :: rest, e, h => by
    simp only [GoValue.mapInsert] at h
    split at h
    · simp only [List.mem_cons] at h ⊢
      rcases h with h | h
      · exact Or.inl h
      · exact Or.inr (Or.inr h)
    · split at h
      · simp only [List.mem_cons] at h ⊢
        exact h
      · simp only [List.mem_cons] at h ⊢
        rcases h with h | h
        · exact Or.inr (Or.inl h)
        · rcases mem_mapInsert k v rest e h with h' | h'
          · exact Or.inl h'
          · exact Or.inr (Or.inr h')

/-- Every entry of the map built from a list of members is one of the
members. -/
theorem mem_mkMap (members : List (String × GoValue)) (e : String × GoValue)
    (h : e ∈ GoValue.mkMap members) : e ∈ members := by
  have hfold : ∀ (ms acc : List (String × GoValue)),
      e ∈ ms.foldl (fun acc m => GoValue.mapInsert m.1 m.2 acc) acc → e ∈ acc ∨ e ∈ ms := by
    intro ms
    induction ms with
    | nil => intro acc h; exact Or.inl h
    | cons m ms ih =>
      intro acc h
      rw [List.foldl_cons] at h
      rcases ih _ h with h' | h'
      · rcases mem_mapInsert m.1 m.2 acc e h' with h'' | h''
        · exact Or.inr (h'' ▸ List.mem_cons_self _ _)
        · exact Or.inl h''
      · exact Or.inr (List.mem_cons_of_mem _ h')
  rcases hfold members [] h with h' | h'
  · exact absurd h' (List.not_mem_nil _)
  · exact h'

/-- An insertion keeps the entries of a map sorted by key, every key once. -/
theorem mapInsert_sorted (k : String) (v : GoValue) :
    ∀ (l : List (String × GoValue)), l.Pairwise (fun a b => a.1 < b.1) →
      (GoValue.mapInsert k v l).Pairwise (fun a b => a.1 < b.1)
  | [], _ => by simp [GoValue.mapInsert]
  | (k', v') :: rest, h => by
    rw [List.pairwise_cons] at h
    simp only [GoValue.mapInsert]
    split
    · rename_i hk
      rw [List.pairwise_cons]
      exact ⟨fun b hb => hk ▸ h.1 b hb, h.2⟩
    · split
      · rename_i hlt
        rw [List.pairwise_cons, List.pairwise_cons]
        refine ⟨fun b hb => ?_, h⟩
        rcases List.mem_cons.mp hb with rfl | hb'
        · exact hlt
        · exact lt_trans hlt (h.1 b hb')
      · rename_i hne hnlt
        rw [List.pairwise_cons]
        refine ⟨fun b hb => ?_, mapInsert_sorted k v rest h.2⟩
        rcases mem_mapInsert k v rest b hb with rfl | hb'
        · exact lt_of_le_of_ne (not_lt.mp hnlt) (Ne.symm hne)
        · exact h.1 b hb'

/-- The map built from a list of members is sorted by key, every key once. -/
theorem mkMap_sorted (members : List (String × GoValue)) :
    (GoValue.mkMap members).Pairwise (fun a b => a.1 < b.1) := by
  have hfold : ∀ (ms acc : List (String × GoValue)),
      acc.Pairwise (fun a b => a.1 < b.1) →
      (ms.foldl (fun acc m => GoValue.mapInsert m.1 m.2 acc) acc).Pairwise
        (fun a b => a.1 < b.1) := by
    intro ms
    induction ms with
    | nil => intro acc h; exact h
    | cons m ms ih =>
      intro acc h
      rw [List.foldl_cons]
      exact ih _ (mapInsert_sorted m.1 m.2 acc h)
  exact hfold members [] List.Pairwise.nil

/-- An entry with a key beyond all keys of a map goes to its end. -/
theorem mapInsert_last (k : String) (v : GoValue) :
    ∀ (l : List (String × GoValue)), (∀ a ∈ l, a.1 < k) →
      GoValue.mapInsert k v l = l ++ [(k, v)]
  | [], _ => rfl
  | (k', v') :: rest, h => by
    have hlt : k' < k := h (k', v') (List.mem_cons_self _ _)
    simp only [GoValue.mapInsert, if_neg (ne_of_gt hlt), if_neg (lt_asymm hlt),
      List.cons_append]
    rw [mapInsert_last k v rest (fun a ha => h a (List.mem_cons_of_mem _ ha))]

/-- Entries that are sorted by key, every key once, are the map built from
them. -/
theorem mkMap_of_sorted (entries : List (String × GoValue))
    (h : entries.Pairwise (fun a b => a.1 < b.1)) : GoValue.mkMap entries = entries := by
  have hfold : ∀ (es acc : List (String × GoValue)),
      (acc ++ es).Pairwise (fun a b => a.1 < b.1) →
      es.foldl (fun acc m => GoValue.mapInsert m.1 m.2 acc) acc = acc ++ es := by
    intro es
    induction es with
    | nil => intro acc _; simp
    | cons e es ih =>
      intro acc hp
      rw [List.foldl_cons]
      have hlast : GoValue.mapInsert e.1 e.2 acc = acc ++ [e] := by
        apply mapInsert_last
        intro a ha
        rw [List.pairwise_append] at hp
        exact hp.2.2 a ha e (List.mem_cons_self _ _)
      rw [hlast, ih (acc ++ [e]) (by simpa using hp)]
      simp
  simpa using hfold entries [] (by simpa using h)

/-- Entries whose values read back as themselves decode, after encoding, to
the same entries. -/
theorem objectInterface_marshalEntries :
    ∀ (entries : List (String × GoValue)), (∀ e ∈ entries, e.2.RoundTrips) →
      JSON.objectInterface (GoValue.marshalEntries entries) = (entries, none)
  | [], _ => rfl
  | (k, x) :: rest, h => by
    have hx : JSON.valueInterface x.Marshal = (x, none) := h (k, x) (List.mem_cons_self _ _)
    have hrest := objectInterface_marshalEntries rest
      (fun e he => h e (List.mem_cons_of_mem _ he))
    simp only [GoValue.marshalEntries, JSON.objectInterface, hx, hrest]
    rfl

/-- Elements that read back as themselves decode, after encoding, to the same
elements. -/
theorem arrayInterface_marshalElems :
    ∀ (elems : List GoValue), (∀ x ∈ elems, x.RoundTrips) →
      JSON.arrayInterface (GoValue.marshalElems elems) = (elems, none)
  | [], _ => rfl
  | x :: rest, h => by
    have hx : JSON.valueInterface x.Marshal = (x, none) := h x (List.mem_cons_self _ _)
    have hrest := arrayInterface_marshalElems rest
      (fun e he => h e (List.mem_cons_of_mem _ he))
    simp only [GoValue.marshalElems, JSON.arrayInterface, hx, hrest]
    rfl

mutual
/-- What a JSON value converts to without error reads back as itself. -/
theorem valueInterface_roundTrips : ∀ (x : JSON), (JSON.valueInterface x).2 = none →
    (JSON.valueInterface x).1.RoundTrips
  | .null, _ => rfl
  | .bool _, _ => rfl
  | .string _, _ => rfl
  | .number n, h => by
    simp only [JSON.valueInterface] at h ⊢
    cases hc : convertNumber n with
    | error err => rw [hc] at h; exact Option.noConfusion h
    | ok v =>
      show JSON.valueInterface (GoValue.float64 v).Marshal = (GoValue.float64 v, none)
      simp only [GoValue.Marshal, JSON.valueInterface, convertNumber_idem n v hc]
  | .array elems, h => by
    simp only [JSON.valueInterface] at h ⊢
    show JSON.valueInterface (GoValue.slice (JSON.arrayInterface elems).1).Marshal = _
    simp only [GoValue.Marshal, JSON.valueInterface,
      arrayInterface_marshalElems _ (arrayInterface_roundTrips elems h)]
  | .object members, h => by
    simp only [JSON.valueInterface] at h ⊢
    show JSON.valueInterface
      (GoValue.map (GoValue.mkMap (JSON.objectInterface members).1)).Marshal = _
    have hentries : ∀ e ∈ GoValue.mkMap (JSON.objectInterface members).1, e.2.RoundTrips :=
      fun e he => objectInterface_roundTrips members h e (mem_mkMap _ e he)
    simp only [GoValue.Marshal, JSON.valueInterface,
      objectInterface_marshalEntries _ hentries, mkMap_of_sorted _ (mkMap_sorted _)]
/-- What the elements of an array convert to without error read back as
themselves. -/
theorem arrayInterface_roundTrips : ∀ (xs : List JSON), (JSON.arrayInterface xs).2 = none →
    ∀ g ∈ (JSON.arrayInterface xs).1, g.RoundTrips
  | [], _ => fun g hg => absurd hg (List.not_mem_nil g)
  | x :: xs, h => by
    simp only [JSON.arrayInterface, saveError_eq_none] at h
    intro g hg
    simp only [JSON.arrayInterface, List.mem_cons] at hg
    rcases hg with rfl | hg
    · exact valueInterface_roundTrips x h.1
    · exact arrayInterface_roundTrips xs h.2 g hg
/-- What the members of an object convert to without error read back as
themselves. -/
theorem objectInterface_roundTrips : ∀ (ms : List (String × JSON)),
    (JSON.objectInterface ms).2 = none → ∀ e ∈ (JSON.objectInterface ms).1, e.2.RoundTrips
  | [], _ => fun e he => absurd he (List.not_mem_nil e)
  | (k, x) :: ms, h => by
    simp only [JSON.objectInterface, saveError_eq_none] at h
    intro e he
    simp only [JSON.objectInterface, List.mem_cons] at he
    rcases he with rfl | he
    · exact valueInterface_roundTrips x h.1
    · exact objectInterface_roundTrips ms h.2 e he
end

/-- What is stored in an `interface{}` field without error reads back as
itself. -/
theorem storeInterface_roundTrips (old : GoValue) (x : JSON)
    (h : (JSON.storeInterface old x).2 = none) : (JSON.storeInterface old x).1.RoundTrips := by
  cases x with
  | number n =>
    simp only [JSON.storeInterface] at h ⊢
    cases hc : convertNumber n with
    | error err => rw [hc] at h; exact Option.noConfusion h
    | ok v =>
      show JSON.valueInterface (GoValue.float64 v).Marshal = (GoValue.float64 v, none)
      simp only [GoValue.Marshal, JSON.valueInterface, convertNumber_idem n v hc]
  | null => exact valueInterface_roundTrips .null h
  | bool b => exact valueInterface_roundTrips (.bool b) h
  | string str => exact valueInterface_roundTrips (.string str) h
  | array elems => exact valueInterface_roundTrips (.array elems) h
  | object members => exact valueInterface_roundTrips (.object members) h

/-- Storing the encoding of a value that reads back as itself gives that
value. -/
theorem storeInterface_marshal (old g : GoValue) (h : g.RoundTrips) :
    JSON.storeInterface old g.Marshal = (g, none) := by
  cases g with
  | float64 v =>
    have h' : JSON.valueInterface (.number v) = (GoValue.float64 v, none) := h
    simp only [JSON.valueInterface] at h'
    simp only [GoValue.Marshal, JSON.storeInterface]
    cases hc : convertNumber v with
    | error err => rw [hc] at h'; exact absurd (congrArg Prod.snd h') (by simp)
    | ok w => rw [hc] at h'; exact h'
  | nil => exact h
  | bool b => exact h
  | string str => exact h
  | slice elems => exact h
  | map entries => exact h

/-- A member decoded without error leaves no error behind and keeps a value
that reads back as itself. -/
theorem decodeMember_roundTrips (acc : NoteAttribute × Option UnmarshalTypeError)
    (m : String × JSON) (h : (NoteAttribute.decodeMember acc m).2 = none) :
    acc.2 = none ∧
      (acc.1.Value.RoundTrips → (NoteAttribute.decodeMember acc m).1.Value.RoundTrips) := by
  unfold NoteAttribute.decodeMember at h ⊢
  by_cases h1 : fieldMatches "name" m.1 = true
  · rw [if_pos h1] at h ⊢
    cases hm : m.2 with
    | string str => rw [hm] at h; exact ⟨h, fun hv => hv⟩
    | null => rw [hm] at h; exact ⟨h, fun hv => hv⟩
    | bool b => rw [hm] at h; exact absurd ((saveError_eq_none _ _).mp h).2 (by simp)
    | number n => rw [hm] at h; exact absurd ((saveError_eq_none _ _).mp h).2 (by simp)
    | array elems => rw [hm] at h; exact absurd ((saveError_eq_none _ _).mp h).2 (by simp)
    | object ms => rw [hm] at h; exact absurd ((saveError_eq_none _ _).mp h).2 (by simp)
  · rw [if_neg h1] at h ⊢
    by_cases h2 : fieldMatches "value" m.1 = true
    · rw [if_pos h2] at h ⊢
      have h' := (saveError_eq_none _ _).mp h
      exact ⟨h'.1, fun _ => storeInterface_roundTrips _ _ h'.2⟩
    · rw [if_neg h2] at h ⊢
      exact ⟨h, fun hv => hv⟩

/-- What a JSON value decodes to as a `NoteAttribute`, without error, has a
value that reads back as itself. -/
theorem decodeInto_roundTrips (x : JSON)
    (h : (NoteAttribute.decodeInto ⟨"", .nil⟩ x).2 = none) :
    (NoteAttribute.decodeInto ⟨"", .nil⟩ x).1.Value.RoundTrips := by
  have hnil : GoValue.nil.RoundTrips := rfl
  have hfold : ∀ (ms : List (String × JSON)) (acc : NoteAttribute × Option UnmarshalTypeError),
      (ms.foldl NoteAttribute.decodeMember acc).2 = none →
      acc.2 = none ∧ (acc.1.Value.RoundTrips →
        (ms.foldl NoteAttribute.decodeMember acc).1.Value.RoundTrips) := by
    intro ms
    induction ms with
    | nil => intro acc h; exact ⟨h, fun hv => hv⟩
    | cons m ms ih =>
      intro acc h
      rw [List.foldl_cons] at h ⊢
      obtain ⟨h1, h2⟩ := ih _ h
      obtain ⟨h3, h4⟩ := decodeMember_roundTrips acc m h1
      exact ⟨h3, fun hv => h2 (h4 hv)⟩
  cases x with
  | object members => exact (hfold members _ h).2 hnil
  | null => exact hnil
  | bool b => exact hnil
  | number n => exact hnil
  | string str => exact hnil
  | array elems => exact hnil

/-- A `NoteAttribute` whose value reads back as itself decodes, after
encoding, to itself. -/
theorem decodeInto_marshal (p : NoteAttribute) (h : p.Value.RoundTrips) :
    NoteAttribute.decodeInto ⟨"", .nil⟩ p.Marshal = (p, none) := by
  obtain ⟨name, value⟩ := p
  have hstore := storeInterface_marshal GoValue.nil value h
  have hn1 : fieldMatches "name" "name" = true := by decide
  have hn2 : fieldMatches "name" "value" = false := by decide
  have hv2 : fieldMatches "value" "value" = true := by decide
  by_cases hname : name = ""
  · by_cases hvalue : value.isNil = true
    · have hv : value = .nil := by
        cases value <;> first | rfl | exact absurd hvalue (by simp [GoValue.isNil])
      subst hname
      subst hv
      rfl
    · subst hname
      simp only [NoteAttribute.Marshal, if_neg hvalue, NoteAttribute.decodeInto,
        List.nil_append, List.foldl_cons, List.foldl_nil, NoteAttribute.decodeMember, hn2,
        hv2, hstore, if_true, saveError]
      simp
  · by_cases hvalue : value.isNil = true
    · have hv : value = .nil := by
        cases value <;> first | rfl | exact absurd hvalue (by simp [GoValue.isNil])
      subst hv
      simp only [NoteAttribute.Marshal, if_neg hname, if_pos hvalue, NoteAttribute.decodeInto,
        List.append_nil, List.foldl_cons, List.foldl_nil]
      rfl
    · simp only [NoteAttribute.Marshal, if_neg hname, if_neg hvalue, NoteAttribute.decodeInto,
        List.singleton_append, List.foldl_cons, List.foldl_nil, NoteAttribute.decodeMember,
        hn1, hn2, hv2, hstore, if_true, saveError]
      simp

/-- Properties whose values read back as themselves decode, after encoding,
to themselves. -/
theorem decodeElems_marshal : ∀ (ps : List NoteAttribute),
    (∀ p ∈ ps, p.Value.RoundTrips) →
    NoteAttribute.decodeElems (ps.map NoteAttribute.Marshal) = (ps, none)
  | [], _ => rfl
  | p :: ps, h => by
    simp only [List.map_cons, NoteAttribute.decodeElems,
      decodeInto_marshal p (h p (List.mem_cons_self _ _)),
      decodeElems_marshal ps (fun q hq => h q (List.mem_cons_of_mem _ hq))]
    rfl

/-- The properties decoded from an array without error have values that read
back as themselves. -/
theorem decodeElems_roundTrips : ∀ (elems : List JSON),
    (NoteAttribute.decodeElems elems).2 = none →
    ∀ p ∈ (NoteAttribute.decodeElems elems).1, p.Value.RoundTrips
  | [], _ => fun p hp => absurd hp (List.not_mem_nil p)
  | x :: xs, h => by
    simp only [NoteAttribute.decodeElems, saveError_eq_none] at h
    intro p hp
    simp only [NoteAttribute.decodeElems, List.mem_cons] at hp
    rcases hp with rfl | hp
    · exact decodeInto_roundTrips x h.1
    · exact decodeElems_roundTrips xs h.2 p hp

/-- The properties that a decoding from a `properties` value on the wire gives
have values that read back as themselves. -/
theorem LineItem_decoded_properties_roundTrip {R E : Type}
    (std : List (String × JSON) → R → Except E R) (li0 li1 : LineItem R)
    (data : List (String × JSON)) (raw : JSON)
    (hraw : (fieldValues "properties" data).getLast? = some raw)
    (hfirst : LineItem.UnmarshalJSON std li0 data = .ok li1) :
    ∀ p ∈ li1.Properties, p.Value.RoundTrips := by
  unfold LineItem.UnmarshalJSON LineItem.unmarshalAux at hfirst
  rw [hraw] at hfirst
  cases hstd : std (otherMembers "properties" data) li0.rest with
  | error e => rw [hstd] at hfirst; exact Except.noConfusion hfirst
  | ok r =>
    rw [hstd] at hfirst
    by_cases hb : raw.firstByte = '['
    · simp only [if_pos hb] at hfirst
      cases raw with
      | array elems =>
        simp only [NoteAttribute.UnmarshalSlice] at hfirst
        cases hd : NoteAttribute.decodeElems elems with
        | mk ps e =>
          rw [hd] at hfirst
          cases e with
          | some err => exact Except.noConfusion hfirst
          | none =>
            have hli := Except.ok.inj hfirst
            rw [← hli]
            have := decodeElems_roundTrips elems (by rw [hd])
            rw [hd] at this
            exact this
      | null =>
        have hli := Except.ok.inj hfirst
        rw [← hli]
        exact fun p hp => absurd hp (List.not_mem_nil p)
      | bool b => exact Except.noConfusion hfirst
      | number n => exact Except.noConfusion hfirst
      | string str => exact Except.noConfusion hfirst
      | object members => exact Except.noConfusion hfirst
    · simp only [if_neg hb, NoteAttribute.Unmarshal] at hfirst
      cases hd : NoteAttribute.decodeInto ⟨"", .nil⟩ raw with
      | mk p e =>
        rw [hd] at hfirst
        cases e with
        | some err => exact Except.noConfusion hfirst
        | none =>
          have hp : p.Value.RoundTrips := by
            have := decodeInto_roundTrips raw (by rw [hd])
            rw [hd] at this
            exact this
          simp only at hfirst
          split at hfirst
          · have hli := Except.ok.inj hfirst
            rw [← hli]
            exact fun q hq => absurd hq (List.not_mem_nil q)
          · have hli := Except.ok.inj hfirst
            rw [← hli]
            intro q hq
            rw [List.mem_singleton.mp hq]
            exact hp

/-- The method on a re-encoding: when the method `LineItem.UnmarshalJSON` has
decoded a record whose `properties` is on the wire, the method gives the same
properties again on the re-encoding of the decoded line item, into a fresh
`LineItem`. The members written for the other fields are assumed not to use the
name `properties` and to decode. -/
theorem LineItem_reencoding_is_idempotent {R E : Type}
    (std : List (String × JSON) → R → Except E R) (before after : R → List (String × JSON))
    (li0 li1 : LineItem R) (data : List (String × JSON)) (raw : JSON) (r0 r2 : R)
    (hraw : (fieldValues "properties" data).getLast? = some raw)
    (hfirst : LineItem.UnmarshalJSON std li0 data = .ok li1)
    (hbefore : ∀ m ∈ before li1.rest, fieldMatches "properties" m.1 = false)
    (hafter : ∀ m ∈ after li1.rest, fieldMatches "properties" m.1 = false)
    (hstd : std (otherMembers "properties" (LineItem.Marshal before after li1)) r0 = .ok r2) :
    LineItem.UnmarshalJSON std ⟨[], r0⟩ (LineItem.Marshal before after li1) =
      .ok ⟨li1.Properties, r2⟩ := by
  have hvals := LineItem_decoded_properties_roundTrip std li0 li1 data raw hraw hfirst
  have hvalues : fieldValues "properties" (LineItem.Marshal before after li1) =
      if li1.Properties.isEmpty = true then []
      else [JSON.array (li1.Properties.map NoteAttribute.Marshal)] := by
    unfold LineItem.Marshal
    rw [fieldValues_append, fieldValues_append, fieldValues_eq_nil _ _ hbefore,
      fieldValues_eq_nil _ _ hafter]
    by_cases h : li1.Properties.isEmpty = true
    · simp [h, fieldValues]
    · simp only [if_neg h, List.nil_append, List.append_nil]
      rfl
  unfold LineItem.UnmarshalJSON LineItem.unmarshalAux
  simp only [hstd, hvalues]
  by_cases h : li1.Properties.isEmpty = true
  · rw [if_pos h]
    have hnil : li1.Properties = [] := List.isEmpty_iff.mp h
    rw [hnil]
    rfl
  · rw [if_neg h]
    have hbyte : (JSON.array (li1.Properties.map NoteAttribute.Marshal)).firstByte = '[' := rfl
    simp only [List.getLast?_singleton, if_pos hbyte, NoteAttribute.UnmarshalSlice,
      decodeElems_marshal li1.Properties hvals]

/-! ## Paths -/

/-- The collection path of the articles of a blog. -/
theorem listPath_eq (blogId : Nat) :
    ArticlesServiceOp.listPath blogId = "blogs/" ++ toString blogId ++ "/articles.json" := by
  simp [ArticlesServiceOp.listPath, blogsBasePath, articlesBasePath, String.append_assoc]

/-- The path of one article of a blog. -/
theorem itemPath_eq (blogId articleId : Nat) :
    ArticlesServiceOp.itemPath blogId articleId =
      "blogs/" ++ toString blogId ++ "/articles/" ++ toString articleId ++ ".json" := by
  simp [ArticlesServiceOp.itemPath, blogsBasePath, articlesBasePath, String.append_assoc]

/-- The count path of the articles of a blog. -/
theorem countPath_eq (blogId : Nat) :
    ArticlesServiceOp.countPath blogId =
      "blogs/" ++ toString blogId ++ "/articles/count.json" := by
  simp [ArticlesServiceOp.countPath, blogsBasePath, articlesBasePath, String.append_assoc]

/-- The tags path of the articles of a blog. -/
theorem blogTagsPath_eq (blogId : Nat) :
    ArticlesServiceOp.blogTagsPath blogId =
      "blogs/" ++ toString blogId ++ "/articles/tags.json" := by
  simp [ArticlesServiceOp.blogTagsPath, blogsBasePath, articlesBasePath, String.append_assoc]

/-- The tags path of all articles. -/
theorem tagsPath_eq : ArticlesServiceOp.tagsPath = "articles/tags.json" := by
  decide

/-- The path of one order. -/
theorem orderPath_eq (orderId : Nat) :
    ordersBasePath ++ "/" ++ toString orderId ++ ".json" =
      "orders/" ++ toString orderId ++ ".json" := by
  simp [ordersBasePath, String.append_assoc]

/-- The path of one variant. -/
theorem variantPath_eq (variantId : Nat) :
    variantsBasePath ++ "/" ++ toString variantId ++ ".json" =
      "variants/" ++ toString variantId ++ ".json" := by
  simp [variantsBasePath, String.append_assoc]

/-! ## `OrderServiceOp.List` -/

/-- C24: `OrderServiceOp.List` never returns items together with an error. If
the page fetch of the client fails, `ListWithPagination` returns the error
alone (no items, no cursor) and `List` returns no items together with that
error; if `ListWithPagination` succeeds, `List` returns exactly its items with a
nil error and drops the cursor; and whenever `List` returns an error, its items
are empty. -/
theorem List_returns_no_items_with_an_error {σ ι L O E : Type} (c : Client σ ι L O E)
    (s : σ) (options : QueryOptions ι L) :
    (∀ (s' : σ) (err : E), c.ListWithPagination s "orders.json" options = (s', .error err) →
      OrderServiceOp.ListWithPagination c s options = (s', .error err) ∧
      OrderServiceOp.List c s options = (s', [], some err)) ∧
    (∀ (s' : σ) (orders : List O) (pagination : Pagination L),
      OrderServiceOp.ListWithPagination c s options = (s', .ok (orders, pagination)) →
      OrderServiceOp.List c s options = (s', orders, none)) ∧
    (∀ (s' : σ) (orders : List O) (err : E),
      OrderServiceOp.List c s options = (s', orders, some err) → orders = []) := by
  have hpath : ordersBasePath ++ ".json" = "orders.json" := by decide
  refine ⟨?_, ?_, ?_⟩
  · intro s' err h
    have h1 : OrderServiceOp.ListWithPagination c s options = (s', .error err) := by
      simp only [OrderServiceOp.ListWithPagination, hpath, h]
    refine ⟨h1, ?_⟩
    simp only [OrderServiceOp.List, h1]
  · intro s' orders pagination h
    simp only [OrderServiceOp.List, h]
  · intro s' orders err h
    unfold OrderServiceOp.List at h
    rcases hres : OrderServiceOp.ListWithPagination c s options with ⟨s1, e | ⟨items, pg⟩⟩
    · rw [hres] at h
      simp only [Prod.mk.injEq] at h
      exact h.2.1.symm
    · rw [hres] at h
      simp only [Prod.mk.injEq] at h
      exact absurd h.2.2 (by simp)

/-- C24 on the two-page listing: a refused cursor gives no items and the error,
and the first page gives its two items, a nil error and no cursor. -/
theorem List_returns_no_items_with_an_error_witness :
    (OrderServiceOp.ListWithPagination twoPageClient 0 (.listOptions 5) =
        (1, .error "404 Not Found") ∧
      OrderServiceOp.List twoPageClient 0 (.listOptions 5) = (1, [], some "404 Not Found")) ∧
    OrderServiceOp.List twoPageClient 0 (.any "limit=2") = (1, [1, 2], none) :=
  ⟨(List_returns_no_items_with_an_error twoPageClient 0 (.listOptions 5)).1 1
      "404 Not Found" rfl,
    (List_returns_no_items_with_an_error twoPageClient 0 (.any "limit=2")).2.1 1 [1, 2]
      ⟨some 2, none⟩ rfl⟩

/-! ## The sub-services -/

/-- C23: every metafield and fulfillment method of `OrderServiceOp` is the
method of the same name of the sub-service value with resource name `"orders"`
and resource id `orderId`, at the same client state and with the other
arguments unchanged; and every metafield method of `VariantServiceOp` is the one
of the sub-service value with `"variants"` and `variantId`. -/
theorem sub_services_are_built_from_name_and_id {σ ι M F E : Type}
    (m : MetafieldMethods σ ι M E) (f : FulfillmentMethods σ ι F E) (s : σ)
    (orderId variantId metafieldId fulfillmentId : Nat) (options : Option ι)
    (metafield : M) (fulfillment : F) :
    (OrderServiceOp.ListMetafields m s orderId options = m.List ⟨"orders", orderId⟩ s options ∧
      OrderServiceOp.CountMetafields m s orderId options =
        m.Count ⟨"orders", orderId⟩ s options ∧
      OrderServiceOp.GetMetafield m s orderId metafieldId options =
        m.Get ⟨"orders", orderId⟩ s metafieldId options ∧
      OrderServiceOp.CreateMetafield m s orderId metafield =
        m.Create ⟨"orders", orderId⟩ s metafield ∧
      OrderServiceOp.UpdateMetafield m s orderId metafield =
        m.Update ⟨"orders", orderId⟩ s metafield ∧
      OrderServiceOp.DeleteMetafield m s orderId metafieldId =
        m.Delete ⟨"orders", orderId⟩ s metafieldId) ∧
    (OrderServiceOp.ListFulfillments f s orderId options =
        f.List ⟨"orders", orderId⟩ s options ∧
      OrderServiceOp.CountFulfillments f s orderId options =
        f.Count ⟨"orders", orderId⟩ s options ∧
      OrderServiceOp.GetFulfillment f s orderId fulfillmentId options =
        f.Get ⟨"orders", orderId⟩ s fulfillmentId options ∧
      OrderServiceOp.CreateFulfillment f s orderId fulfillment =
        f.Create ⟨"orders", orderId⟩ s fulfillment ∧
      OrderServiceOp.UpdateFulfillment f s orderId fulfillment =
        f.Update ⟨"orders", orderId⟩ s fulfillment ∧
      OrderServiceOp.CompleteFulfillment f s orderId fulfillmentId =
        f.Complete ⟨"orders", orderId⟩ s fulfillmentId ∧
      OrderServiceOp.TransitionFulfillment f s orderId fulfillmentId =
        f.Transition ⟨"orders", orderId⟩ s fulfillmentId ∧
      OrderServiceOp.CancelFulfillment f s orderId fulfillmentId =
        f.Cancel ⟨"orders", orderId⟩ s fulfillmentId) ∧
    (VariantServiceOp.ListMetafields m s variantId options =
        m.List ⟨"variants", variantId⟩ s options ∧
      VariantServiceOp.CountMetafields m s variantId options =
        m.Count ⟨"variants", variantId⟩ s options ∧
      VariantServiceOp.GetMetafield m s variantId metafieldId options =
        m.Get ⟨"variants", variantId⟩ s metafieldId options ∧
      VariantServiceOp.CreateMetafield m s variantId metafield =
        m.Create ⟨"variants", variantId⟩ s metafield ∧
      VariantServiceOp.UpdateMetafield m s variantId metafield =
        m.Update ⟨"variants", variantId⟩ s metafield ∧
      VariantServiceOp.DeleteMetafield m s variantId metafieldId =
        m.Delete ⟨"variants", variantId⟩ s metafieldId) :=
  ⟨⟨rfl, rfl, rfl, rfl, rfl, rfl⟩, ⟨rfl, rfl, rfl, rfl, rfl, rfl, rfl, rfl⟩,
    ⟨rfl, rfl, rfl, rfl, rfl, rfl⟩⟩

/-! ## The paths the operations address -/

/-- C22: for every blog id and article id, `List` and `Create` call the client
at `blogs/<blogId>/articles.json`; `Get`, `Update` and `Delete` all call it at
the one path `blogs/<blogId>/articles/<articleId>.json`; `Count` calls it at
`blogs/<blogId>/articles/count.json`, `ListBlogTags` at
`blogs/<blogId>/articles/tags.json` and `ListTags` at `articles/tags.json`,
whatever the blog. The ids are written in decimal, as on the paths of the
tests. -/
theorem article_operations_address_documented_paths {σ ι A E : Type}
    (get : (ρ : Type) → ClientGet σ ι ρ E) (post : (β ρ : Type) → ClientPost σ β ρ E)
    (put : (β ρ : Type) → ClientPut σ β ρ E) (delete : ClientDelete σ E)
    (count : ClientCount σ ι E) (s : σ) (blogId articleId : Nat) (options : Option ι)
    (article : A) :
    ArticlesServiceOp.List (get (ArticlesResource A)) s blogId options =
      (let r := get (ArticlesResource A) s ("blogs/" ++ toString blogId ++ "/articles.json")
        ⟨[]⟩ options
       (r.1, r.2.1.Articles, r.2.2)) ∧
    ArticlesServiceOp.Create (post (ArticleResource A) (ArticleResource A)) s blogId article =
      (let r := post (ArticleResource A) (ArticleResource A) s
        ("blogs/" ++ toString blogId ++ "/articles.json") (some ⟨some article⟩) ⟨none⟩
       (r.1, r.2.1.Article, r.2.2)) ∧
    ArticlesServiceOp.Get (get (ArticleResource A)) s blogId articleId =
      (let r := get (ArticleResource A) s
        ("blogs/" ++ toString blogId ++ "/articles/" ++ toString articleId ++ ".json")
        ⟨none⟩ none
       (r.1, r.2.1.Article, r.2.2)) ∧
    ArticlesServiceOp.Update (put (ArticleResource A) (ArticleResource A)) s blogId articleId
        article =
      (let r := put (ArticleResource A) (ArticleResource A) s
        ("blogs/" ++ toString blogId ++ "/articles/" ++ toString articleId ++ ".json")
        (some ⟨some article⟩) ⟨none⟩
       (r.1, r.2.1.Article, r.2.2)) ∧
    ArticlesServiceOp.Delete delete s blogId articleId =
      delete s ("blogs/" ++ toString blogId ++ "/articles/" ++ toString articleId ++ ".json") ∧
    ArticlesServiceOp.Count count s blogId options =
      count s ("blogs/" ++ toString blogId ++ "/articles/count.json") options ∧
    ArticlesServiceOp.ListBlogTags (get (Option ArticleTagsResource)) s blogId options =
      ArticlesServiceOp.returnTags (get (Option ArticleTagsResource) s
        ("blogs/" ++ toString blogId ++ "/articles/tags.json") (some ⟨[]⟩) options) ∧
    ArticlesServiceOp.ListTags (get (Option ArticleTagsResource)) s options =
      ArticlesServiceOp.returnTags (get (Option ArticleTagsResource) s "articles/tags.json"
        (some ⟨[]⟩) options) ∧
    ArticlesServiceOp.listPath 241253187 = "blogs/241253187/articles.json" ∧
    ArticlesServiceOp.itemPath 241253187 1 = "blogs/241253187/articles/1.json" ∧
    ArticlesServiceOp.countPath 241253187 = "blogs/241253187/articles/count.json" ∧
    ArticlesServiceOp.blogTagsPath 241253187 = "blogs/241253187/articles/tags.json" := by
  have hlist : blogsBasePath ++ "/" ++ toString blogId ++ "/" ++ articlesBasePath ++ ".json" =
      "blogs/" ++ toString blogId ++ "/articles.json" := listPath_eq blogId
  have hitem : blogsBasePath ++ "/" ++ toString blogId ++ "/" ++ articlesBasePath ++ "/" ++
      toString articleId ++ ".json" =
      "blogs/" ++ toString blogId ++ "/articles/" ++ toString articleId ++ ".json" :=
    itemPath_eq blogId articleId
  refine ⟨?_, ?_, ?_, ?_, ?_, ?_, ?_, ?_, by decide, by decide, by decide, by decide⟩
  · simp only [ArticlesServiceOp.List, hlist]
  · simp only [ArticlesServiceOp.Create, listPath_eq]
  · simp only [ArticlesServiceOp.Get, hitem]
  · simp only [ArticlesServiceOp.Update, itemPath_eq]
  · simp only [ArticlesServiceOp.Delete, itemPath_eq]
  · simp only [ArticlesServiceOp.Count, countPath_eq]
  · simp only [ArticlesServiceOp.ListBlogTags, blogTagsPath_eq]
  · simp only [ArticlesServiceOp.ListTags, tagsPath_eq]

/-- C30: `OrderServiceOp.Update` calls the client at `orders/<order.Id>.json`,
the path at which `Get` and `Delete` call it for the id `order.Id`, so a payload
with the zero id is sent to `orders/0.json`; `VariantServiceOp.Update` calls it
at `variants/<variant.Id>.json`, the path of `Get` for the id `variant.Id`. The
two `Create` operations call it at `orders.json` and at
`<productsBasePath>/<productId>/variants.json`, whatever the payload. -/
theorem Update_addresses_the_id_of_the_payload {σ ι R W E : Type}
    (get : (ρ : Type) → ClientGet σ ι ρ E) (post : (β ρ : Type) → ClientPost σ β ρ E)
    (put : (β ρ : Type) → ClientPut σ β ρ E) (delete : ClientDelete σ E)
    (productsBasePath : String) (s : σ) (order : Order R) (variant : Variant W)
    (productId : Nat) (options : Option ι) (rest : R) :
    OrderServiceOp.Update (put _ _) s order =
      (let r := put (OrderResource (Order R)) (OrderResource (Order R)) s
        ("orders/" ++ toString order.Id ++ ".json") (some ⟨some order⟩) ⟨none⟩
       (r.1, r.2.1.Order, r.2.2)) ∧
    OrderServiceOp.Get (get (OrderResource (Order R))) s order.Id options =
      (let r := get (OrderResource (Order R)) s ("orders/" ++ toString order.Id ++ ".json")
        ⟨none⟩ options
       (r.1, r.2.1.Order, r.2.2)) ∧
    OrderServiceOp.Delete delete s order.Id =
      delete s ("orders/" ++ toString order.Id ++ ".json") ∧
    OrderServiceOp.Update (put _ _) s ⟨0, rest⟩ =
      (let r := put (OrderResource (Order R)) (OrderResource (Order R)) s "orders/0.json"
        (some ⟨some ⟨0, rest⟩⟩) ⟨none⟩
       (r.1, r.2.1.Order, r.2.2)) ∧
    VariantServiceOp.Update (put _ _) s variant =
      (let r := put (VariantResource (Variant W)) (VariantResource (Variant W)) s
        ("variants/" ++ toString variant.Id ++ ".json") (some ⟨some variant⟩) ⟨none⟩
       (r.1, r.2.1.Variant, r.2.2)) ∧
    VariantServiceOp.Get (get (VariantResource (Variant W))) s variant.Id options =
      (let r := get (VariantResource (Variant W)) s
        ("variants/" ++ toString variant.Id ++ ".json") ⟨none⟩ options
       (r.1, r.2.1.Variant, r.2.2)) ∧
    OrderServiceOp.Create (post _ _) s order =
      (let r := post (OrderResource (Order R)) (OrderResource (Order R)) s "orders.json"
        (some ⟨some order⟩) ⟨none⟩
       (r.1, r.2.1.Order, r.2.2)) ∧
    VariantServiceOp.Create productsBasePath (post _ _) s productId variant =
      (let r := post (VariantResource (Variant W)) (VariantResource (Variant W)) s
        (productsBasePath ++ "/" ++ toString productId ++ "/variants.json")
        (some ⟨some variant⟩) ⟨none⟩
       (r.1, r.2.1.Variant, r.2.2)) := by
  have hcreate : ordersBasePath ++ ".json" = "orders.json" := by decide
  have hzero : ordersBasePath ++ "/" ++ toString (0 : Nat) ++ ".json" = "orders/0.json" := by
    decide
  refine ⟨?_, ?_, ?_, ?_, ?_, ?_, ?_, ?_⟩
  · simp only [OrderServiceOp.Update, orderPath_eq]
  · simp only [OrderServiceOp.Get, orderPath_eq]
  · simp only [OrderServiceOp.Delete, orderPath_eq]
  · simp only [OrderServiceOp.Update, hzero]
  · simp only [VariantServiceOp.Update, variantPath_eq]
  · simp only [VariantServiceOp.Get, variantPath_eq]
  · simp only [OrderServiceOp.Create, hcreate]
  · simp only [VariantServiceOp.Create]

/-! ## Errors of the client call -/

/-- C21 as the code has it: every operation of the article, order and variant
services that makes one client call, other than `ListTags` and `ListBlogTags`,
returns the error of that call as its own error, whatever it is: the error
component of the operation equals the error component of the client call, so
it is nil exactly when the call returns nil. In particular
`ArticlesServiceOp.Delete` returns an error if and only if the client's
`Delete` does, and `OrderServiceOp.List` returns the error of the page fetch.
`ListTags` and `ListBlogTags` return the error of a call that leaves their
resource pointer in place. -/
theorem client_error_is_returned {σ ι L A O R W E : Type}
    (get : (ρ : Type) → ClientGet σ ι ρ E) (post : (β ρ : Type) → ClientPost σ β ρ E)
    (put : (β ρ : Type) → ClientPut σ β ρ E) (delete : ClientDelete σ E)
    (count : ClientCount σ ι E) (c : Client σ ι L O E) (productsBasePath : String)
    (s : σ) (blogId articleId orderId productId variantId : Nat) (options : Option ι)
    (pageOptions : QueryOptions ι L) (article : A) (order : Order R) (variant : Variant W) :
    ((ArticlesServiceOp.List (get (ArticlesResource A)) s blogId options).2.2 =
        (get (ArticlesResource A) s ("blogs/" ++ toString blogId ++ "/articles.json") ⟨[]⟩
          options).2.2 ∧
      (ArticlesServiceOp.Create (post _ _) s blogId article).2.2 =
        (post (ArticleResource A) (ArticleResource A) s
          ("blogs/" ++ toString blogId ++ "/articles.json") (some ⟨some article⟩) ⟨none⟩).2.2 ∧
      (ArticlesServiceOp.Get (get (ArticleResource A)) s blogId articleId).2.2 =
        (get (ArticleResource A) s
          ("blogs/" ++ toString blogId ++ "/articles/" ++ toString articleId ++ ".json")
          ⟨none⟩ none).2.2 ∧
      (ArticlesServiceOp.Update (put _ _) s blogId articleId article).2.2 =
        (put (ArticleResource A) (ArticleResource A) s
          ("blogs/" ++ toString blogId ++ "/articles/" ++ toString articleId ++ ".json")
          (some ⟨some article⟩) ⟨none⟩).2.2 ∧
      (ArticlesServiceOp.Delete delete s blogId articleId).2 =
        (delete s ("blogs/" ++ toString blogId ++ "/articles/" ++ toString articleId ++
          ".json")).2 ∧
      ((∃ e, (ArticlesServiceOp.Delete delete s blogId articleId).2 = some e) ↔
        ∃ e, (delete s ("blogs/" ++ toString blogId ++ "/articles/" ++ toString articleId ++
          ".json")).2 = some e) ∧
      (ArticlesServiceOp.Count count s blogId options).2.2 =
        (count s ("blogs/" ++ toString blogId ++ "/articles/count.json") options).2.2 ∧
      (∀ (s' : σ) (tags : ArticleTagsResource) (err : Option E),
        get (Option ArticleTagsResource) s "articles/tags.json" (some ⟨[]⟩) options =
          (s', some tags, err) →
        ArticlesServiceOp.ListTags (get _) s options = some (s', tags.Tags, err)) ∧
      (∀ (s' : σ) (tags : ArticleTagsResource) (err : Option E),
        get (Option ArticleTagsResource) s
          ("blogs/" ++ toString blogId ++ "/articles/tags.json") (some ⟨[]⟩) options =
          (s', some tags, err) →
        ArticlesServiceOp.ListBlogTags (get _) s blogId options = some (s', tags.Tags, err))) ∧
    ((∀ (s' : σ) (err : E),
        c.ListWithPagination s "orders.json" pageOptions = (s', .error err) →
        (OrderServiceOp.List c s pageOptions).2.2 = some err) ∧
      (OrderServiceOp.Count count s options).2.2 =
        (count s "orders/count.json" options).2.2 ∧
      (OrderServiceOp.Get (get (OrderResource (Order R))) s orderId options).2.2 =
        (get (OrderResource (Order R)) s ("orders/" ++ toString orderId ++ ".json") ⟨none⟩
          options).2.2 ∧
      (OrderServiceOp.Create (post _ _) s order).2.2 =
        (post (OrderResource (Order R)) (OrderResource (Order R)) s "orders.json"
          (some ⟨some order⟩) ⟨none⟩).2.2 ∧
      (OrderServiceOp.Update (put _ _) s order).2.2 =
        (put (OrderResource (Order R)) (OrderResource (Order R)) s
          ("orders/" ++ toString order.Id ++ ".json") (some ⟨some order⟩) ⟨none⟩).2.2 ∧
      (OrderServiceOp.Cancel (post ι (OrderResource (Order R))) s orderId options).2.2 =
        (post ι (OrderResource (Order R)) s ("orders/" ++ toString orderId ++ "/cancel.json")
          options ⟨none⟩).2.2 ∧
      (OrderServiceOp.Close (post Unit (OrderResource (Order R))) s orderId).2.2 =
        (post Unit (OrderResource (Order R)) s
          ("orders/" ++ toString orderId ++ "/close.json") none ⟨none⟩).2.2 ∧
      (OrderServiceOp.Open (post Unit (OrderResource (Order R))) s orderId).2.2 =
        (post Unit (OrderResource (Order R)) s
          ("orders/" ++ toString orderId ++ "/open.json") none ⟨none⟩).2.2 ∧
      (OrderServiceOp.Delete delete s orderId).2 =
        (delete s ("orders/" ++ toString orderId ++ ".json")).2) ∧
    ((VariantServiceOp.List productsBasePath (get (VariantsResource (Variant W))) s productId
          options).2.2 =
        (get (VariantsResource (Variant W)) s
          (productsBasePath ++ "/" ++ toString productId ++ "/variants.json") ⟨[]⟩
          options).2.2 ∧
      (VariantServiceOp.Count productsBasePath count s productId options).2.2 =
        (count s (productsBasePath ++ "/" ++ toString productId ++ "/variants/count.json")
          options).2.2 ∧
      (VariantServiceOp.Get (get (VariantResource (Variant W))) s variantId options).2.2 =
        (get (VariantResource (Variant W)) s ("variants/" ++ toString variantId ++ ".json")
          ⟨none⟩ options).2.2 ∧
      (VariantServiceOp.Create productsBasePath (post _ _) s productId variant).2.2 =
        (post (VariantResource (Variant W)) (VariantResource (Variant W)) s
          (productsBasePath ++ "/" ++ toString productId ++ "/variants.json")
          (some ⟨some variant⟩) ⟨none⟩).2.2 ∧
      (VariantServiceOp.Update (put _ _) s variant).2.2 =
        (put (VariantResource (Variant W)) (VariantResource (Variant W)) s
          ("variants/" ++ toString variant.Id ++ ".json") (some ⟨some variant⟩) ⟨none⟩).2.2 ∧
      (VariantServiceOp.Delete productsBasePath delete s productId variantId).2 =
        (delete s (productsBasePath ++ "/" ++ toString productId ++ "/variants/" ++
          toString variantId ++ ".json")).2) := by
  have hlist : blogsBasePath ++ "/" ++ toString blogId ++ "/" ++ articlesBasePath ++ ".json" =
      "blogs/" ++ toString blogId ++ "/articles.json" := listPath_eq blogId
  have hitem : blogsBasePath ++ "/" ++ toString blogId ++ "/" ++ articlesBasePath ++ "/" ++
      toString articleId ++ ".json" =
      "blogs/" ++ toString blogId ++ "/articles/" ++ toString articleId ++ ".json" :=
    itemPath_eq blogId articleId
  have hdelete : ArticlesServiceOp.Delete delete s blogId articleId =
      delete s ("blogs/" ++ toString blogId ++ "/articles/" ++ toString articleId ++
        ".json") := by
    simp only [ArticlesServiceOp.Delete, itemPath_eq]
  have hpage : ordersBasePath ++ ".json" = "orders.json" := by decide
  have hcount : ordersBasePath ++ "/count.json" = "orders/count.json" := by decide
  have hcancel : ordersBasePath ++ "/" ++ toString orderId ++ "/cancel.json" =
      "orders/" ++ toString orderId ++ "/cancel.json" := by
    simp [ordersBasePath, String.append_assoc]
  have hclose : ordersBasePath ++ "/" ++ toString orderId ++ "/close.json" =
      "orders/" ++ toString orderId ++ "/close.json" := by
    simp [ordersBasePath, String.append_assoc]
  have hopen : ordersBasePath ++ "/" ++ toString orderId ++ "/open.json" =
      "orders/" ++ toString orderId ++ "/open.json" := by
    simp [ordersBasePath, String.append_assoc]
  refine ⟨⟨?_, ?_, ?_, ?_, ?_, ?_, ?_, ?_, ?_⟩, ⟨?_, ?_, ?_, ?_, ?_, ?_, ?_, ?_, ?_⟩,
    ⟨?_, ?_, ?_, ?_, ?_, ?_⟩⟩
  · simp only [ArticlesServiceOp.List, hlist]
  · simp only [ArticlesServiceOp.Create, listPath_eq]
  · simp only [ArticlesServiceOp.Get, hitem]
  · simp only [ArticlesServiceOp.Update, itemPath_eq]
  · rw [hdelete]
  · rw [hdelete]
  · simp only [ArticlesServiceOp.Count, countPath_eq]
  · intro s' tags err h
    simp only [ArticlesServiceOp.ListTags, tagsPath_eq, h, ArticlesServiceOp.returnTags]
  · intro s' tags err h
    simp only [ArticlesServiceOp.ListBlogTags, blogTagsPath_eq, h, ArticlesServiceOp.returnTags]
  · intro s' err h
    simp only [OrderServiceOp.List, OrderServiceOp.ListWithPagination, hpage, h]
  · simp only [OrderServiceOp.Count, hcount]
  · simp only [OrderServiceOp.Get, orderPath_eq]
  · simp only [OrderServiceOp.Create, hpage]
  · simp only [OrderServiceOp.Update, orderPath_eq]
  · simp only [OrderServiceOp.Cancel, hcancel]
  · simp only [OrderServiceOp.Close, hclose]
  · simp only [OrderServiceOp.Open, hopen]
  · simp only [OrderServiceOp.Delete, orderPath_eq]
  · simp only [VariantServiceOp.List]
  · simp only [VariantServiceOp.Count]
  · simp only [VariantServiceOp.Get, variantPath_eq]
  · simp only [VariantServiceOp.Create]
  · simp only [VariantServiceOp.Update, variantPath_eq]
  · simp only [VariantServiceOp.Delete]

/-- C21 on a client whose every call is answered with 404, and for
`OrderServiceOp.List` on the refused cursor of the two-page listing: the
deletion of an article, the tags of all articles and the listing of orders
each return that error. -/
theorem client_error_is_returned_witness :
    (ArticlesServiceOp.Delete notFoundDelete 0 241253187 1).2 = some "404 Not Found" ∧
    ArticlesServiceOp.ListTags (ι := String) notFoundGet 0 none =
      some (1, [], some "404 Not Found") ∧
    (OrderServiceOp.List twoPageClient 0 (.listOptions 5)).2.2 = some "404 Not Found" :=
  have h := client_error_is_returned (A := Nat) (R := Nat) (W := Nat)
    (fun _ => notFoundGet) (fun _ _ => notFoundPost) (fun _ _ => notFoundPut) notFoundDelete
    notFoundCount twoPageClient "products" 0 241253187 1 450789469 1 2 none (.listOptions 5)
    7 ⟨450789469, 0⟩ ⟨2, 0⟩
  ⟨h.1.2.2.2.2.1.trans rfl, h.1.2.2.2.2.2.2.2.1 1 ⟨[]⟩ (some "404 Not Found") rfl,
    h.2.1.1 1 "404 Not Found" rfl⟩

/-! ## The fields the custom decoders leave to the default decoding -/

/-- A successful `LineItem.UnmarshalJSON` leaves in the other fields what the
default decoding makes of the members other than `properties`. -/
theorem LineItem_rest_is_default_decoding {R E : Type}
    (std : List (String × JSON) → R → Except E R) (li x : LineItem R)
    (d : List (String × JSON)) (h : LineItem.UnmarshalJSON std li d = .ok x) :
    std (otherMembers "properties" d) li.rest = .ok x.rest := by
  unfold LineItem.UnmarshalJSON LineItem.unmarshalAux at h
  rcases hstd : std (otherMembers "properties" d) li.rest with e | r
  · rw [hstd] at h
    exact Except.noConfusion h
  · rw [hstd] at h
    simp only at h
    split at h
    · injection h with h
      rw [← h]
    · split at h
      · split at h
        · exact Except.noConfusion h
        · injection h with h
          rw [← h]
      · split at h
        · exact Except.noConfusion h
        · split at h
          · injection h with h
            rw [← h]
          · injection h with h
            rw [← h]

/-- A successful `ShippingLines.UnmarshalJSON` leaves in the other fields what
the default decoding makes of the members other than
`requested_fulfillment_service_id`. -/
theorem ShippingLines_rest_is_default_decoding {S F : Type} (large : Int → String)
    (std : List (String × JSON) → S → Except F S) (sl x : ShippingLines S)
    (d : List (String × JSON)) (h : ShippingLines.UnmarshalJSON large std sl d = .ok x) :
    std (otherMembers "requested_fulfillment_service_id" d) sl.rest = .ok x.rest := by
  unfold ShippingLines.UnmarshalJSON ShippingLines.unmarshalAux at h
  rcases hstd : std (otherMembers "requested_fulfillment_service_id" d) sl.rest with e | r
  · rw [hstd] at h
    exact Except.noConfusion h
  · rw [hstd] at h
    simp only at h
    split at h
    · exact Except.noConfusion h
    · rename_i aux haux
      split at haux
      · injection haux with haux
        split at h
        · injection h with h
          rw [← h, ← haux]
        · injection h with h
          rw [← h, ← haux]
      · exact Except.noConfusion haux

/-- C25: the custom decoders change only their flexible field. A successful
`LineItem.UnmarshalJSON` leaves in the other fields exactly what the default
decoding makes of the members other than `properties`, and a successful
`ShippingLines.UnmarshalJSON` exactly what it makes of the members other than
`requested_fulfillment_service_id`; so two records that differ only in the
members of the flexible field decode to the same other fields. -/
theorem custom_decoders_change_only_their_field {R S E F : Type} (large : Int → String)
    (stdItem : List (String × JSON) → R → Except E R)
    (stdLine : List (String × JSON) → S → Except F S)
    (li : LineItem R) (sl : ShippingLines S) :
    (∀ (data : List (String × JSON)) (li' : LineItem R),
      LineItem.UnmarshalJSON stdItem li data = .ok li' →
      stdItem (otherMembers "properties" data) li.rest = .ok li'.rest) ∧
    (∀ (data : List (String × JSON)) (sl' : ShippingLines S),
      ShippingLines.UnmarshalJSON large stdLine sl data = .ok sl' →
      stdLine (otherMembers "requested_fulfillment_service_id" data) sl.rest =
        .ok sl'.rest) ∧
    (∀ (data other : List (String × JSON)) (li1 li2 : LineItem R),
      otherMembers "properties" other = otherMembers "properties" data →
      LineItem.UnmarshalJSON stdItem li data = .ok li1 →
      LineItem.UnmarshalJSON stdItem li other = .ok li2 → li2.rest = li1.rest) ∧
    (∀ (data other : List (String × JSON)) (sl1 sl2 : ShippingLines S),
      otherMembers "requested_fulfillment_service_id" other =
        otherMembers "requested_fulfillment_service_id" data →
      ShippingLines.UnmarshalJSON large stdLine sl data = .ok sl1 →
      ShippingLines.UnmarshalJSON large stdLine sl other = .ok sl2 →
      sl2.rest = sl1.rest) := by
  refine ⟨fun data li' h => LineItem_rest_is_default_decoding stdItem li li' data h,
    fun data sl' h => ShippingLines_rest_is_default_decoding large stdLine sl sl' data h,
    ?_, ?_⟩
  · intro data other li1 li2 hsame h1 h2
    have h3 := LineItem_rest_is_default_decoding stdItem li li1 data h1
    have h4 := LineItem_rest_is_default_decoding stdItem li li2 other h2
    rw [hsame, h3] at h4
    injection h4 with h4
    exact h4.symm
  · intro data other sl1 sl2 hsame h1 h2
    have h3 := ShippingLines_rest_is_default_decoding large stdLine sl sl1 data h1
    have h4 := ShippingLines_rest_is_default_decoding large stdLine sl sl2 other h2
    rw [hsame, h3] at h4
    injection h4 with h4
    exact h4.symm

/-- C25 on records with the one other field `title`: the line item
`{"title": "Shirt", "properties": []}` and the shipping line
`{"title": "Standard", "requested_fulfillment_service_id": null}` get the title
the default decoding gives them. -/
theorem custom_decoders_change_only_their_field_witness :
    titleField (otherMembers "properties"
      [("title", .string "Shirt"), ("properties", .array [])]) "" = .ok "Shirt" ∧
    titleField (otherMembers "requested_fulfillment_service_id"
      [("title", .string "Standard"), ("requested_fulfillment_service_id", .null)]) "" =
      .ok "Standard" :=
  have h := custom_decoders_change_only_their_field (fun _ => "") titleField titleField
    ⟨[], ""⟩ ⟨"old", ""⟩
  ⟨h.1 [("title", .string "Shirt"), ("properties", .array [])] ⟨[], "Shirt"⟩ rfl,
    h.2.1 [("title", .string "Standard"), ("requested_fulfillment_service_id", .null)]
      ⟨"", "Standard"⟩ rfl⟩

/-! ## `properties` that is null, absent or a scalar -/

/-- C26: when the last `properties` member of a record is JSON null, or the
record has no `properties` member and is decoded into a line item whose
`Properties` is empty (a fresh one), and the other members decode,
`LineItem.UnmarshalJSON` succeeds and `Properties` is the empty sequence. -/
theorem LineItem_null_or_absent_properties_give_empty {R E : Type}
    (std : List (String × JSON) → R → Except E R) (li : LineItem R)
    (data : List (String × JSON)) (r : R)
    (hstd : std (otherMembers "properties" data) li.rest = .ok r)
    (hraw : (fieldValues "properties" data).getLast? = some .null ∨
      (fieldValues "properties" data = [] ∧ li.Properties = [])) :
    LineItem.UnmarshalJSON std li data = .ok ⟨[], r⟩ := by
  unfold LineItem.UnmarshalJSON LineItem.unmarshalAux
  rcases hraw with hnull | ⟨habsent, hfresh⟩
  · simp only [hstd, hnull]
    have hbyte : ¬ JSON.null.firstByte = '[' := by
      show ¬ ('n' = '[')
      decide
    rw [if_neg hbyte]
    rfl
  · simp only [hstd, habsent, List.getLast?_nil, hfresh]

/-- C26 on the records `{"title": "Shirt", "properties": null}` and
`{"title": "Shirt"}`. -/
theorem LineItem_null_or_absent_properties_give_empty_witness :
    LineItem.UnmarshalJSON titleField ⟨[], ""⟩
      [("title", .string "Shirt"), ("properties", .null)] = .ok ⟨[], "Shirt"⟩ ∧
    LineItem.UnmarshalJSON titleField ⟨[], ""⟩ [("title", .string "Shirt")] =
      .ok ⟨[], "Shirt"⟩ :=
  ⟨LineItem_null_or_absent_properties_give_empty titleField ⟨[], ""⟩
      [("title", .string "Shirt"), ("properties", .null)] "Shirt" rfl (Or.inl rfl),
    LineItem_null_or_absent_properties_give_empty titleField ⟨[], ""⟩
      [("title", .string "Shirt")] "Shirt" rfl (Or.inr ⟨rfl, rfl⟩)⟩

/-! ## Decimal digits -/

/-- The character of a decimal digit is a digit. -/
theorem digitChar_isDigit (d : Nat) (h : d < 10) : (Nat.digitChar d).isDigit = true := by
  interval_cases d <;> decide

/-- The decimal digits of a number are digits. -/
theorem toDigitsCore_isDigit : ∀ (fuel n : Nat) (ds : List Char),
    (∀ c ∈ ds, c.isDigit = true) → ∀ c ∈ Nat.toDigitsCore 10 fuel n ds, c.isDigit = true := by
  intro fuel
  induction fuel with
  | zero =>
    intro n ds h c hc
    exact h c hc
  | succ fuel ih =>
    intro n ds h
    have hds : ∀ c ∈ Nat.digitChar (n % 10) :: ds, c.isDigit = true := by
      intro c hc
      rcases List.mem_cons.mp hc with hc | hc
      · rw [hc]
        exact digitChar_isDigit _ (Nat.mod_lt _ (by decide))
      · exact h c hc
    rw [Nat.toDigitsCore]
    by_cases h0 : n / 10 = 0
    · simp only [h0, if_true]
      exact hds
    · simp only [h0, if_false]
      exact ih _ _ hds

/-- The decimal digits of a number are digits. -/
theorem toDigits_isDigit (n : Nat) : ∀ c ∈ Nat.toDigits 10 n, c.isDigit = true :=
  toDigitsCore_isDigit (n + 1) n [] (fun _ h => absurd h (List.not_mem_nil _))

/-- The text of a JSON number does not start with a bracket. -/
theorem firstByte_number_ne_bracket (n : Int) : ¬ (JSON.number n).firstByte = '[' := by
  show ¬ (toString n).front = '['
  cases n with
  | ofNat m =>
    show ¬ (String.mk (Nat.toDigits 10 m)).front = '['
    rcases hd : Nat.toDigits 10 m with _ | ⟨c, cs⟩
    · have hlen := toDigits_length_pos m
      rw [hd] at hlen
      exact absurd hlen (by decide)
    · show ¬ c = '['
      intro hc
      have hdigit := toDigits_isDigit m c (by rw [hd]; exact List.mem_cons_self _ _)
      rw [hc] at hdigit
      exact absurd hdigit (by decide)
  | negSucc m =>
    show ¬ '-' = '['
    decide

/-! ## `properties` that is a scalar -/

/-- C27: the shape test of `LineItem.UnmarshalJSON` looks at the first byte of
the raw `properties` value only: `[` selects the decoding as an array, any
other byte the decoding as a single object. So for every record whose
`properties` is a JSON string, number or boolean the decoding returns an error:
when the other members decode, it is the type error of decoding the scalar as
a `NoteAttribute`. -/
theorem LineItem_scalar_properties_is_an_error {R E : Type}
    (std : List (String × JSON) → R → Except E R) (li : LineItem R)
    (data : List (String × JSON)) (raw : JSON)
    (hraw : (fieldValues "properties" data).getLast? = some raw) :
    (∀ (r : R), std (otherMembers "properties" data) li.rest = .ok r →
      raw.firstByte = '[' →
      LineItem.UnmarshalJSON std li data =
        (match NoteAttribute.UnmarshalSlice raw with
          | .error err => .error (.unmarshalType err)
          | .ok p => .ok ⟨p, r⟩)) ∧
    (∀ (r : R), std (otherMembers "properties" data) li.rest = .ok r →
      ¬ raw.firstByte = '[' →
      LineItem.UnmarshalJSON std li data =
        (match NoteAttribute.Unmarshal raw with
          | .error err => .error (.unmarshalType err)
          | .ok p => if p.Name = "" ∧ p.Value.isNil = true then .ok ⟨[], r⟩ else .ok ⟨[p], r⟩)) ∧
    ((∃ s, raw = .string s) ∨ (∃ n, raw = .number n) ∨ (∃ b, raw = .bool b) →
      (∃ err, LineItem.UnmarshalJSON std li data = .error err) ∧
      (∀ (r : R), std (otherMembers "properties" data) li.rest = .ok r →
        ∃ kind, LineItem.UnmarshalJSON std li data =
          .error (.unmarshalType ⟨kind, "goshopify.NoteAttribute"⟩))) := by
  have harray : ∀ (r : R), std (otherMembers "properties" data) li.rest = .ok r →
      raw.firstByte = '[' →
      LineItem.UnmarshalJSON std li data =
        (match NoteAttribute.UnmarshalSlice raw with
          | .error err => .error (.unmarshalType err)
          | .ok p => .ok ⟨p, r⟩) := by
    intro r hstd hbyte
    unfold LineItem.UnmarshalJSON LineItem.unmarshalAux
    simp only [hstd, hraw, if_pos hbyte]
  have hobject : ∀ (r : R), std (otherMembers "properties" data) li.rest = .ok r →
      ¬ raw.firstByte = '[' →
      LineItem.UnmarshalJSON std li data =
        (match NoteAttribute.Unmarshal raw with
          | .error err => .error (.unmarshalType err)
          | .ok p =>
            if p.Name = "" ∧ p.Value.isNil = true then .ok ⟨[], r⟩ else .ok ⟨[p], r⟩) := by
    intro r hstd hbyte
    unfold LineItem.UnmarshalJSON LineItem.unmarshalAux
    simp only [hstd, hraw, if_neg hbyte]
  have hbyte : (∃ s, raw = .string s) ∨ (∃ n, raw = .number n) ∨ (∃ b, raw = .bool b) →
      ¬ raw.firstByte = '[' := by
    rintro (⟨s, rfl⟩ | ⟨n, rfl⟩ | ⟨b, rfl⟩)
    · show ¬ ('"' = '[')
      decide
    · exact firstByte_number_ne_bracket n
    · cases b
      · show ¬ ('f' = '[')
        decide
      · show ¬ ('t' = '[')
        decide
  have hkind : (∃ s, raw = .string s) ∨ (∃ n, raw = .number n) ∨ (∃ b, raw = .bool b) →
      ∃ kind, NoteAttribute.Unmarshal raw = .error ⟨kind, "goshopify.NoteAttribute"⟩ := by
    rintro (⟨s, rfl⟩ | ⟨n, rfl⟩ | ⟨b, rfl⟩)
    · exact ⟨"string", rfl⟩
    · exact ⟨"number", rfl⟩
    · exact ⟨"bool", rfl⟩
  refine ⟨harray, hobject, ?_⟩
  intro hscalar
  obtain ⟨kind, hk⟩ := hkind hscalar
  have hprecise : ∀ (r : R), std (otherMembers "properties" data) li.rest = .ok r →
      LineItem.UnmarshalJSON std li data =
        .error (.unmarshalType ⟨kind, "goshopify.NoteAttribute"⟩) := by
    intro r hstd
    rw [hobject r hstd (hbyte hscalar), hk]
  refine ⟨?_, fun r hstd => ⟨kind, hprecise r hstd⟩⟩
  rcases hstd : std (otherMembers "properties" data) li.rest with e | r
  · refine ⟨.fields e, ?_⟩
    unfold LineItem.UnmarshalJSON LineItem.unmarshalAux
    simp only [hstd]
  · exact ⟨_, hprecise r hstd⟩

/-- C27 on the records whose `properties` is the string `"gift"`, the number 7
and the boolean `true`. -/
theorem LineItem_scalar_properties_is_an_error_witness :
    (∃ kind, LineItem.UnmarshalJSON titleField ⟨[], ""⟩ [("properties", .string "gift")] =
      .error (.unmarshalType ⟨kind, "goshopify.NoteAttribute"⟩)) ∧
    (∃ kind, LineItem.UnmarshalJSON titleField ⟨[], ""⟩ [("properties", .number 7)] =
      .error (.unmarshalType ⟨kind, "goshopify.NoteAttribute"⟩)) ∧
    (∃ kind, LineItem.UnmarshalJSON titleField ⟨[], ""⟩ [("properties", .bool true)] =
      .error (.unmarshalType ⟨kind, "goshopify.NoteAttribute"⟩)) :=
  ⟨((LineItem_scalar_properties_is_an_error titleField ⟨[], ""⟩
      [("properties", .string "gift")] (.string "gift") rfl).2.2
      (Or.inl ⟨"gift", rfl⟩)).2 "" rfl,
    ((LineItem_scalar_properties_is_an_error titleField ⟨[], ""⟩
      [("properties", .number 7)] (.number 7) rfl).2.2
      (Or.inr (Or.inl ⟨7, rfl⟩))).2 "" rfl,
    ((LineItem_scalar_properties_is_an_error titleField ⟨[], ""⟩
      [("properties", .bool true)] (.bool true) rfl).2.2
      (Or.inr (Or.inr ⟨true, rfl⟩))).2 "" rfl⟩

/-! ## The emptiness test of a single `properties` object -/

/-- A JSON value other than null that converts without error is a non-nil
`interface{}`. -/
theorem valueInterface_not_nil (x : JSON) (hx : x ≠ .null)
    (hconv : (JSON.valueInterface x).2 = none) : (JSON.valueInterface x).1.isNil = false := by
  cases x with
  | null => exact absurd rfl hx
  | bool b => rfl
  | string s => rfl
  | number n =>
    simp only [JSON.valueInterface] at hconv ⊢
    cases hn : convertNumber n with
    | ok v => rfl
    | error err =>
      rw [hn] at hconv
      exact Option.noConfusion hconv
  | array elems =>
    simp only [JSON.valueInterface]
    rfl
  | object members =>
    simp only [JSON.valueInterface]
    rfl

/-- Storing a value that converts without error into an `interface{}` field
gives the converted value, whatever the field held. -/
theorem storeInterface_of_no_error (old : GoValue) (x : JSON)
    (hconv : (JSON.valueInterface x).2 = none) :
    JSON.storeInterface old x = ((JSON.valueInterface x).1, none) := by
  cases x with
  | number n =>
    simp only [JSON.storeInterface, JSON.valueInterface] at hconv ⊢
    cases hn : convertNumber n with
    | ok v => rfl
    | error err =>
      rw [hn] at hconv
      exact Option.noConfusion hconv
  | null => rfl
  | bool b => rfl
  | string s => rfl
  | array elems =>
    show JSON.valueInterface (.array elems) = _
    rw [← hconv]
  | object members =>
    show JSON.valueInterface (.object members) = _
    rw [← hconv]

/-- Members that are an empty or null name, or that are neither `name` nor
`value`, leave a `NoteAttribute` with an empty name as it is. -/
theorem decodeMember_foldl_of_no_content (v : GoValue) (e : Option UnmarshalTypeError) :
    ∀ (ms : List (String × JSON)),
    (∀ m ∈ ms, (fieldMatches "name" m.1 = true ∧ (m.2 = .string "" ∨ m.2 = .null)) ∨
      (fieldMatches "name" m.1 = false ∧ fieldMatches "value" m.1 = false)) →
    ms.foldl NoteAttribute.decodeMember (⟨"", v⟩, e) = (⟨"", v⟩, e) := by
  intro ms
  induction ms with
  | nil => intro _; rfl
  | cons m ms ih =>
    intro h
    have hm := h m (List.mem_cons_self _ _)
    have hstep : NoteAttribute.decodeMember (⟨"", v⟩, e) m = (⟨"", v⟩, e) := by
      unfold NoteAttribute.decodeMember
      rcases hm with ⟨h1, h2 | h2⟩ | ⟨h1, h2⟩
      · rw [if_pos h1, h2]
      · rw [if_pos h1, h2]
      · rw [h1, h2]
        rfl
    rw [List.foldl_cons, hstep]
    exact ih (fun m' hm' => h m' (List.mem_cons_of_mem _ hm'))

/-- C28: the emptiness test of a single `properties` object is "the name is
empty and the value is nil". For every `properties` object that has one
`value` member holding a JSON value other than null that converts without
error (0, false and the empty string among them), whose `name` members are the
empty string or null, and whose other members are foreign to `NoteAttribute`,
`LineItem.UnmarshalJSON` keeps the object as a one-element `Properties`
sequence with the empty name and that value, which is not nil. -/
theorem LineItem_nameless_value_is_kept {R E : Type}
    (std : List (String × JSON) → R → Except E R) (li : LineItem R)
    (data : List (String × JSON)) (r : R) (before after : List (String × JSON))
    (k : String) (x : JSON)
    (hstd : std (otherMembers "properties" data) li.rest = .ok r)
    (hraw : (fieldValues "properties" data).getLast? =
      some (.object (before ++ (k, x) :: after)))
    (hothers : ∀ m ∈ before ++ after,
      (fieldMatches "name" m.1 = true ∧ (m.2 = .string "" ∨ m.2 = .null)) ∨
      (fieldMatches "name" m.1 = false ∧ fieldMatches "value" m.1 = false))
    (hk : fieldMatches "name" k = false ∧ fieldMatches "value" k = true)
    (hx : x ≠ .null) (hconv : (JSON.valueInterface x).2 = none) :
    LineItem.UnmarshalJSON std li data = .ok ⟨[⟨"", (JSON.valueInterface x).1⟩], r⟩ ∧
    (JSON.valueInterface x).1.isNil = false := by
  have hnil := valueInterface_not_nil x hx hconv
  refine ⟨?_, hnil⟩
  have hstep : NoteAttribute.decodeMember (⟨"", .nil⟩, none) (k, x) =
      (⟨"", (JSON.valueInterface x).1⟩, none) := by
    unfold NoteAttribute.decodeMember
    simp only [hk.1, hk.2, storeInterface_of_no_error _ x hconv]
    rfl
  have hdec : NoteAttribute.Unmarshal (.object (before ++ (k, x) :: after)) =
      .ok ⟨"", (JSON.valueInterface x).1⟩ := by
    unfold NoteAttribute.Unmarshal NoteAttribute.decodeInto
    simp only [List.foldl_append, List.foldl_cons]
    rw [decodeMember_foldl_of_no_content .nil none before
      (fun m hm => hothers m (List.mem_append_left _ hm)), hstep,
      decodeMember_foldl_of_no_content _ none after
      (fun m hm => hothers m (List.mem_append_right _ hm))]
  unfold LineItem.UnmarshalJSON LineItem.unmarshalAux
  simp only [hstd, hraw]
  have hbyte : ¬ (JSON.object (before ++ (k, x) :: after)).firstByte = '[' := by
    show ¬ ('{' = '[')
    decide
  rw [if_neg hbyte, hdec]
  have hcond : ¬ (("" : String) = "" ∧ (JSON.valueInterface x).1.isNil = true) := by
    rintro ⟨_, h2⟩
    rw [h2] at hnil
    exact Bool.noConfusion hnil
  exact if_neg hcond

/-- C28 on the objects `{"value": 0}`, `{"name": "", "value": false}` and
`{"value": "", "name": null}`. -/
theorem LineItem_nameless_value_is_kept_witness :
    (LineItem.UnmarshalJSON titleField ⟨[], ""⟩
        [("properties", .object [("value", .number 0)])] =
        .ok ⟨[⟨"", .float64 0⟩], ""⟩ ∧
      GoValue.isNil (.float64 0) = false) ∧
    (LineItem.UnmarshalJSON titleField ⟨[], ""⟩
        [("properties", .object [("name", .string ""), ("value", .bool false)])] =
        .ok ⟨[⟨"", .bool false⟩], ""⟩ ∧
      GoValue.isNil (.bool false) = false) ∧
    (LineItem.UnmarshalJSON titleField ⟨[], ""⟩
        [("properties", .object [("value", .string ""), ("name", .null)])] =
        .ok ⟨[⟨"", .string ""⟩], ""⟩ ∧
      GoValue.isNil (.string "") = false) :=
  ⟨LineItem_nameless_value_is_kept titleField ⟨[], ""⟩
      [("properties", .object [("value", .number 0)])] "" [] [] "value" (.number 0) rfl rfl
      (fun _ h => absurd h (List.not_mem_nil _)) ⟨by decide, by decide⟩
      (fun h => JSON.noConfusion h) rfl,
    LineItem_nameless_value_is_kept titleField ⟨[], ""⟩
      [("properties", .object [("name", .string ""), ("value", .bool false)])] ""
      [("name", .string "")] [] "value" (.bool false) rfl rfl
      (fun m h => by
        rcases List.mem_singleton.mp h with rfl
        exact Or.inl ⟨by decide, Or.inl rfl⟩)
      ⟨by decide, by decide⟩ (fun h => JSON.noConfusion h) rfl,
    LineItem_nameless_value_is_kept titleField ⟨[], ""⟩
      [("properties", .object [("value", .string ""), ("name", .null)])] ""
      [] [("name", .null)] "value" (.string "") rfl rfl
      (fun m h => by
        rcases List.mem_singleton.mp h with rfl
        exact Or.inl ⟨by decide, Or.inr rfl⟩)
      ⟨by decide, by decide⟩ (fun h => JSON.noConfusion h) rfl⟩

/-! ## Injectivity of the article paths -/

/-- The character of a decimal digit has the code of the digit after 48. -/
theorem digitChar_toNat (d : Nat) (h : d < 10) : (Nat.digitChar d).toNat - 48 = d := by
  interval_cases d <;> rfl

/-- Reading the decimal digits of a number back gives the number. -/
theorem toDigitsCore_value : ∀ (fuel n : Nat) (ds : List Char), n < fuel →
    (Nat.toDigitsCore 10 fuel n ds).foldl (fun acc c => 10 * acc + (c.toNat - 48)) 0 =
      ds.foldl (fun acc c => 10 * acc + (c.toNat - 48)) n := by
  intro fuel
  induction fuel with
  | zero =>
    intro n ds h
    exact absurd h (Nat.not_lt_zero n)
  | succ fuel ih =>
    intro n ds h
    rw [Nat.toDigitsCore]
    have hd : (Nat.digitChar (n % 10)).toNat - 48 = n % 10 :=
      digitChar_toNat _ (Nat.mod_lt _ (by decide))
    by_cases h0 : n / 10 = 0
    · simp only [h0, if_true, List.foldl_cons, hd]
      have hn : 10 * 0 + n % 10 = n := by omega
      rw [hn]
    · simp only [h0, if_false]
      rw [ih (n / 10) _ (by omega), List.foldl_cons, hd]
      have hn : 10 * (n / 10) + n % 10 = n := by omega
      rw [hn]

/-- Two numbers with the same decimal digits are equal. -/
theorem toDigits_injective (a b : Nat) (h : Nat.toDigits 10 a = Nat.toDigits 10 b) :
    a = b := by
  have ha := toDigitsCore_value (a + 1) a [] (Nat.lt_succ_self a)
  have hb := toDigitsCore_value (b + 1) b [] (Nat.lt_succ_self b)
  have h' : Nat.toDigitsCore 10 (a + 1) a [] = Nat.toDigitsCore 10 (b + 1) b [] := h
  rw [h'] at ha
  rw [ha] at hb
  exact hb

/-- Two lists that agree and are cut at a character that occurs in neither
front part have the same front parts and the same rests. -/
theorem append_cons_split (c : Char) : ∀ (xs ys r t : List Char), c ∉ xs → c ∉ ys →
    xs ++ c :: r = ys ++ c :: t → xs = ys ∧ r = t := by
  intro xs
  induction xs with
  | nil =>
    intro ys r t _ hys h
    cases ys with
    | nil =>
      simp only [List.nil_append, List.cons.injEq, true_and] at h
      exact ⟨rfl, h⟩
    | cons y ys =>
      simp only [List.nil_append, List.cons_append, List.cons.injEq] at h
      exact absurd (h.1 ▸ List.mem_cons_self _ _) hys
  | cons x xs ih =>
    intro ys r t hxs hys h
    cases ys with
    | nil =>
      simp only [List.nil_append, List.cons_append, List.cons.injEq] at h
      exact absurd (h.1 ▸ List.mem_cons_self _ _) hxs
    | cons y ys =>
      simp only [List.cons_append, List.cons.injEq] at h
      obtain ⟨h1, h2⟩ := ih ys r t (fun hc => hxs (List.mem_cons_of_mem _ hc))
        (fun hc => hys (List.mem_cons_of_mem _ hc)) h.2
      exact ⟨by rw [h.1, h1], h2⟩

/-- The decimal digits of a number hold no slash. -/
theorem slash_not_mem_toDigits (n : Nat) : '/' ∉ Nat.toDigits 10 n := by
  intro h
  exact absurd (toDigits_isDigit n _ h) (by decide)

/-- Two paths under `blogs/` that agree have the same blog id and the same
text after the slash that follows the id. -/
theorem blog_path_split (b b' : Nat) (t t' : List Char)
    (h : "blogs/".data ++ (Nat.toDigits 10 b ++ '/' :: t) =
      "blogs/".data ++ (Nat.toDigits 10 b' ++ '/' :: t')) : b = b' ∧ t = t' := by
  have h1 := append_cons_split '/' _ _ t t' (slash_not_mem_toDigits b)
    (slash_not_mem_toDigits b') (List.append_cancel_left h)
  exact ⟨toDigits_injective b b' h1.1, h1.2⟩

/-- The characters of the collection path. -/
theorem listPath_data (b : Nat) : (ArticlesServiceOp.listPath b).data =
    "blogs/".data ++ (Nat.toDigits 10 b ++ '/' :: "articles.json".data) := by
  rw [listPath_eq]
  simp only [String.data_append, List.append_assoc]
  rfl

/-- The characters of the item path. -/
theorem itemPath_data (b a : Nat) : (ArticlesServiceOp.itemPath b a).data =
    "blogs/".data ++ (Nat.toDigits 10 b ++
      '/' :: ("articles/".data ++ (Nat.toDigits 10 a ++ ".json".data))) := by
  rw [itemPath_eq]
  simp only [String.data_append, List.append_assoc]
  rfl

/-- The characters of the count path. -/
theorem countPath_data (b : Nat) : (ArticlesServiceOp.countPath b).data =
    "blogs/".data ++ (Nat.toDigits 10 b ++ '/' :: "articles/count.json".data) := by
  rw [countPath_eq]
  simp only [String.data_append, List.append_assoc]
  rfl

/-- The characters of the tags path of a blog. -/
theorem blogTagsPath_data (b : Nat) : (ArticlesServiceOp.blogTagsPath b).data =
    "blogs/".data ++ (Nat.toDigits 10 b ++ '/' :: "articles/tags.json".data) := by
  rw [blogTagsPath_eq]
  simp only [String.data_append, List.append_assoc]
  rfl

/-- The digits of a number followed by `.json` are neither `count.json` nor
`tags.json`. -/
theorem digits_json_ne (a : Nat) (c : Char) (t : List Char) (hc : c.isDigit = false) :
    Nat.toDigits 10 a ++ ".json".data ≠ c :: t := by
  intro h
  rcases hd : Nat.toDigits 10 a with _ | ⟨d, ds⟩
  · have hlen := toDigits_length_pos a
    rw [hd] at hlen
    exact absurd hlen (by decide)
  · rw [hd] at h
    simp only [List.cons_append, List.cons.injEq] at h
    have hdigit := toDigits_isDigit a d (by rw [hd]; exact List.mem_cons_self _ _)
    rw [h.1, hc] at hdigit
    exact Bool.noConfusion hdigit

/-- C29: `Get`, `Update` and `Delete` call the client at the item path
`blogs/<blogId>/articles/<articleId>.json`, and this path determines its ids:
the item paths of two pairs of ids are equal if and only if the blog ids are
equal and the article ids are equal. No item path equals the collection path,
the count path or the tags path of any blog, nor the tags path of all
articles. -/
theorem article_item_path_is_injective {σ ι A E : Type}
    (get : ClientGet σ ι (ArticleResource A) E)
    (put : ClientPut σ (ArticleResource A) (ArticleResource A) E) (delete : ClientDelete σ E)
    (s : σ) (article : A) (blogId articleId blogId' articleId' : Nat) :
    (ArticlesServiceOp.Get get s blogId articleId =
        (let r := get s (ArticlesServiceOp.itemPath blogId articleId) ⟨none⟩ none
         (r.1, r.2.1.Article, r.2.2)) ∧
      ArticlesServiceOp.Update put s blogId articleId article =
        (let r := put s (ArticlesServiceOp.itemPath blogId articleId) (some ⟨some article⟩)
          ⟨none⟩
         (r.1, r.2.1.Article, r.2.2)) ∧
      ArticlesServiceOp.Delete delete s blogId articleId =
        delete s (ArticlesServiceOp.itemPath blogId articleId)) ∧
    (ArticlesServiceOp.itemPath blogId articleId =
        ArticlesServiceOp.itemPath blogId' articleId' ↔
      blogId = blogId' ∧ articleId = articleId') ∧
    ArticlesServiceOp.itemPath blogId articleId ≠ ArticlesServiceOp.listPath blogId' ∧
    ArticlesServiceOp.itemPath blogId articleId ≠ ArticlesServiceOp.countPath blogId' ∧
    ArticlesServiceOp.itemPath blogId articleId ≠ ArticlesServiceOp.blogTagsPath blogId' ∧
    ArticlesServiceOp.itemPath blogId articleId ≠ ArticlesServiceOp.tagsPath := by
  refine ⟨⟨rfl, rfl, rfl⟩, ⟨?_, ?_⟩, ?_, ?_, ?_, ?_⟩
  · intro h
    have hd := congrArg String.data h
    rw [itemPath_data, itemPath_data] at hd
    obtain ⟨hb, ht⟩ := blog_path_split _ _ _ _ hd
    have ha := List.append_cancel_right (List.append_cancel_left ht)
    exact ⟨hb, toDigits_injective _ _ ha⟩
  · rintro ⟨rfl, rfl⟩
    rfl
  · intro h
    have hd := congrArg String.data h
    rw [itemPath_data, listPath_data] at hd
    obtain ⟨_, ht⟩ := blog_path_split _ _ _ _ hd
    have ht' : "articles".data ++ ('/' :: (Nat.toDigits 10 articleId ++ ".json".data)) =
        "articles".data ++ ".json".data := ht
    have h2 := List.append_cancel_left ht'
    simp only [List.cons.injEq] at h2
    exact absurd h2.1 (by decide)
  · intro h
    have hd := congrArg String.data h
    rw [itemPath_data, countPath_data] at hd
    obtain ⟨_, ht⟩ := blog_path_split _ _ _ _ hd
    have ht' : "articles/".data ++ (Nat.toDigits 10 articleId ++ ".json".data) =
        "articles/".data ++ ('c' :: "ount.json".data) := ht
    exact digits_json_ne articleId 'c' _ (by decide) (List.append_cancel_left ht')
  · intro h
    have hd := congrArg String.data h
    rw [itemPath_data, blogTagsPath_data] at hd
    obtain ⟨_, ht⟩ := blog_path_split _ _ _ _ hd
    have ht' : "articles/".data ++ (Nat.toDigits 10 articleId ++ ".json".data) =
        "articles/".data ++ ('t' :: "ags.json".data) := ht
    exact digits_json_ne articleId 't' _ (by decide) (List.append_cancel_left ht')
  · intro h
    have hd := congrArg String.data h
    rw [itemPath_data, tagsPath_eq] at hd
    have hd' : 'b' :: ("logs/".data ++ (Nat.toDigits 10 blogId ++
        '/' :: ("articles/".data ++ (Nat.toDigits 10 articleId ++ ".json".data)))) =
        'a' :: "rticles/tags.json".data := hd
    simp only [List.cons.injEq] at hd'
    exact absurd hd'.1 (by decide)

/-- C29 on ids whose digits run together without the separators: the item path
of blog 1 and article 23 is neither the item path of blog 12 and article 3 nor
the collection path of blog 12. -/
theorem article_item_path_is_injective_witness :
    ArticlesServiceOp.itemPath 1 23 ≠ ArticlesServiceOp.itemPath 12 3 ∧
    ArticlesServiceOp.itemPath 1 23 ≠ ArticlesServiceOp.listPath 12 :=
  have h := article_item_path_is_injective (ι := String) (A := Nat) notFoundGet notFoundPut
    notFoundDelete 0 7 1 23 12 3
  ⟨fun e => absurd (h.2.1.mp e).1 (by decide), h.2.2.1⟩

/-! ## Decoding a record with `json.Unmarshal`: the scan and the method -/

/-- A document within the nesting limit passes the scan. -/
theorem checkValid_of_le (x : JSON) (h : x.depth ≤ maxNestingDepth) : checkValid x = none := by
  unfold checkValid
  rw [if_neg (Nat.not_lt.mpr h)]

/-- A document beyond the nesting limit fails the scan. -/
theorem checkValid_of_lt (x : JSON) (h : maxNestingDepth < x.depth) :
    checkValid x = some ⟨"exceeded max depth"⟩ := by
  unfold checkValid
  rw [if_pos h]

/-- A record beyond the nesting limit is refused by `json.Unmarshal`. -/
theorem Unmarshal_of_lt {R E : Type} (std : List (String × JSON) → R → Except E R)
    (li : LineItem R) (data : List (String × JSON))
    (h : maxNestingDepth < (JSON.object data).depth) :
    LineItem.Unmarshal std li data = .error (.scan ⟨"exceeded max depth"⟩) := by
  unfold LineItem.Unmarshal
  rw [checkValid_of_lt _ h]

/-- On a record within the nesting limit, `json.Unmarshal` returns the line
item that the method returns. -/
theorem Unmarshal_of_ok {R E : Type} (std : List (String × JSON) → R → Except E R)
    (li x : LineItem R) (data : List (String × JSON))
    (h : (JSON.object data).depth ≤ maxNestingDepth)
    (hok : LineItem.UnmarshalJSON std li data = .ok x) :
    LineItem.Unmarshal std li data = .ok x := by
  unfold LineItem.Unmarshal
  rw [checkValid_of_le _ h, hok]

/-- On a record within the nesting limit, `json.Unmarshal` returns the error
that the method returns. -/
theorem Unmarshal_of_error {R E : Type} (std : List (String × JSON) → R → Except E R)
    (li : LineItem R) (data : List (String × JSON)) (e : DecodeError E)
    (h : (JSON.object data).depth ≤ maxNestingDepth)
    (herr : LineItem.UnmarshalJSON std li data = .error e) :
    LineItem.Unmarshal std li data = .error (.decode e) := by
  unfold LineItem.Unmarshal
  rw [checkValid_of_le _ h, herr]

/-- A line item that `json.Unmarshal` returns is the one the method returns. -/
theorem UnmarshalJSON_of_Unmarshal {R E : Type} (std : List (String × JSON) → R → Except E R)
    (li x : LineItem R) (data : List (String × JSON))
    (hok : LineItem.Unmarshal std li data = .ok x) :
    LineItem.UnmarshalJSON std li data = .ok x := by
  unfold LineItem.Unmarshal at hok
  cases hscan : checkValid (.object data) with
  | some err =>
    rw [hscan] at hok
    exact Except.noConfusion hok
  | none =>
    rw [hscan] at hok
    cases hmethod : LineItem.UnmarshalJSON std li data with
    | error e =>
      rw [hmethod] at hok
      exact Except.noConfusion hok
    | ok y =>
      rw [hmethod] at hok
      injection hok with hok
      rw [hok]

/-- C14 as the code has it: for every record whose other members decode and
whose `properties` is absent, null, a single name/value object or an array of
name/value objects, with the numbers inside the `value` members within the
range of float64, `json.Unmarshal` returns no error when the record is nested
no deeper than `maxNestingDepth`, and the error of the scan when it is nested
deeper. -/
theorem LineItem_Unmarshal_decodes_documented_shapes {R E : Type}
    (std : List (String × JSON) → R → Except E R) (li : LineItem R)
    (data : List (String × JSON)) (r : R)
    (hstd : std (otherMembers "properties" data) li.rest = .ok r)
    (hshape : DocumentedProperties (fieldValues "properties" data).getLast?)
    (hrange : PropertiesInRange (fieldValues "properties" data).getLast?) :
    ((JSON.object data).depth ≤ maxNestingDepth →
      ∃ ps, LineItem.Unmarshal std li data = .ok ⟨ps, r⟩) ∧
    (maxNestingDepth < (JSON.object data).depth →
      LineItem.Unmarshal std li data = .error (.scan ⟨"exceeded max depth"⟩)) := by
  refine ⟨fun hdepth => ?_, fun hdepth => Unmarshal_of_lt std li data hdepth⟩
  obtain ⟨ps, hps⟩ := LineItem_decodes_documented_shapes std li data r hstd hshape hrange
  exact ⟨ps, Unmarshal_of_ok std li _ data hdepth hps⟩

/-- C16 as the code has it: for every JSON object `x` that does not decode to
the empty element (empty name and nil value), a record whose `properties` is
`x` and the otherwise identical record whose `properties` is the one-element
array `[x]` decode to the same result, be it a line item or an error, when both
records are nested no deeper than `maxNestingDepth`; a record with `[x]` that
is nested deeper is refused by the scan. -/
theorem LineItem_Unmarshal_object_and_singleton_array_agree {R E : Type}
    (std : List (String × JSON) → R → Except E R) (li : LineItem R)
    (data1 data2 : List (String × JSON)) (members : List (String × JSON))
    (hother : otherMembers "properties" data1 = otherMembers "properties" data2)
    (hraw1 : (fieldValues "properties" data1).getLast? = some (.object members))
    (hraw2 : (fieldValues "properties" data2).getLast? = some (.array [.object members]))
    (hne : ∀ p, NoteAttribute.Unmarshal (.object members) = .ok p →
      p.Name ≠ "" ∨ p.Value.isNil = false) :
    ((JSON.object data1).depth ≤ maxNestingDepth →
      (JSON.object data2).depth ≤ maxNestingDepth →
      LineItem.Unmarshal std li data1 = LineItem.Unmarshal std li data2) ∧
    (maxNestingDepth < (JSON.object data2).depth →
      LineItem.Unmarshal std li data2 = .error (.scan ⟨"exceeded max depth"⟩)) := by
  refine ⟨fun h1 h2 => ?_, fun h2 => Unmarshal_of_lt std li data2 h2⟩
  unfold LineItem.Unmarshal
  rw [checkValid_of_le _ h1, checkValid_of_le _ h2,
    LineItem_object_and_singleton_array_agree std li data1 data2 members hother hraw1 hraw2 hne]

/-- C14 as the code has it, on the record `{"title": "Shirt", "properties":
{"name": "size", "value": 42}}`, which is nested two levels deep. -/
theorem LineItem_Unmarshal_decodes_documented_shapes_witness :
    DocumentedProperties (fieldValues "properties"
      [("title", JSON.string "Shirt"),
        ("properties", .object [("name", .string "size"), ("value", .number 42)])]).getLast? ∧
    PropertiesInRange (fieldValues "properties"
      [("title", JSON.string "Shirt"),
        ("properties", .object [("name", .string "size"), ("value", .number 42)])]).getLast? ∧
    ∃ ps, LineItem.Unmarshal titleField ⟨[], ""⟩
      [("title", .string "Shirt"),
        ("properties", .object [("name", .string "size"), ("value", .number 42)])] =
      .ok ⟨ps, "Shirt"⟩ :=
  have hshape : DocumentedProperties (fieldValues "properties"
      [("title", JSON.string "Shirt"),
        ("properties", .object [("name", .string "size"), ("value", .number 42)])]).getLast? := by
    show IsNameValueObject _
    refine ⟨_, rfl, ?_⟩
    intro m hm hname
    simp only [List.mem_cons, List.mem_singleton, List.not_mem_nil, or_false] at hm
    rcases hm with rfl | rfl
    · exact Or.inl ⟨_, rfl⟩
    · exact absurd hname (by decide)
  have hrange : PropertiesInRange (fieldValues "properties"
      [("title", JSON.string "Shirt"),
        ("properties", .object [("name", .string "size"), ("value", .number 42)])]).getLast? := by
    show ValuesInRange _
    intro members hmembers m hm _
    have hms : members = [("name", .string "size"), ("value", .number 42)] :=
      (JSON.object.inj hmembers).symm
    rw [hms] at hm
    simp only [List.mem_cons, List.mem_singleton, List.not_mem_nil, or_false] at hm
    rcases hm with rfl | rfl
    · rfl
    · rfl
  ⟨hshape, hrange, (LineItem_Unmarshal_decodes_documented_shapes titleField ⟨[], ""⟩
    [("title", .string "Shirt"),
      ("properties", .object [("name", .string "size"), ("value", .number 42)])]
    "Shirt" rfl hshape hrange).1 (by decide)⟩

/-- C16 as the code has it, on the object `{"name": "gift", "value": true}`. -/
theorem LineItem_Unmarshal_object_and_singleton_array_agree_witness :
    LineItem.Unmarshal titleField ⟨[], ""⟩
      [("title", .string "Mug"),
        ("properties", .object [("name", .string "gift"), ("value", .bool true)])] =
    LineItem.Unmarshal titleField ⟨[], ""⟩
      [("title", .string "Mug"),
        ("properties", .array [.object [("name", .string "gift"), ("value", .bool true)]])] :=
  (LineItem_Unmarshal_object_and_singleton_array_agree titleField ⟨[], ""⟩
    [("title", .string "Mug"),
      ("properties", .object [("name", .string "gift"), ("value", .bool true)])]
    [("title", .string "Mug"),
      ("properties", .array [.object [("name", .string "gift"), ("value", .bool true)]])]
    [("name", .string "gift"), ("value", .bool true)] rfl rfl rfl
    (fun p hp => Or.inl (by
      have h : p = ⟨"gift", .bool true⟩ := (Except.ok.inj hp).symm
      rw [h]
      decide))).1 (by decide) (by decide)

/-! ## Re-encoding at the nesting limit -/

/-- The depth of a value inside `n` arrays. -/
theorem depth_nested (n : Nat) (x : JSON) : (JSON.nested n x).depth = n + x.depth := by
  induction n with
  | zero => simp [JSON.nested]
  | succ n ih =>
    simp only [JSON.nested, JSON.depth, JSON.depthElems, ih]
    omega

/-- A value inside `n` arrays converts to the converted value inside `n`
slices, with the same error. -/
theorem valueInterface_nested (n : Nat) (x : JSON) :
    JSON.valueInterface (JSON.nested n x) =
      (GoValue.nested n (JSON.valueInterface x).1, (JSON.valueInterface x).2) := by
  induction n with
  | zero => rfl
  | succ n ih =>
    simp only [JSON.nested, GoValue.nested, JSON.valueInterface, JSON.arrayInterface, ih]
    cases (JSON.valueInterface x).2 <;> rfl

/-- A value inside `n` slices is encoded as its encoding inside `n` arrays. -/
theorem marshal_nested (n : Nat) (g : GoValue) :
    (GoValue.nested n g).Marshal = JSON.nested n g.Marshal := by
  induction n with
  | zero => rfl
  | succ n ih =>
    simp only [GoValue.nested, JSON.nested, GoValue.Marshal, GoValue.marshalElems, ih]

/-- A value that is not nil is not nil inside `n` slices. -/
theorem isNil_nested (n : Nat) (g : GoValue) (h : g.isNil = false) :
    (GoValue.nested n g).isNil = false := by
  cases n with
  | zero => exact h
  | succ n => rfl

/-- A record whose `properties` is the object `{"name": "deep", "value": v}`,
with `v` the number 1 inside `n` arrays, decodes when it is within the nesting
limit. -/
theorem Unmarshal_deep_object (n : Nat) (hn : n + 2 ≤ maxNestingDepth) :
    LineItem.Unmarshal titleField ⟨[], ""⟩
      [("properties", .object [("name", .string "deep"),
        ("value", JSON.nested n (.number 1))])] =
      .ok ⟨[⟨"deep", GoValue.nested n (.float64 1)⟩], ""⟩ := by
  have hone : JSON.valueInterface (.number 1) = (.float64 1, none) := by
    simp only [JSON.valueInterface, convertNumber_small 1 (by decide)]
  have hvalue : JSON.valueInterface (JSON.nested n (.number 1)) =
      (GoValue.nested n (.float64 1), none) := by
    rw [valueInterface_nested, hone]
  have hconv : (JSON.valueInterface (JSON.nested n (.number 1))).2 = none := by
    rw [hvalue]
  have hdec : NoteAttribute.Unmarshal (.object [("name", .string "deep"),
      ("value", JSON.nested n (.number 1))]) = .ok ⟨"deep", GoValue.nested n (.float64 1)⟩ := by
    have h1 : NoteAttribute.decodeMember (⟨"", .nil⟩, none) ("name", .string "deep") =
        (⟨"deep", .nil⟩, none) := rfl
    have h2 : NoteAttribute.decodeMember (⟨"deep", .nil⟩, none)
        ("value", JSON.nested n (.number 1)) =
        (⟨"deep", GoValue.nested n (.float64 1)⟩, none) := by
      unfold NoteAttribute.decodeMember
      rw [if_neg (by decide : ¬ fieldMatches "name" "value" = true),
        if_pos (by decide : fieldMatches "value" "value" = true)]
      simp only [storeInterface_of_no_error _ _ hconv, hvalue]
      rfl
    unfold NoteAttribute.Unmarshal NoteAttribute.decodeInto
    simp only [List.foldl_cons, List.foldl_nil, h1, h2]
  apply Unmarshal_of_ok
  · simp only [JSON.depth, JSON.depthMembers, depth_nested]
    omega
  · unfold LineItem.UnmarshalJSON LineItem.unmarshalAux
    have hstd : titleField (otherMembers "properties"
        [("properties", JSON.object [("name", .string "deep"),
          ("value", JSON.nested n (.number 1))])]) "" = .ok "" := rfl
    have hraw : (fieldValues "properties"
        [("properties", JSON.object [("name", .string "deep"),
          ("value", JSON.nested n (.number 1))])]).getLast? =
        some (.object [("name", .string "deep"), ("value", JSON.nested n (.number 1))]) := rfl
    simp only [hstd, hraw]
    have hbyte : ¬ (JSON.object [("name", .string "deep"),
        ("value", JSON.nested n (.number 1))]).firstByte = '[' := by
      show ¬ ('{' = '[')
      decide
    rw [if_neg hbyte, hdec]
    have hcond : ¬ (("deep" : String) = "" ∧ (GoValue.nested n (.float64 1)).isNil = true) :=
      fun h => absurd h.1 (by decide)
    exact if_neg hcond

/-- The re-encoding of the line item with the one property `deep`, whose value
is the number 1 inside `n` slices, is refused when it is beyond the nesting
limit. -/
theorem Unmarshal_deep_reencoding (n : Nat) (hn : maxNestingDepth < n + 3) :
    LineItem.Unmarshal titleField ⟨[], ""⟩
      (LineItem.Marshal titleMember (fun _ => [])
        ⟨[⟨"deep", GoValue.nested n (.float64 1)⟩], ""⟩) =
      .error (.scan ⟨"exceeded max depth"⟩) := by
  have hnil : (GoValue.nested n (.float64 1)).isNil = false := isNil_nested n _ rfl
  have hm : LineItem.Marshal titleMember (fun _ => [])
      ⟨[⟨"deep", GoValue.nested n (.float64 1)⟩], ""⟩ =
      [("properties", .array [.object [("name", .string "deep"),
        ("value", JSON.nested n (.number 1))]])] := by
    have hp : NoteAttribute.Marshal ⟨"deep", GoValue.nested n (.float64 1)⟩ =
        .object [("name", .string "deep"), ("value", JSON.nested n (.number 1))] := by
      unfold NoteAttribute.Marshal
      rw [if_neg (by decide : ¬ ("deep" : String) = ""),
        if_neg (by rw [hnil]; decide : ¬ (GoValue.nested n (.float64 1)).isNil = true),
        marshal_nested]
      rfl
    have hempty : ¬ ([(⟨"deep", GoValue.nested n (.float64 1)⟩ : NoteAttribute)].isEmpty =
        true) := by
      show ¬ (false = true)
      decide
    unfold LineItem.Marshal
    rw [if_neg hempty, List.map_singleton, hp]
    rfl
  rw [hm]
  apply Unmarshal_of_lt
  simp only [JSON.depth, JSON.depthMembers, JSON.depthElems, depth_nested]
  omega

/-- C12, the code at the nesting limit: the record
`{"properties": {"name": "deep", "value": v}}`, with `v` the number 1 inside
9998 arrays, is nested 10000 levels deep and decodes to one property; the
re-encoding of the decoded line item holds that property inside an array, is
nested 10001 levels deep, and the second decoding is refused. -/
theorem LineItem_reencoding_at_the_nesting_limit_is_refused :
    LineItem.Unmarshal titleField ⟨[], ""⟩
      [("properties", .object [("name", .string "deep"),
        ("value", JSON.nested 9998 (.number 1))])] =
      .ok ⟨[⟨"deep", GoValue.nested 9998 (.float64 1)⟩], ""⟩ ∧
    LineItem.Unmarshal titleField ⟨[], ""⟩
      (LineItem.Marshal titleMember (fun _ => [])
        ⟨[⟨"deep", GoValue.nested 9998 (.float64 1)⟩], ""⟩) =
      .error (.scan ⟨"exceeded max depth"⟩) :=
  ⟨Unmarshal_deep_object 9998 (by decide), Unmarshal_deep_reencoding 9998 (by decide)⟩

/-- C12 as the code has it: decoding a `LineItem` record whose `properties` is
on the wire (an array, a single object or null), re-encoding the decoded line
item and decoding the result into a fresh `LineItem` gives the properties of
the first decoding again, element for element, when the re-encoding is nested
no deeper than `maxNestingDepth`; a re-encoding that is nested deeper is
refused by the scan. The members written for the other fields are assumed not
to use the name `properties` and to decode. -/
theorem LineItem_Unmarshal_reencoding_is_idempotent {R E : Type}
    (std : List (String × JSON) → R → Except E R) (before after : R → List (String × JSON))
    (li0 li1 : LineItem R) (data : List (String × JSON)) (raw : JSON) (r0 r2 : R)
    (hraw : (fieldValues "properties" data).getLast? = some raw)
    (hfirst : LineItem.Unmarshal std li0 data = .ok li1)
    (hbefore : ∀ m ∈ before li1.rest, fieldMatches "properties" m.1 = false)
    (hafter : ∀ m ∈ after li1.rest, fieldMatches "properties" m.1 = false)
    (hstd : std (otherMembers "properties" (LineItem.Marshal before after li1)) r0 = .ok r2) :
    ((JSON.object (LineItem.Marshal before after li1)).depth ≤ maxNestingDepth →
      LineItem.Unmarshal std ⟨[], r0⟩ (LineItem.Marshal before after li1) =
        .ok ⟨li1.Properties, r2⟩) ∧
    (maxNestingDepth < (JSON.object (LineItem.Marshal before after li1)).depth →
      LineItem.Unmarshal std ⟨[], r0⟩ (LineItem.Marshal before after li1) =
        .error (.scan ⟨"exceeded max depth"⟩)) := by
  refine ⟨fun hdepth => ?_, fun hdepth => Unmarshal_of_lt std _ _ hdepth⟩
  exact Unmarshal_of_ok std _ _ _ hdepth
    (LineItem_reencoding_is_idempotent std before after li0 li1 data raw r0 r2 hraw
      (UnmarshalJSON_of_Unmarshal std li0 li1 data hfirst) hbefore hafter hstd)

/-- C12 as the code has it, on the record `{"title": "Mug", "properties":
{"name": "gift", "value": 2}}`: the single object decodes to one property, which
is written as an array of one object and read back as the same property. -/
theorem LineItem_Unmarshal_reencoding_is_idempotent_witness :
    LineItem.Unmarshal titleField ⟨[], ""⟩
      [("title", .string "Mug"),
        ("properties", .object [("name", .string "gift"), ("value", .number 2)])] =
      .ok ⟨[⟨"gift", .float64 2⟩], "Mug"⟩ ∧
    LineItem.Unmarshal titleField ⟨[], ""⟩
      (LineItem.Marshal titleMember (fun _ => []) ⟨[⟨"gift", .float64 2⟩], "Mug"⟩) =
      .ok ⟨[⟨"gift", .float64 2⟩], "Mug"⟩ :=
  ⟨rfl, (LineItem_Unmarshal_reencoding_is_idempotent titleField titleMember (fun _ => [])
    ⟨[], ""⟩ ⟨[⟨"gift", .float64 2⟩], "Mug"⟩
    [("title", .string "Mug"),
      ("properties", .object [("name", .string "gift"), ("value", .number 2)])]
    (.object [("name", .string "gift"), ("value", .number 2)]) "" "Mug" rfl rfl
    (by decide) (by decide) rfl).1 (by decide)⟩

/-! ## Errors of the client call, continued -/

/-- C21, the code on a client call that returns an error and stores nil
through the pointer it is given: `ListTags` and `ListBlogTags`, which hand the
client a pointer to their resource pointer, dereference nil and return
nothing, neither the error of the call nor any other result. -/
theorem ListTags_of_nil_pointer_returns_nothing :
    (nilPointerGet (ι := String) (ρ := ArticleTagsResource) 0 "articles/tags.json"
      (some ⟨[]⟩) none).2.2 = some "500 Internal Server Error" ∧
    ArticlesServiceOp.ListTags (ι := String) nilPointerGet 0 none = none ∧
    ArticlesServiceOp.ListBlogTags (ι := String) nilPointerGet 0 241253187 none = none :=
  ⟨rfl, rfl, rfl⟩

end GoShopify
